import Mathlib

/-!
# ToyC RISC-V code generator

A shallow embedding of `src/codegen/riscv.cpp` (class `RISCVCodeGenerator`) and theorems
about it.

* The generator object becomes the record `RISCVCodeGenerator`; every `visit` method is a
  function from the node and the generator state to the new generator state.
* `emit(text)` appends one line to the output.  Lines are kept in structured form (`Line`);
  `Line.text` gives, for every line, the exact text the C++ code builds for it.
* The AST node types carry exactly the fields of `ast/ast.hpp` that `riscv.cpp` reads;
  child pointers that the generator dereferences unconditionally are non-null.
* C++ `int` values are `Int`s; addition, subtraction and multiplication done by the generator
  on literal values wrap to 32 bits (`wrapInt`).  The division `INT_MIN / -1` and the
  remainder `INT_MIN % -1` are undefined in C++ (the process stops with an arithmetic fault):
  there `foldConstant` yields `undefined` and the generator state is marked `crashed`.
  Counters and offsets (`labelCounter`, `stackOffset`) are unbounded: they move by one label
  or four bytes per AST node.
-/

namespace ToyC

/-! ## Output lines -/

/-- Registers named in the emitted text. -/
inductive Reg where
  | t0 | t1 | t2
  | a (i : Nat)
  | ra | fp | sp
  deriving DecidableEq, Repr

/-- Register-register instructions emitted for binary expressions. -/
inductive AluOp where
  | add | sub | mul | div | rem | slt | and | or
  deriving DecidableEq, Repr

/-- One line of the output buffer: what `emit` or `emitLabel` appended. -/
inductive Line where
  | li (rd : Reg) (imm : Int)
  | addi (rd rs : Reg) (imm : Int)
  | lw (rd : Reg) (off : Int) (base : Reg)
  | sw (rs : Reg) (off : Int) (base : Reg)
  | alu (op : AluOp) (rd rs1 rs2 : Reg)
  | xori (rd rs : Reg) (imm : Int)
  | seqz (rd rs : Reg)
  | snez (rd rs : Reg)
  | neg (rd rs : Reg)
  | mv (rd rs : Reg)
  | luiHi (rd : Reg) (sym : String)
  | addiLo (rd rs : Reg) (sym : String)
  | call (target : String)
  | j (target : String)
  | beqz (rs : Reg) (target : String)
  | ret
  | comment (text : String)
  | directive (text : String)
  | label (name : String)
  deriving DecidableEq, Repr

def Reg.text : Reg → String
  | .t0 => "t0"
  | .t1 => "t1"
  | .t2 => "t2"
  | .a i => "a" ++ toString i
  | .ra => "ra"
  | .fp => "fp"
  | .sp => "sp"

def AluOp.text : AluOp → String
  | .add => "add"
  | .sub => "sub"
  | .mul => "mul"
  | .div => "div"
  | .rem => "rem"
  | .slt => "slt"
  | .and => "and"
  | .or => "or"

/-- The text of a line, without the trailing newline: the string handed to `emit`, or
the label followed by a colon for `emitLabel`. -/
def Line.text : Line → String
  | .li rd imm => "li " ++ rd.text ++ ", " ++ toString imm
  | .addi rd rs imm => "addi " ++ rd.text ++ ", " ++ rs.text ++ ", " ++ toString imm
  | .lw rd off base => "lw " ++ rd.text ++ ", " ++ toString off ++ "(" ++ base.text ++ ")"
  | .sw rs off base => "sw " ++ rs.text ++ ", " ++ toString off ++ "(" ++ base.text ++ ")"
  | .alu op rd rs1 rs2 => op.text ++ " " ++ rd.text ++ ", " ++ rs1.text ++ ", " ++ rs2.text
  | .xori rd rs imm => "xori " ++ rd.text ++ ", " ++ rs.text ++ ", " ++ toString imm
  | .seqz rd rs => "seqz " ++ rd.text ++ ", " ++ rs.text
  | .snez rd rs => "snez " ++ rd.text ++ ", " ++ rs.text
  | .neg rd rs => "neg " ++ rd.text ++ ", " ++ rs.text
  | .mv rd rs => "mv " ++ rd.text ++ ", " ++ rs.text
  | .luiHi rd sym => "lui " ++ rd.text ++ ", %hi(" ++ sym ++ ")"
  | .addiLo rd rs sym => "addi " ++ rd.text ++ ", " ++ rs.text ++ ", %lo(" ++ sym ++ ")"
  | .call target => "call " ++ target
  | .j target => "j " ++ target
  | .beqz rs target => "beqz " ++ rs.text ++ ", " ++ target
  | .ret => "ret"
  | .comment text => "# " ++ text
  | .directive text => text
  | .label name => name ++ ":"

/-- The output string: every line followed by a newline. -/
def renderOutput (ls : List Line) : String :=
  ls.foldl (fun acc l => acc ++ l.text ++ "\n") ""

/-! ## AST (the fields read by the generator) -/

inductive UnaryOp where
  | PLUS | MINUS | NOT
  deriving DecidableEq, Repr

inductive BinaryOp where
  | ADD | SUB | MUL | DIV | MOD | LT | LE | GT | GE | EQ | NE | AND | OR
  deriving DecidableEq, Repr

inductive Expression where
  | NumberLiteral (value : Int)
  | Identifier (name : String)
  | UnaryExpression (op : UnaryOp) (operand : Expression)
  | BinaryExpression (op : BinaryOp) (left right : Expression)
  | FunctionCall (functionName : String) (arguments : List Expression)

inductive Statement where
  | AssignmentStatement (varName : String) (value : Expression)
  | VariableDeclaration (name : String) (init : Option Expression)
  | Block (statements : List Statement)
  | IfStatement (condition : Expression) (thenStatement : Statement)
      (elseStatement : Option Statement)
  | WhileStatement (condition : Expression) (body : Statement)
  | BreakStatement
  | ContinueStatement
  | ReturnStatement (value : Option Expression)
  | ExpressionStatement (expression : Expression)

/-- The two values of `Expression::Type` the generator distinguishes. -/
inductive ValueType where
  | INT | VOID
  deriving DecidableEq, Repr

structure Parameter where
  name : String
  type : ValueType
  deriving DecidableEq, Repr

/-- A function definition; `body` holds the statements of the body block
(`node.body->statements`). -/
structure FunctionDefinition where
  name : String
  returnType : ValueType
  parameters : List Parameter
  body : List Statement

structure CompilationUnit where
  functions : List FunctionDefinition

/-- The record of `common/types.hpp`. -/
structure FunctionInfo where
  name : String
  returnType : ValueType
  paramTypes : List ValueType
  isDefined : Bool
  deriving DecidableEq, Repr

/-! ## Generator state -/

/-- A `std::unordered_map<std::string, int>` as an association list with unique keys. -/
abbrev NameMap := List (String × Int)

/-- Lookup, `m.find(name)`: the bound value, or `none` for `m.end()`. -/
def mapFind : NameMap → String → Option Int
  | [], _ => none
  | (k, v) :: rest, name => if k = name then some v else mapFind rest name

/-- Assignment through `operator[]`, `m[name] = v`: overwrite the binding or add one. -/
def mapAssign : NameMap → String → Int → NameMap
  | [], name, v => [(name, v)]
  | (k, w) :: rest, name, v =>
      if k = name then (k, v) :: rest else (k, w) :: mapAssign rest name v

/-- The data members of `class RISCVCodeGenerator` (riscv.hpp), and the mark `crashed`,
which is not a data member: it is set when the generator's own arithmetic is undefined in
C++ and the process stops there with an arithmetic fault.  Nothing reads the mark; once it is
set, what the other members hold no longer describes the program, which has ended. -/
structure RISCVCodeGenerator where
  output : List Line
  localVariables : NameMap
  functions : List (String × FunctionInfo)
  stackOffset : Int
  labelCounter : Nat
  currentFunction : String
  optimizationsEnabled : Bool
  constantValues : NameMap
  deadCode : List String
  breakLabels : List String
  continueLabels : List String
  scopeStack : List NameMap
  crashed : Bool
  deriving DecidableEq

/-- The constructor: `stackOffset(0), labelCounter(0), optimizationsEnabled(false)`, all
containers empty. -/
def RISCVCodeGenerator.new : RISCVCodeGenerator :=
  { output := [], localVariables := [], functions := [], stackOffset := 0,
    labelCounter := 0, currentFunction := "", optimizationsEnabled := false,
    constantValues := [], deadCode := [], breakLabels := [], continueLabels := [],
    scopeStack := [], crashed := false }

def enableOptimizations (g : RISCVCodeGenerator) : RISCVCodeGenerator :=
  { g with optimizationsEnabled := true }

def emit (g : RISCVCodeGenerator) (instruction : Line) : RISCVCodeGenerator :=
  { g with output := g.output ++ [instruction] }

def emitLabel (g : RISCVCodeGenerator) (label : String) : RISCVCodeGenerator :=
  { g with output := g.output ++ [Line.label label] }

/-- The label `pre + std::to_string(labelCounter++)` and the generator with the counter
advanced. -/
def newLabel (g : RISCVCodeGenerator) (pre : String) : String × RISCVCodeGenerator :=
  (pre ++ toString g.labelCounter, { g with labelCounter := g.labelCounter + 1 })

/-! ## 32-bit integers -/

/-- The `int` a C++ arithmetic result is stored as: reduction to the 32-bit two's-complement
range. -/
def wrapInt (v : Int) : Int := (v + 2147483648) % 4294967296 - 2147483648

/-- What the `switch (node.op)` of `optimizeConstantFolding` does with two `int` values:
it reaches the emitting code with a `result` (`value`), it executes `return` (`skip`: zero
divisor, other operators), or it evaluates a division whose result is not defined in C++
(`undefined`). -/
inductive FoldOutcome where
  | value (result : Int)
  | skip
  | undefined
  deriving DecidableEq, Repr

/-- The C++ expressions `leftVal / rightVal` and `leftVal % rightVal` on `int`s are undefined
when the quotient is not representable: `INT_MIN / -1` and `INT_MIN % -1`. -/
def divisionOverflows (leftVal rightVal : Int) : Bool :=
  leftVal = -2147483648 && rightVal = -1

/-- Generation-time evaluation in `optimizeConstantFolding`.  The only guard of the source
on `/` and `%` is `rightVal != 0`. -/
def foldConstant (op : BinaryOp) (leftVal rightVal : Int) : FoldOutcome :=
  match op with
  | .ADD => .value (wrapInt (leftVal + rightVal))
  | .SUB => .value (wrapInt (leftVal - rightVal))
  | .MUL => .value (wrapInt (leftVal * rightVal))
  | .DIV =>
      if rightVal ≠ 0 then
        if divisionOverflows leftVal rightVal then .undefined
        else .value (wrapInt (Int.tdiv leftVal rightVal))
      else .skip
  | .MOD =>
      if rightVal ≠ 0 then
        if divisionOverflows leftVal rightVal then .undefined
        else .value (wrapInt (Int.tmod leftVal rightVal))
      else .skip
  | _ => .skip

/-! ## Expression lowering -/

def isConstantExpression (g : RISCVCodeGenerator) (expr : Expression) : Bool :=
  match expr with
  | .NumberLiteral _ => true
  | .Identifier name => (mapFind g.constantValues name).isSome
  | _ => false

def evaluateConstantExpression (g : RISCVCodeGenerator) (expr : Expression) : Int :=
  match expr with
  | .NumberLiteral value => value
  | .Identifier name =>
      match mapFind g.constantValues name with
      | some v => v
      | none => 0
  | _ => 0

/-- The body of `optimizeConstantFolding(node)`; `acceptLeft` is `node.left->accept(*this)`.
Where the generation-time division is undefined the process stops: nothing is emitted and
the state is marked `crashed`. -/
def optimizeConstantFolding (op : BinaryOp) (left right : Expression)
    (acceptLeft : RISCVCodeGenerator → RISCVCodeGenerator) (g : RISCVCodeGenerator) :
    RISCVCodeGenerator :=
  if !g.optimizationsEnabled then g
  else if isConstantExpression g left && isConstantExpression g right then
    let leftVal := evaluateConstantExpression g left
    let rightVal := evaluateConstantExpression g right
    match foldConstant op leftVal rightVal with
    | .skip => g
    | .undefined => { g with crashed := true }
    | .value result =>
        let g := emit g (.li .t0 result)
        let g := emit g (.addi .sp .sp (-4))
        emit g (.sw .t0 0 .sp)
  else if isConstantExpression g right then
    let rightVal := evaluateConstantExpression g right
    if op = .ADD ∧ rightVal = 0 then acceptLeft g
    else if op = .MUL ∧ rightVal = 1 then acceptLeft g
    else if op = .MUL ∧ rightVal = 0 then
      let g := emit g (.li .t0 0)
      let g := emit g (.addi .sp .sp (-4))
      emit g (.sw .t0 0 .sp)
    else g
  else g

/-- The `switch (node.op)` of the unoptimized `visit(BinaryExpression&)`. -/
def emitBinaryOp (g : RISCVCodeGenerator) (op : BinaryOp) : RISCVCodeGenerator :=
  match op with
  | .ADD => emit g (.alu .add .t0 .t0 .t1)
  | .SUB => emit g (.alu .sub .t0 .t0 .t1)
  | .MUL => emit g (.alu .mul .t0 .t0 .t1)
  | .DIV => emit g (.alu .div .t0 .t0 .t1)
  | .MOD => emit g (.alu .rem .t0 .t0 .t1)
  | .LT => emit g (.alu .slt .t0 .t0 .t1)
  | .LE => emit (emit g (.alu .slt .t2 .t1 .t0)) (.xori .t0 .t2 1)
  | .GT => emit g (.alu .slt .t0 .t1 .t0)
  | .GE => emit (emit g (.alu .slt .t2 .t0 .t1)) (.xori .t0 .t2 1)
  | .EQ => emit (emit g (.alu .sub .t0 .t0 .t1)) (.seqz .t0 .t0)
  | .NE => emit (emit g (.alu .sub .t0 .t0 .t1)) (.snez .t0 .t0)
  | .AND => emit g (.alu .and .t0 .t0 .t1)
  | .OR => emit g (.alu .or .t0 .t0 .t1)

/-- The `switch (node.op)` of `visit(UnaryExpression&)`. -/
def emitUnaryOp (g : RISCVCodeGenerator) (op : UnaryOp) : RISCVCodeGenerator :=
  match op with
  | .PLUS => g
  | .MINUS => emit g (.neg .t0 .t0)
  | .NOT => emit g (.seqz .t0 .t0)

mutual
/-- The `visit` methods for the five expression node kinds. -/
def visitExpression : Expression → RISCVCodeGenerator → RISCVCodeGenerator
  | .NumberLiteral value, g =>
      let g := emit g (.li .t0 value)
      let g := emit g (.addi .sp .sp (-4))
      emit g (.sw .t0 0 .sp)
  | .Identifier name, g =>
      match mapFind g.localVariables name with
      | some offset =>
          let g := emit g (.lw .t0 offset .fp)
          let g := emit g (.addi .sp .sp (-4))
          emit g (.sw .t0 0 .sp)
      | none =>
          let g := emit g (.luiHi .t0 name)
          let g := emit g (.addiLo .t0 .t0 name)
          let g := emit g (.lw .t0 0 .t0)
          let g := emit g (.addi .sp .sp (-4))
          emit g (.sw .t0 0 .sp)
  | .UnaryExpression op operand, g =>
      let g := visitExpression operand g
      let g := emit g (.lw .t0 0 .sp)
      let g := emitUnaryOp g op
      emit g (.sw .t0 0 .sp)
  | .BinaryExpression op left right, g =>
      if g.optimizationsEnabled then
        optimizeConstantFolding op left right (visitExpression left) g
      else
        let g := visitExpression left g
        let g := visitExpression right g
        let g := emit g (.lw .t1 0 .sp)
        let g := emit g (.addi .sp .sp 4)
        let g := emit g (.lw .t0 0 .sp)
        let g := emitBinaryOp g op
        emit g (.sw .t0 0 .sp)
  | .FunctionCall functionName arguments, g =>
      let (g, stackArgs) := visitArguments arguments 0 0 g
      let g := emit g (.call functionName)
      let g := if stackArgs > 0 then emit g (.addi .sp .sp (stackArgs * 4)) else g
      let g := emit g (.addi .sp .sp (-4))
      emit g (.sw (.a 0) 0 .sp)
/-- The argument loop of `visit(FunctionCall&)`, from index `i` on, with the running
`stackArgs`; returns the generator and the final `stackArgs`. -/
def visitArguments : List Expression → Nat → Int → RISCVCodeGenerator →
    RISCVCodeGenerator × Int
  | [], _, stackArgs, g => (g, stackArgs)
  | arg :: rest, i, stackArgs, g =>
      let g := visitExpression arg g
      let g := emit g (.lw .t0 0 .sp)
      let g := emit g (.addi .sp .sp 4)
      if i < 8 then
        let g := emit g (.mv (.a i) .t0)
        visitArguments rest (i + 1) stackArgs g
      else
        let g := emit g (.addi .sp .sp (-4))
        let g := emit g (.sw .t0 0 .sp)
        visitArguments rest (i + 1) (stackArgs + 1) g
end

/-! ## Statement lowering -/

def generatePrologue (g : RISCVCodeGenerator) (funcName : String) (localSize : Int) :
    RISCVCodeGenerator :=
  let g := emitLabel g funcName
  let g := emit g (.addi .sp .sp (-16))
  let g := emit g (.sw .ra 12 .sp)
  let g := emit g (.sw .fp 8 .sp)
  let g := emit g (.addi .fp .sp 16)
  if localSize > 16 then emit g (.addi .sp .sp (-(localSize - 16))) else g

def generateEpilogue (g : RISCVCodeGenerator) : RISCVCodeGenerator :=
  let g := emit g (.lw .ra (-4) .fp)
  let g := emit g (.lw .fp (-8) .fp)
  let g := emit g (.addi .sp .sp 16)
  emit g .ret

mutual
/-- The `visit` methods for the statement node kinds. -/
def visitStatement : Statement → RISCVCodeGenerator → RISCVCodeGenerator
  | .AssignmentStatement varName value, g =>
      let g := visitExpression value g
      let g := emit g (.lw .t0 0 .sp)
      let g := emit g (.addi .sp .sp 4)
      match mapFind g.localVariables varName with
      | some offset => emit g (.sw .t0 offset .fp)
      | none =>
          let g := emit g (.luiHi .t1 varName)
          let g := emit g (.addiLo .t1 .t1 varName)
          emit g (.sw .t0 0 .t1)
  | .VariableDeclaration name init, g =>
      let g :=
        match init with
        | some e =>
            let g := visitExpression e g
            let g := emit g (.lw .t0 0 .sp)
            emit g (.addi .sp .sp 4)
        | none => emit g (.li .t0 0)
      let g := { g with stackOffset := g.stackOffset - 4 }
      let g := { g with localVariables := mapAssign g.localVariables name g.stackOffset }
      emit g (.sw .t0 g.stackOffset .fp)
  | .Block statements, g =>
      let g := { g with scopeStack := g.localVariables :: g.scopeStack }
      let g := visitStatements statements g
      -- `scopeStack.top()` / `pop()`; the stack is never empty here (the push above)
      match g.scopeStack with
      | top :: rest => { g with localVariables := top, scopeStack := rest }
      | [] => g
  | .IfStatement condition thenStatement elseStatement, g =>
      let (elseLabel, g) := newLabel g "else"
      let (endLabel, g) := newLabel g "endif"
      let g := visitExpression condition g
      let g := emit g (.lw .t0 0 .sp)
      let g := emit g (.addi .sp .sp 4)
      let g := emit g (.beqz .t0 elseLabel)
      let g := visitStatement thenStatement g
      let g := emit g (.j endLabel)
      let g := emitLabel g elseLabel
      let g :=
        match elseStatement with
        | some s => visitStatement s g
        | none => g
      emitLabel g endLabel
  | .WhileStatement condition body, g =>
      let (loopLabel, g) := newLabel g "loop"
      let (endLabel, g) := newLabel g "endloop"
      let g := { g with breakLabels := endLabel :: g.breakLabels }
      let g := { g with continueLabels := loopLabel :: g.continueLabels }
      let g := emitLabel g loopLabel
      let g := visitExpression condition g
      let g := emit g (.lw .t0 0 .sp)
      let g := emit g (.addi .sp .sp 4)
      let g := emit g (.beqz .t0 endLabel)
      let g := visitStatement body g
      let g := emit g (.j loopLabel)
      let g := emitLabel g endLabel
      let g := { g with breakLabels := g.breakLabels.tail }
      { g with continueLabels := g.continueLabels.tail }
  | .BreakStatement, g =>
      match g.breakLabels with
      | top :: _ => emit g (.j top)
      | [] => emit g (.comment "ERROR: break statement outside of loop")
  | .ContinueStatement, g =>
      match g.continueLabels with
      | top :: _ => emit g (.j top)
      | [] => emit g (.comment "ERROR: continue statement outside of loop")
  | .ReturnStatement value, g =>
      let g :=
        match value with
        | some e =>
            let g := visitExpression e g
            let g := emit g (.lw (.a 0) 0 .sp)
            emit g (.addi .sp .sp 4)
        | none => g
      generateEpilogue g
  | .ExpressionStatement expression, g =>
      let g := visitExpression expression g
      emit g (.addi .sp .sp 4)
/-- The statement loop of `visit(Block&)`. -/
def visitStatements : List Statement → RISCVCodeGenerator → RISCVCodeGenerator
  | [], g => g
  | stmt :: rest, g => visitStatements rest (visitStatement stmt g)
end

/-! ## Function and unit lowering -/

/-- The precount loop of `visit(FunctionDefinition&)`: the number of statements directly in
the body that are variable declarations. -/
def countLocalVars : List Statement → Int
  | [] => 0
  | .VariableDeclaration _ _ :: rest => countLocalVars rest + 1
  | _ :: rest => countLocalVars rest

/-- The mask `x & ~15` on a two's-complement `int`: the four low bits are cleared, which
gives the largest multiple of 16 not above `x` (`%` is the non-negative remainder). -/
def clearLowBits (x : Int) : Int := x - x % 16

/-- The `localSize` handed to `generatePrologue`:
`(16 + parameters.size() * 4 + localVarCount * 4 + 15) & ~15`. -/
def frameSize (node : FunctionDefinition) : Int :=
  let paramSize : Int := node.parameters.length * 4
  let localSize := 16 + paramSize + countLocalVars node.body * 4
  clearLowBits (localSize + 15)

/-- The parameter loop of `visit(FunctionDefinition&)`, from index `i` on. -/
def bindParameters : List Parameter → Nat → RISCVCodeGenerator → RISCVCodeGenerator
  | [], _, g => g
  | p :: rest, i, g =>
      if i < 8 then
        let g := { g with stackOffset := g.stackOffset - 4 }
        let g := { g with localVariables := mapAssign g.localVariables p.name g.stackOffset }
        let g := emit g (.sw (.a i) g.stackOffset .fp)
        bindParameters rest (i + 1) g
      else bindParameters rest (i + 1) g

/-- The first part of `visit(FunctionDefinition&)`, up to and including the parameter loop:
the state in which the body is lowered. -/
def enterFunction (node : FunctionDefinition) (g : RISCVCodeGenerator) : RISCVCodeGenerator :=
  let g := { g with currentFunction := node.name }
  let g := { g with localVariables := [] }
  let g := { g with stackOffset := -20 }
  let g := generatePrologue g node.name (frameSize node)
  bindParameters node.parameters 0 g

def visitFunctionDefinition (node : FunctionDefinition) (g : RISCVCodeGenerator) :
    RISCVCodeGenerator :=
  let g := enterFunction node g
  let g := visitStatement (.Block node.body) g
  if node.returnType = .VOID then generateEpilogue g else g

def visitCompilationUnit (node : CompilationUnit) (g : RISCVCodeGenerator) :
    RISCVCodeGenerator :=
  node.functions.foldl (fun g func => visitFunctionDefinition func g) g

/-- The method `generate(unit, funcTable)`: the generator after the run; the returned string
is `renderOutput` of its `output` (`generateText` says whether the call returns). -/
def generate (g : RISCVCodeGenerator) (unit : CompilationUnit)
    (funcTable : List (String × FunctionInfo)) : RISCVCodeGenerator :=
  let g := { g with output := [] }
  let g := { g with functions := funcTable }
  let g := { g with stackOffset := 0 }
  let g := { g with labelCounter := 0 }
  let g := emit g (.directive ".data")
  let g := emit g (.directive ".text")
  let g := emit g (.directive ".global main")
  visitCompilationUnit unit g

/-! ## Measuring the output -/

/-- The lines appended between generator state `g` and a later state `g2`. -/
def emitted (g g2 : RISCVCodeGenerator) : List Line :=
  g2.output.drop g.output.length

/-- The immediate `k` of a line `addi sp, sp, k`; other lines do not move `sp` by an
immediate and count 0. -/
def spImmediate : Line → Int
  | .addi .sp .sp k => k
  | _ => 0

/-- The sum of the immediates over all `addi sp, sp, k` lines of a sequence. -/
def spSum (ls : List Line) : Int :=
  (ls.map spImmediate).sum

/-! ## RV32IM arithmetic on register words

Register contents are words `w < 2^32`.  `execAlu` is the result the instruction writes to
`rd` for source words `x` and `y`, as the ISA defines it: wrap-around `add`, `sub`, `mul`;
signed `div` and `rem` truncating toward zero, with all-ones (`div`) or the dividend (`rem`)
for a zero divisor; the overflow case `-2^31 / -1` gives `2^31` as a word (`div`) and `0`
(`rem`), which is what the general formula yields. -/

/-- The word holding a signed value. -/
def toWord (v : Int) : Nat := (v % 4294967296).toNat

/-- The signed value of a word. -/
def toSigned (w : Nat) : Int :=
  if w < 2147483648 then (w : Int) else (w : Int) - 4294967296

def execAlu : AluOp → Nat → Nat → Nat
  | .add, x, y => (x + y) % 4294967296
  | .sub, x, y => (x + (4294967296 - y % 4294967296)) % 4294967296
  | .mul, x, y => (x * y) % 4294967296
  | .div, x, y =>
      if y = 0 then 4294967295 else toWord (Int.tdiv (toSigned x) (toSigned y))
  | .rem, x, y =>
      if y = 0 then x else toWord (Int.tmod (toSigned x) (toSigned y))
  | .slt, x, y => if toSigned x < toSigned y then 1 else 0
  | .and, x, y => Nat.land x y
  | .or, x, y => Nat.lor x y

/-- The values of a C++ `int`. -/
def isInt32 (v : Int) : Prop := -2147483648 ≤ v ∧ v < 2147483648

instance (v : Int) : Decidable (isInt32 v) := by
  unfold isInt32; infer_instance

/-- The string `generate(unit, funcTable)` returns, if the call returns: `none` when the run
stopped with an arithmetic fault. -/
def generateText (g : RISCVCodeGenerator) (unit : CompilationUnit)
    (funcTable : List (String × FunctionInfo)) : Option String :=
  if (generate g unit funcTable).crashed then none
  else some (renderOutput (generate g unit funcTable).output)

/-- The generator `g` with its output buffer replaced. -/
def withOutput (g : RISCVCodeGenerator) (out : List Line) : RISCVCodeGenerator :=
  { g with output := out }

/-- The generator `g` with its output buffer and its `crashed` mark replaced. -/
def withOutputCrashed (g : RISCVCodeGenerator) (out : List Line) (b : Bool) :
    RISCVCodeGenerator :=
  { g with output := out, crashed := b }

/-- Whether lowering `e` in state `g` runs into an undefined generation-time division. -/
def exprFaults (e : Expression) (g : RISCVCodeGenerator) : Bool :=
  (visitExpression e (withOutputCrashed g [] false)).crashed

/-- The lines that lowering `e` appends in state `g` (they do not depend on the buffer). -/
def exprCode (e : Expression) (g : RISCVCodeGenerator) : List Line :=
  (visitExpression e (withOutput g [])).output

/-- The lines that the argument loop appends for `args`, starting at index `i`. -/
def argsCode (args : List Expression) (i : Nat) (g : RISCVCodeGenerator) : List Line :=
  (visitArguments args i 0 (withOutput g [])).1.output

/-- Whether the argument loop for `args` runs into an undefined generation-time division. -/
def argsFault (args : List Expression) (i : Nat) (g : RISCVCodeGenerator) : Bool :=
  (visitArguments args i 0 (withOutputCrashed g [] false)).1.crashed

/-- The number of stack-passed arguments the loop counts for `args`, starting at index `i`. -/
def argsStack (args : List Expression) (i : Nat) (g : RISCVCodeGenerator) : Int :=
  (visitArguments args i 0 (withOutput g [])).2

/-- The lines the call sequence contains for argument number `i` after the argument's own
code: the pop into `t0`, then the move into `a<i>` for the first eight arguments and the
re-push for the others. -/
def passArgument (i : Nat) : List Line :=
  [.lw .t0 0 .sp, .addi .sp .sp 4]
    ++ (if i < 8 then [.mv (.a i) .t0] else [.addi .sp .sp (-4), .sw .t0 0 .sp])

/-- The call sequence as the calling convention describes it, for a call of `f` with the
arguments `args` in state `g`: per argument, in order, its code and `passArgument`; the
`call`; the deflation by four bytes per stack-passed argument, if there is any; the push of
`a0`. -/
def callSequence (f : String) (args : List Expression) (g : RISCVCodeGenerator) : List Line :=
  ((List.enumFrom 0 args).flatMap (fun p => exprCode p.2 g ++ passArgument p.1))
    ++ [.call f]
    ++ (if args.length > 8 then [.addi .sp .sp (4 * ((args.length : Int) - 8))] else [])
    ++ [.addi .sp .sp (-4), .sw (.a 0) 0 .sp]

/-- The register a line writes, if it names a destination register. -/
def destReg : Line → Option Reg
  | .li rd _ => some rd
  | .addi rd _ _ => some rd
  | .lw rd _ _ => some rd
  | .alu _ rd _ _ => some rd
  | .xori rd _ _ => some rd
  | .seqz rd _ => some rd
  | .snez rd _ => some rd
  | .neg rd _ => some rd
  | .mv rd _ => some rd
  | .luiHi rd _ => some rd
  | .addiLo rd _ _ => some rd
  | _ => none

/-- The program `f(1, g(2))`. -/
def nestedCall : Expression :=
  .FunctionCall "f" [.NumberLiteral 1, .FunctionCall "g" [.NumberLiteral 2]]

/-- A function `int h(int p0, ..., int p8) { return p8; }` with nine parameters. -/
def nineParameters : FunctionDefinition :=
  { name := "h", returnType := .INT,
    parameters := [⟨"p0", .INT⟩, ⟨"p1", .INT⟩, ⟨"p2", .INT⟩, ⟨"p3", .INT⟩, ⟨"p4", .INT⟩,
      ⟨"p5", .INT⟩, ⟨"p6", .INT⟩, ⟨"p7", .INT⟩, ⟨"p8", .INT⟩],
    body := [.ReturnStatement (some (.Identifier "p8"))] }

/-- The ten literal arguments `0, 1, ..., 9`. -/
def tenArguments : List Expression :=
  [.NumberLiteral 0, .NumberLiteral 1, .NumberLiteral 2, .NumberLiteral 3, .NumberLiteral 4,
   .NumberLiteral 5, .NumberLiteral 6, .NumberLiteral 7, .NumberLiteral 8, .NumberLiteral 9]

/-- The code of a literal argument `v` followed by the pop into `t0`. -/
def literalArgument (v : Int) : List Line :=
  [.li .t0 v, .addi .sp .sp (-4), .sw .t0 0 .sp, .lw .t0 0 .sp, .addi .sp .sp 4]

/-! ## Labels -/

/-- The label a line defines, if it is a label-definition line. -/
def labelName : Line → Option String
  | .label name => some name
  | _ => none

/-- The labels defined in a sequence of lines, in order (one entry per line `<label>:`). -/
def labelDefs (ls : List Line) : List String :=
  ls.filterMap labelName

/-- The prefixes handed to `newLabel` by the if and while lowering. -/
def labelPrefixes : List String := ["else", "endif", "loop", "endloop"]

/-- A name of the form a generated label has: a prefix followed by a decimal counter. -/
def isGeneratedLabel (s : String) : Prop :=
  ∃ pre ∈ labelPrefixes, ∃ n : Nat, s = pre ++ toString n

/-- The labels `L` are pairwise different generated labels with counters in `[a, b)`. -/
def GenLabels (a b : Nat) (L : List String) : Prop :=
  L.Nodup ∧ ∀ l ∈ L, ∃ pre ∈ labelPrefixes, ∃ n : Nat, a ≤ n ∧ n < b ∧ l = pre ++ toString n

/-- Going from output `o` and label counter `c` to `o2` and `c2` adds only fresh generated
labels. -/
def LabelStep (o : List Line) (c : Nat) (o2 : List Line) (c2 : Nat) : Prop :=
  ∃ L, labelDefs o2 = labelDefs o ++ L ∧ c ≤ c2 ∧ GenLabels c c2 L

/-- The value of a decimal digit string, continuing from `start`. -/
def decimalValue (cs : List Char) (start : Nat) : Nat :=
  cs.foldl (fun acc c => 10 * acc + (c.toNat - 48)) start

/-- The unit `void loop0() { while (1) { } }`. -/
def loopNamedUnit : CompilationUnit :=
  { functions := [{ name := "loop0", returnType := .VOID, parameters := [],
                    body := [.WhileStatement (.NumberLiteral 1) (.Block [])] }] }

/-- The unit `int main() { return a / b; }` for literal values `a` and `b`. -/
def divisionUnit (a b : Int) : CompilationUnit :=
  { functions := [{
      name := "main", returnType := .INT, parameters := [],
      body := [.ReturnStatement
                (some (.BinaryExpression .DIV (.NumberLiteral a) (.NumberLiteral b)))] }] }

/-- The unit `int main() { int x = 0; while (x < 3) { if (x) { break; } x = x + 1; }
return x; }`. -/
def sampleUnit : CompilationUnit :=
  { functions := [{
      name := "main", returnType := .INT, parameters := [],
      body := [.VariableDeclaration "x" (some (.NumberLiteral 0)),
               .WhileStatement (.BinaryExpression .LT (.Identifier "x") (.NumberLiteral 3))
                 (.Block [.IfStatement (.Identifier "x") (.Block [.BreakStatement]) none,
                          .AssignmentStatement "x"
                            (.BinaryExpression .ADD (.Identifier "x") (.NumberLiteral 1))]),
               .ReturnStatement (some (.Identifier "x"))] }] }

/-- The state of `visit(IfStatement&)` when the then-branch is lowered: both labels taken,
the condition lowered and the `beqz` emitted. -/
def ifCondState (condition : Expression) (g : RISCVCodeGenerator) : RISCVCodeGenerator :=
  let (elseLabel, g) := newLabel g "else"
  let (_, g) := newLabel g "endif"
  let g := visitExpression condition g
  let g := emit g (.lw .t0 0 .sp)
  let g := emit g (.addi .sp .sp 4)
  emit g (.beqz .t0 elseLabel)

/-- The state of `visit(WhileStatement&)` when the body is lowered: both labels taken and
pushed, the loop label emitted, the condition lowered and the `beqz` emitted. -/
def whileCondState (condition : Expression) (g : RISCVCodeGenerator) : RISCVCodeGenerator :=
  let (loopLabel, g) := newLabel g "loop"
  let (endLabel, g) := newLabel g "endloop"
  let g := { g with breakLabels := endLabel :: g.breakLabels }
  let g := { g with continueLabels := loopLabel :: g.continueLabels }
  let g := emitLabel g loopLabel
  let g := visitExpression condition g
  let g := emit g (.lw .t0 0 .sp)
  let g := emit g (.addi .sp .sp 4)
  emit g (.beqz .t0 endLabel)

/-! ## Frames -/

/-- Whether a statement is a variable declaration (the `dynamic_cast` of the precount loop). -/
def isVariableDeclaration : Statement → Bool
  | .VariableDeclaration _ _ => true
  | _ => false

/-- The number of variable declarations directly at the top level of a body. -/
def topLevelDeclarations (body : List Statement) : Nat :=
  (body.filter isVariableDeclaration).length

/-- The frame size as the specification words it, for `n` parameters and `m` top-level
declarations: the smallest multiple of 16 that is at least `16 + 4 * min(n, 8) + 4 * m`. -/
def specFrameSize (n m : Nat) : Int :=
  (((16 + 4 * min n 8 + 4 * m + 15) / 16 * 16 : Nat) : Int)

/-- The function `int id(int a) { return a; }`. -/
def identityFunction : FunctionDefinition :=
  { name := "id", returnType := .INT, parameters := [⟨"a", .INT⟩],
    body := [.ReturnStatement (some (.Identifier "a"))] }

/-- The function `void f() { int a; int b; int c; int d; }`. -/
def fourLocals : FunctionDefinition :=
  { name := "f", returnType := .VOID, parameters := [],
    body := [.VariableDeclaration "a" none, .VariableDeclaration "b" none,
             .VariableDeclaration "c" none, .VariableDeclaration "d" none] }

/-- The function `void k(int p0, ..., int p7) { }` with eight parameters. -/
def eightParameters : FunctionDefinition :=
  { name := "k", returnType := .VOID,
    parameters := [⟨"p0", .INT⟩, ⟨"p1", .INT⟩, ⟨"p2", .INT⟩, ⟨"p3", .INT⟩, ⟨"p4", .INT⟩,
      ⟨"p5", .INT⟩, ⟨"p6", .INT⟩, ⟨"p7", .INT⟩],
    body := [] }

/-! ## Frame slots -/

mutual
/-- The number of variable declarations in a statement, at any depth. -/
def declCount : Statement → Nat
  | .VariableDeclaration _ _ => 1
  | .Block ss => declCountList ss
  | .IfStatement _ t (some e) => declCount t + declCount e
  | .IfStatement _ t none => declCount t
  | .WhileStatement _ b => declCount b
  | _ => 0
/-- The number of variable declarations in a statement list, at any depth. -/
def declCountList : List Statement → Nat
  | [] => 0
  | s :: rest => declCount s + declCountList rest
end

/-- The slot invariant of a generator state: the offsets in the visible map are pairwise
different, and none lies below the offset counter. -/
def SlotInv (g : RISCVCodeGenerator) : Prop :=
  (g.localVariables.map Prod.snd).Nodup ∧ ∀ p ∈ g.localVariables, g.stackOffset ≤ p.2

/-- The body `if (1) { int y = 1; } int y = 2; return y;`. -/
def shadowBody : List Statement :=
  [.IfStatement (.NumberLiteral 1)
      (.Block [.VariableDeclaration "y" (some (.NumberLiteral 1))]) none,
   .VariableDeclaration "y" (some (.NumberLiteral 2)),
   .ReturnStatement (some (.Identifier "y"))]

/-- The function `int main() { if (1) { int y = 1; } int y = 2; return y; }`. -/
def shadowFunction : FunctionDefinition :=
  { name := "main", returnType := .INT, parameters := [], body := shadowBody }

/-! ## Loops -/

mutual
/-- The statements lowered in the course of lowering `s` from state `g` without entering a
while statement, each with the generator state its `visit` starts from: `s` itself, and for
a block or an if statement also the statements inside it, in lowering order.  A while
statement is listed but its body is not entered. -/
def directLowerings : Statement → RISCVCodeGenerator → List (Statement × RISCVCodeGenerator)
  | .Block ss, g =>
      (.Block ss, g)
        :: directLoweringsList ss { g with scopeStack := g.localVariables :: g.scopeStack }
  | .IfStatement c t (some e), g =>
      (.IfStatement c t (some e), g)
        :: (directLowerings t (ifCondState c g)
            ++ directLowerings e
                (emitLabel
                  (emit (visitStatement t (ifCondState c g))
                    (.j ("endif" ++ toString (g.labelCounter + 1))))
                  ("else" ++ toString g.labelCounter)))
  | .IfStatement c t none, g =>
      (.IfStatement c t none, g) :: directLowerings t (ifCondState c g)
  | .AssignmentStatement v e, g => [(.AssignmentStatement v e, g)]
  | .VariableDeclaration n i, g => [(.VariableDeclaration n i, g)]
  | .WhileStatement c b, g => [(.WhileStatement c b, g)]
  | .BreakStatement, g => [(.BreakStatement, g)]
  | .ContinueStatement, g => [(.ContinueStatement, g)]
  | .ReturnStatement v, g => [(.ReturnStatement v, g)]
  | .ExpressionStatement e, g => [(.ExpressionStatement e, g)]
/-- The same for a statement list lowered from state `g`. -/
def directLoweringsList : List Statement → RISCVCodeGenerator →
    List (Statement × RISCVCodeGenerator)
  | [], _ => []
  | s :: rest, g => directLowerings s g ++ directLoweringsList rest (visitStatement s g)
end

mutual
/-- The statements of `s` that are not inside a while statement nested in `s`, in source
order: `s` itself, and for a block or an if statement also the statements inside it.  A while
statement is listed but its body is not entered. -/
def directStatements : Statement → List Statement
  | .Block ss => .Block ss :: directStatementsList ss
  | .IfStatement c t (some e) =>
      .IfStatement c t (some e) :: (directStatements t ++ directStatements e)
  | .IfStatement c t none => .IfStatement c t none :: directStatements t
  | .AssignmentStatement v e => [.AssignmentStatement v e]
  | .VariableDeclaration n i => [.VariableDeclaration n i]
  | .WhileStatement c b => [.WhileStatement c b]
  | .BreakStatement => [.BreakStatement]
  | .ContinueStatement => [.ContinueStatement]
  | .ReturnStatement v => [.ReturnStatement v]
  | .ExpressionStatement e => [.ExpressionStatement e]
/-- The same for a statement list. -/
def directStatementsList : List Statement → List Statement
  | [] => []
  | s :: rest => directStatements s ++ directStatementsList rest
end

/-- The loop `while (1) { while (0) { break; } if (1) { continue; } break; }`: an inner
loop, then a continue inside an if and a break, both belonging to the outer loop. -/
def nestedLoopBody : Statement :=
  .Block [.WhileStatement (.NumberLiteral 0) (.Block [.BreakStatement]),
          .IfStatement (.NumberLiteral 1) (.Block [.ContinueStatement]) none,
          .BreakStatement]

/-- The output `o2` is `o` with lines appended. -/
def Extends (o o2 : List Line) : Prop := ∃ code, o2 = o ++ code

/-- The targets of the unconditional jumps `j <label>` in a sequence of lines, in order. -/
def jumpTargets (ls : List Line) : List String :=
  ls.filterMap (fun l => match l with
    | .j target => some target
    | _ => none)

/-! ## Runs -/

/-- The generator `g` with the members that lowering never reads replaced: the scope stack
below the current block, the current function name, the function table and the dead-code
list; the `crashed` mark, which lowering only ever sets, is set when `cr` holds. -/
def setAux (g : RISCVCodeGenerator) (ss : List NameMap) (cf : String)
    (fs : List (String × FunctionInfo)) (dc : List String) (cr : Bool) : RISCVCodeGenerator :=
  { g with scopeStack := ss, currentFunction := cf, functions := fs, deadCode := dc,
           crashed := g.crashed || cr }

/-- Two generator states agree on everything a `generate` run carries from function to
function. -/
def SameRun (g g2 : RISCVCodeGenerator) : Prop :=
  g.output = g2.output ∧ g.labelCounter = g2.labelCounter
    ∧ g.optimizationsEnabled = g2.optimizationsEnabled
    ∧ g.constantValues = g2.constantValues
    ∧ g.breakLabels = g2.breakLabels ∧ g.continueLabels = g2.continueLabels

/-- A use of the public interface of the generator: a `generate` call or
`enableOptimizations()`. -/
inductive Action where
  | run (unit : CompilationUnit) (funcTable : List (String × FunctionInfo))
  | enable

/-- The generator object after one use. -/
def perform (g : RISCVCodeGenerator) : Action → RISCVCodeGenerator
  | .run unit funcTable => generate g unit funcTable
  | .enable => enableOptimizations g

/-- A freshly constructed generator with the optimization flag of `g`. -/
def freshLike (g : RISCVCodeGenerator) : RISCVCodeGenerator :=
  if g.optimizationsEnabled then enableOptimizations RISCVCodeGenerator.new
  else RISCVCodeGenerator.new

/-! ## Executing straight-line code

A machine state is the register file and the memory, both holding 32-bit words; memory is
read and written a word at a time at a byte address (the stack code only touches word slots
four bytes apart).  `step` gives the standard RV32IM meaning of the arithmetic, load and
store lines; lines that are not straight-line code (calls, jumps, branches, labels, symbol
addresses) have no meaning here. -/

structure Machine where
  regs : Reg → Nat
  mem : Nat → Nat

def Machine.setReg (m : Machine) (r : Reg) (v : Nat) : Machine :=
  { m with regs := fun x => if x = r then v else m.regs x }

def Machine.store (m : Machine) (addr v : Nat) : Machine :=
  { m with mem := fun x => if x = addr then v else m.mem x }

/-- The address `off(base)`: the base word plus the offset, wrapped to 32 bits. -/
def address (base : Nat) (off : Int) : Nat := toWord ((base : Int) + off)

def step (m : Machine) : Line → Option Machine
  | .li rd imm => some (m.setReg rd (toWord imm))
  | .addi rd rs imm => some (m.setReg rd (toWord ((m.regs rs : Int) + imm)))
  | .lw rd off base => some (m.setReg rd (m.mem (address (m.regs base) off)))
  | .sw rs off base => some (m.store (address (m.regs base) off) (m.regs rs))
  | .alu op rd rs1 rs2 => some (m.setReg rd (execAlu op (m.regs rs1) (m.regs rs2)))
  | .xori rd rs imm => some (m.setReg rd (Nat.xor (m.regs rs) (toWord imm)))
  | .seqz rd rs => some (m.setReg rd (if m.regs rs = 0 then 1 else 0))
  | .snez rd rs => some (m.setReg rd (if m.regs rs = 0 then 0 else 1))
  | .neg rd rs => some (m.setReg rd (toWord (-(m.regs rs : Int))))
  | .mv rd rs => some (m.setReg rd (m.regs rs))
  | _ => none

/-- Run a sequence of lines from state `m`; `none` if a line has no straight-line meaning. -/
def run (m : Machine) : List Line → Option Machine
  | [] => some m
  | l :: rest => (step m l).bind (fun m2 => run m2 rest)

/-- Whether `a op b` holds, for the six comparison operators. -/
def comparisonHolds : BinaryOp → Int → Int → Bool
  | .LT, a, b => decide (a < b)
  | .LE, a, b => decide (a ≤ b)
  | .GT, a, b => decide (a > b)
  | .GE, a, b => decide (a ≥ b)
  | .EQ, a, b => decide (a = b)
  | .NE, a, b => decide (a ≠ b)
  | _, _, _ => false

/-- The lines before the operator's instructions in the unoptimized code of `a op b` for
literals `a` and `b`: the two pushes and the pops into `t1` and `t0`. -/
def literalOperands (a b : Int) : List Line :=
  [.li .t0 a, .addi .sp .sp (-4), .sw .t0 0 .sp,
   .li .t0 b, .addi .sp .sp (-4), .sw .t0 0 .sp,
   .lw .t1 0 .sp, .addi .sp .sp 4, .lw .t0 0 .sp]

/-- A machine state with `sp = 1000` and zeros elsewhere. -/
def sampleMachine : Machine :=
  { regs := fun r => if r = .sp then 1000 else 0, mem := fun _ => 0 }

/-- The label-definition lines of a unit's output when function number `i` contributes its
name followed by the generated labels `Ls[i]`. -/
def unitLabels (fns : List FunctionDefinition) (Ls : List (List String)) : List String :=
  (List.zipWith (fun f L => f.name :: L) fns Ls).flatten

/-! ## Basic facts -/

theorem toWord_cast (v : Int) : ((toWord v : Nat) : Int) = v % 4294967296 := by
  unfold toWord
  exact Int.toNat_of_nonneg (Int.emod_nonneg v (by norm_num))

theorem toSigned_toWord (v : Int) : toSigned (toWord v) = wrapInt v := by
  have h := toWord_cast v
  unfold toSigned wrapInt
  split <;> omega

theorem toSigned_toWord_of_isInt32 {v : Int} (h : isInt32 v) : toSigned (toWord v) = v := by
  rw [toSigned_toWord]
  unfold isInt32 at h
  unfold wrapInt
  omega

theorem toWord_eq_zero_iff {v : Int} (h : isInt32 v) : toWord v = 0 ↔ v = 0 := by
  have hc := toWord_cast v
  unfold isInt32 at h
  constructor
  · intro h0
    rw [h0] at hc
    omega
  · intro h0
    subst h0
    rfl

theorem execAlu_add (a b : Int) :
    toSigned (execAlu .add (toWord a) (toWord b)) = wrapInt (a + b) := by
  have ha := toWord_cast a
  have hb := toWord_cast b
  show toSigned ((toWord a + toWord b) % 4294967296) = _
  unfold toSigned wrapInt
  split <;> omega

theorem execAlu_sub (a b : Int) :
    toSigned (execAlu .sub (toWord a) (toWord b)) = wrapInt (a - b) := by
  have ha := toWord_cast a
  have hb := toWord_cast b
  show toSigned ((toWord a + (4294967296 - toWord b % 4294967296)) % 4294967296) = _
  unfold toSigned wrapInt
  split <;> omega

theorem execAlu_mul (a b : Int) :
    toSigned (execAlu .mul (toWord a) (toWord b)) = wrapInt (a * b) := by
  have ha := toWord_cast a
  have hb := toWord_cast b
  have hm : (((toWord a * toWord b) % 4294967296 : Nat) : Int) = (a * b) % 4294967296 := by
    push_cast
    rw [ha, hb, ← Int.mul_emod]
  show toSigned ((toWord a * toWord b) % 4294967296) = _
  generalize a * b = z at hm
  generalize (toWord a * toWord b) % 4294967296 = w at hm
  unfold toSigned wrapInt
  split <;> omega

theorem execAlu_div {a b : Int} (ha : isInt32 a) (hb : isInt32 b) (h0 : b ≠ 0) :
    toSigned (execAlu .div (toWord a) (toWord b)) = wrapInt (Int.tdiv a b) := by
  have hz : toWord b ≠ 0 := fun h => h0 ((toWord_eq_zero_iff hb).1 h)
  simp only [execAlu, if_neg hz, toSigned_toWord_of_isInt32 ha, toSigned_toWord_of_isInt32 hb,
    toSigned_toWord]

theorem execAlu_rem {a b : Int} (ha : isInt32 a) (hb : isInt32 b) (h0 : b ≠ 0) :
    toSigned (execAlu .rem (toWord a) (toWord b)) = wrapInt (Int.tmod a b) := by
  have hz : toWord b ≠ 0 := fun h => h0 ((toWord_eq_zero_iff hb).1 h)
  simp only [execAlu, if_neg hz, toSigned_toWord_of_isInt32 ha, toSigned_toWord_of_isInt32 hb,
    toSigned_toWord]

/-! ## Binary expressions under optimization -/

/-- C1 (stack balance, optimization enabled): lowering `x - y` on a generator with
optimizations enabled returns the generator unchanged, so the lines it appends contain no
`addi sp, sp, k` at all and their immediates sum to 0, not to -4; with optimizations disabled
the same node is balanced (sum -4). -/
theorem optimized_binary_breaks_stack_balance :
    visitExpression (.BinaryExpression .SUB (.Identifier "x") (.Identifier "y"))
        (enableOptimizations RISCVCodeGenerator.new)
      = enableOptimizations RISCVCodeGenerator.new
    ∧ spSum (emitted (enableOptimizations RISCVCodeGenerator.new)
        (visitExpression (.BinaryExpression .SUB (.Identifier "x") (.Identifier "y"))
          (enableOptimizations RISCVCodeGenerator.new))) = 0
    ∧ spSum (emitted RISCVCodeGenerator.new
        (visitExpression (.BinaryExpression .SUB (.Identifier "x") (.Identifier "y"))
          RISCVCodeGenerator.new)) = -4 := by
  refine ⟨?_, ?_, ?_⟩ <;> decide

/-- C2 (fall-through to the unoptimized path): with optimizations enabled, `6 / 0` (zero
divisor), `1 < 2` (comparison) and `1 + x` (only the left operand constant) each leave the
output empty, while with optimizations disabled the same nodes emit the operand code and the
operator instruction; the optimized lowering does not produce the unoptimized sequence. -/
theorem optimized_binary_does_not_fall_through :
    (visitExpression (.BinaryExpression .DIV (.NumberLiteral 6) (.NumberLiteral 0))
        (enableOptimizations RISCVCodeGenerator.new)).output = []
    ∧ (visitExpression (.BinaryExpression .DIV (.NumberLiteral 6) (.NumberLiteral 0))
        RISCVCodeGenerator.new).output
      = [.li .t0 6, .addi .sp .sp (-4), .sw .t0 0 .sp,
         .li .t0 0, .addi .sp .sp (-4), .sw .t0 0 .sp,
         .lw .t1 0 .sp, .addi .sp .sp 4, .lw .t0 0 .sp,
         .alu .div .t0 .t0 .t1, .sw .t0 0 .sp]
    ∧ (visitExpression (.BinaryExpression .LT (.NumberLiteral 1) (.NumberLiteral 2))
        (enableOptimizations RISCVCodeGenerator.new)).output = []
    ∧ (visitExpression (.BinaryExpression .LT (.NumberLiteral 1) (.NumberLiteral 2))
        RISCVCodeGenerator.new).output
      = [.li .t0 1, .addi .sp .sp (-4), .sw .t0 0 .sp,
         .li .t0 2, .addi .sp .sp (-4), .sw .t0 0 .sp,
         .lw .t1 0 .sp, .addi .sp .sp 4, .lw .t0 0 .sp,
         .alu .slt .t0 .t0 .t1, .sw .t0 0 .sp]
    ∧ (visitExpression (.BinaryExpression .ADD (.NumberLiteral 1) (.Identifier "x"))
        (enableOptimizations RISCVCodeGenerator.new)).output = []
    ∧ (visitExpression (.BinaryExpression .ADD (.NumberLiteral 1) (.Identifier "x"))
        RISCVCodeGenerator.new).output
      = [.li .t0 1, .addi .sp .sp (-4), .sw .t0 0 .sp,
         .luiHi .t0 "x", .addiLo .t0 .t0 "x", .lw .t0 0 .t0, .addi .sp .sp (-4),
         .sw .t0 0 .sp,
         .lw .t1 0 .sp, .addi .sp .sp 4, .lw .t0 0 .sp,
         .alu .add .t0 .t0 .t1, .sw .t0 0 .sp] := by
  refine ⟨?_, ?_, ?_, ?_, ?_, ?_⟩ <;> decide

/-- The folded lowering of a binary node over two literals, when `foldConstant` yields a
value. -/
theorem visit_fold_literals (g : RISCVCodeGenerator) (op : BinaryOp) (a b v : Int)
    (hopt : g.optimizationsEnabled = true) (hv : foldConstant op a b = .value v) :
    visitExpression (.BinaryExpression op (.NumberLiteral a) (.NumberLiteral b)) g
      = emit (emit (emit g (.li .t0 v)) (.addi .sp .sp (-4))) (.sw .t0 0 .sp) := by
  simp [visitExpression, optimizeConstantFolding, hopt, isConstantExpression,
    evaluateConstantExpression, hv]

/-- The lowering of a binary node over two literals stops the generator when `foldConstant`
is undefined: nothing is emitted. -/
theorem visit_fold_undefined (g : RISCVCodeGenerator) (op : BinaryOp) (a b : Int)
    (hopt : g.optimizationsEnabled = true) (hv : foldConstant op a b = .undefined) :
    visitExpression (.BinaryExpression op (.NumberLiteral a) (.NumberLiteral b)) g
      = { g with crashed := true } := by
  simp [visitExpression, optimizeConstantFolding, hopt, isConstantExpression,
    evaluateConstantExpression, hv]

/-- The only `int` operands with a non-zero divisor on which the generation-time division is
undefined are `-2147483648` and `-1`. -/
theorem foldConstant_undefined_iff (op : BinaryOp) (a b : Int) :
    foldConstant op a b = .undefined
      ↔ (op = .DIV ∨ op = .MOD) ∧ a = -2147483648 ∧ b = -1 := by
  cases op <;> simp [foldConstant, divisionOverflows]
  all_goals
    by_cases hb : b = 0
    · subst hb; simp
    · simp only [hb, not_false_eq_true, if_true]
      by_cases h : a = -2147483648 ∧ b = -1
      · simp [h.1, h.2]
      · have h2 : ¬(a = -2147483648 ∧ b = -1) := h
        simp only [h2, if_false]
        simp

/-- Constant folding away from the undefined division: with optimizations enabled, for `op`
among `+ - * / %` and `int` literals `a`, `b` (`b ≠ 0` for `/` and `%`, and not
`a = -2147483648` with `b = -1` there), the unoptimized path would run one instruction
`alu t0, t0, t1`, and lowering `a op b` appends exactly `li t0, v`, `addi sp, sp, -4`,
`sw t0, 0(sp)` where `v` is the signed value that instruction computes on the words of `a`
and `b`. -/
theorem constant_folding_without_overflow (g : RISCVCodeGenerator) (op : BinaryOp) (a b : Int)
    (hopt : g.optimizationsEnabled = true)
    (hop : op = .ADD ∨ op = .SUB ∨ op = .MUL ∨ op = .DIV ∨ op = .MOD)
    (ha : isInt32 a) (hb : isInt32 b)
    (hz : op = .DIV ∨ op = .MOD → b ≠ 0)
    (hov : op = .DIV ∨ op = .MOD → ¬(a = -2147483648 ∧ b = -1)) :
    ∃ alu : AluOp,
      (∀ g2 : RISCVCodeGenerator, emitBinaryOp g2 op = emit g2 (.alu alu .t0 .t0 .t1))
      ∧ (visitExpression (.BinaryExpression op (.NumberLiteral a) (.NumberLiteral b)) g).output
          = g.output ++ [.li .t0 (toSigned (execAlu alu (toWord a) (toWord b))),
                         .addi .sp .sp (-4), .sw .t0 0 .sp] := by
  rcases hop with h | h | h | h | h <;> subst h
  · refine ⟨.add, fun _ => rfl, ?_⟩
    rw [visit_fold_literals g .ADD a b (wrapInt (a + b)) hopt rfl, execAlu_add]
    simp [emit]
  · refine ⟨.sub, fun _ => rfl, ?_⟩
    rw [visit_fold_literals g .SUB a b (wrapInt (a - b)) hopt rfl, execAlu_sub]
    simp [emit]
  · refine ⟨.mul, fun _ => rfl, ?_⟩
    rw [visit_fold_literals g .MUL a b (wrapInt (a * b)) hopt rfl, execAlu_mul]
    simp [emit]
  · have h0 : b ≠ 0 := hz (Or.inl rfl)
    have h1 : divisionOverflows a b = false := by
      have := hov (Or.inl rfl)
      simp only [divisionOverflows, Bool.and_eq_false_imp, decide_eq_true_eq,
        decide_eq_false_iff_not]
      exact fun x y => this ⟨x, y⟩
    refine ⟨.div, fun _ => rfl, ?_⟩
    rw [visit_fold_literals g .DIV a b (wrapInt (Int.tdiv a b)) hopt
        (by simp [foldConstant, h0, h1]),
      execAlu_div ha hb h0]
    simp [emit]
  · have h0 : b ≠ 0 := hz (Or.inr rfl)
    have h1 : divisionOverflows a b = false := by
      have := hov (Or.inr rfl)
      simp only [divisionOverflows, Bool.and_eq_false_imp, decide_eq_true_eq,
        decide_eq_false_iff_not]
      exact fun x y => this ⟨x, y⟩
    refine ⟨.rem, fun _ => rfl, ?_⟩
    rw [visit_fold_literals g .MOD a b (wrapInt (Int.tmod a b)) hopt
        (by simp [foldConstant, h0, h1]),
      execAlu_rem ha hb h0]
    simp [emit]

/-- The folding of `2 + 3` on a fresh optimizing generator, an instance of
`constant_folding_without_overflow`. -/
theorem constant_folding_without_overflow_witness :
    (enableOptimizations RISCVCodeGenerator.new).optimizationsEnabled = true
    ∧ isInt32 2 ∧ isInt32 3
    ∧ ∃ alu : AluOp,
      (∀ g2 : RISCVCodeGenerator, emitBinaryOp g2 .ADD = emit g2 (.alu alu .t0 .t0 .t1))
      ∧ (visitExpression (.BinaryExpression .ADD (.NumberLiteral 2) (.NumberLiteral 3))
            (enableOptimizations RISCVCodeGenerator.new)).output
          = (enableOptimizations RISCVCodeGenerator.new).output
              ++ [.li .t0 (toSigned (execAlu alu (toWord 2) (toWord 3))),
                  .addi .sp .sp (-4), .sw .t0 0 .sp] :=
  ⟨rfl, by decide, by decide,
    constant_folding_without_overflow (enableOptimizations RISCVCodeGenerator.new) .ADD 2 3 rfl
      (Or.inl rfl) (by decide) (by decide) (by intro h; rcases h with h | h <;> cases h)
      (by intro h; rcases h with h | h <;> cases h)⟩

/-- C3 (constant-folding equivalence) fails at `-2147483648 / -1` and `-2147483648 % -1`:
both operands are `int` literals and the divisor is not zero, so the guard `rightVal != 0`
lets the generator evaluate the division, which is undefined in C++: with optimizations
enabled, on every generator, lowering the node emits nothing and stops the generator, and
`generate` on `int main() { return -2147483648 / -1; }` returns no text.  The instructions
the unoptimized path emits are defined there (`div` gives `-2147483648`, `rem` gives `0`),
and with optimizations disabled the same unit is lowered to text. -/
theorem constant_folding_undefined_for_int_min_by_minus_one :
    isInt32 (-2147483648) ∧ isInt32 (-1)
    ∧ foldConstant .DIV (-2147483648) (-1) = .undefined
    ∧ foldConstant .MOD (-2147483648) (-1) = .undefined
    ∧ (∀ g : RISCVCodeGenerator, g.optimizationsEnabled = true →
        visitExpression
            (.BinaryExpression .DIV (.NumberLiteral (-2147483648)) (.NumberLiteral (-1))) g
          = { g with crashed := true }
        ∧ visitExpression
            (.BinaryExpression .MOD (.NumberLiteral (-2147483648)) (.NumberLiteral (-1))) g
          = { g with crashed := true })
    ∧ generateText (enableOptimizations RISCVCodeGenerator.new)
        (divisionUnit (-2147483648) (-1)) [] = none
    ∧ (generateText RISCVCodeGenerator.new (divisionUnit (-2147483648) (-1)) []).isSome = true
    ∧ toSigned (execAlu .div (toWord (-2147483648)) (toWord (-1))) = -2147483648
    ∧ toSigned (execAlu .rem (toWord (-2147483648)) (toWord (-1))) = 0 := by
  refine ⟨by decide, by decide, by decide, by decide, ?_, by decide!, by decide!, by decide,
    by decide⟩
  intro g hopt
  exact ⟨visit_fold_undefined g .DIV _ _ hopt (by decide),
    visit_fold_undefined g .MOD _ _ hopt (by decide)⟩

/-- The scenario `2 + 3` of the specification: the optimized output is the single literal
push of 5, with the text `li t0, 5`. -/
theorem fold_two_plus_three :
    (visitExpression (.BinaryExpression .ADD (.NumberLiteral 2) (.NumberLiteral 3))
        (enableOptimizations RISCVCodeGenerator.new)).output
      = [.li .t0 5, .addi .sp .sp (-4), .sw .t0 0 .sp]
    ∧ (Line.li .t0 5).text = "li t0, 5"
    ∧ (Line.addi .sp .sp (-4)).text = "addi sp, sp, -4"
    ∧ (Line.sw .t0 0 .sp).text = "sw t0, 0(sp)" := by
  refine ⟨?_, ?_, ?_, ?_⟩ <;> decide

/-- C4 (identity optimization): with optimizations enabled and `x` not statically evaluable,
lowering `x + 0` and `x * 1` gives exactly the generator that lowering `x` alone gives, and
lowering `x * 0` appends exactly `li t0, 0`, `addi sp, sp, -4`, `sw t0, 0(sp)`. -/
theorem identity_optimization (g : RISCVCodeGenerator) (x : Expression)
    (hopt : g.optimizationsEnabled = true) (hx : isConstantExpression g x = false) :
    visitExpression (.BinaryExpression .ADD x (.NumberLiteral 0)) g = visitExpression x g
    ∧ visitExpression (.BinaryExpression .MUL x (.NumberLiteral 1)) g = visitExpression x g
    ∧ (visitExpression (.BinaryExpression .MUL x (.NumberLiteral 0)) g).output
        = g.output ++ [.li .t0 0, .addi .sp .sp (-4), .sw .t0 0 .sp] := by
  have hl : ∀ v : Int, isConstantExpression g (.NumberLiteral v) = true := fun _ => rfl
  have he : ∀ v : Int, evaluateConstantExpression g (.NumberLiteral v) = v := fun _ => rfl
  refine ⟨?_, ?_, ?_⟩ <;>
    simp [visitExpression, optimizeConstantFolding, hopt, hx, hl, he, emit]

/-- Witness for C4 with `x` the identifier `x` on a fresh optimizing generator. -/
theorem identity_optimization_witness :
    (enableOptimizations RISCVCodeGenerator.new).optimizationsEnabled = true
    ∧ isConstantExpression (enableOptimizations RISCVCodeGenerator.new) (.Identifier "x") = false
    ∧ visitExpression (.BinaryExpression .ADD (.Identifier "x") (.NumberLiteral 0))
          (enableOptimizations RISCVCodeGenerator.new)
        = visitExpression (.Identifier "x") (enableOptimizations RISCVCodeGenerator.new)
    ∧ visitExpression (.BinaryExpression .MUL (.Identifier "x") (.NumberLiteral 1))
          (enableOptimizations RISCVCodeGenerator.new)
        = visitExpression (.Identifier "x") (enableOptimizations RISCVCodeGenerator.new)
    ∧ (visitExpression (.BinaryExpression .MUL (.Identifier "x") (.NumberLiteral 0))
          (enableOptimizations RISCVCodeGenerator.new)).output
        = (enableOptimizations RISCVCodeGenerator.new).output
            ++ [.li .t0 0, .addi .sp .sp (-4), .sw .t0 0 .sp] :=
  ⟨rfl, rfl,
    identity_optimization (enableOptimizations RISCVCodeGenerator.new) (.Identifier "x") rfl rfl⟩

/-! ## Expression lowering only appends to the output -/

@[simp] theorem withOutput_output (g : RISCVCodeGenerator) (o : List Line) :
    (withOutput g o).output = o := rfl

@[simp] theorem withOutput_withOutput (g : RISCVCodeGenerator) (o o2 : List Line) :
    withOutput (withOutput g o) o2 = withOutput g o2 := rfl

@[simp] theorem withOutput_self (g : RISCVCodeGenerator) : withOutput g g.output = g := rfl

@[simp] theorem emit_withOutput (g : RISCVCodeGenerator) (o : List Line) (l : Line) :
    emit (withOutput g o) l = withOutput g (o ++ [l]) := rfl

@[simp] theorem withOutput_localVariables (g : RISCVCodeGenerator) (o : List Line) :
    (withOutput g o).localVariables = g.localVariables := rfl

@[simp] theorem withOutput_optimizationsEnabled (g : RISCVCodeGenerator) (o : List Line) :
    (withOutput g o).optimizationsEnabled = g.optimizationsEnabled := rfl

@[simp] theorem withOutput_scopeStack (g : RISCVCodeGenerator) (o : List Line) :
    (withOutput g o).scopeStack = g.scopeStack := rfl

@[simp] theorem withOutput_labelCounter (g : RISCVCodeGenerator) (o : List Line) :
    (withOutput g o).labelCounter = g.labelCounter := rfl

@[simp] theorem withOutput_stackOffset (g : RISCVCodeGenerator) (o : List Line) :
    (withOutput g o).stackOffset = g.stackOffset := rfl

@[simp] theorem withOutput_breakLabels (g : RISCVCodeGenerator) (o : List Line) :
    (withOutput g o).breakLabels = g.breakLabels := rfl

@[simp] theorem withOutput_continueLabels (g : RISCVCodeGenerator) (o : List Line) :
    (withOutput g o).continueLabels = g.continueLabels := rfl

theorem withOutput_eq (g : RISCVCodeGenerator) (o : List Line) :
    withOutput g o = withOutputCrashed g o g.crashed := rfl

@[simp] theorem withOutputCrashed_output (g : RISCVCodeGenerator) (o : List Line) (b : Bool) :
    (withOutputCrashed g o b).output = o := rfl

@[simp] theorem withOutputCrashed_crashed (g : RISCVCodeGenerator) (o : List Line) (b : Bool) :
    (withOutputCrashed g o b).crashed = b := rfl

@[simp] theorem withOutputCrashed_twice (g : RISCVCodeGenerator) (o o2 : List Line)
    (b b2 : Bool) :
    withOutputCrashed (withOutputCrashed g o b) o2 b2 = withOutputCrashed g o2 b2 := rfl

@[simp] theorem withOutputCrashed_self (g : RISCVCodeGenerator) :
    withOutputCrashed g g.output g.crashed = g := rfl

@[simp] theorem emit_withOutputCrashed (g : RISCVCodeGenerator) (o : List Line) (b : Bool)
    (l : Line) : emit (withOutputCrashed g o b) l = withOutputCrashed g (o ++ [l]) b := rfl

@[simp] theorem withOutputCrashed_localVariables (g : RISCVCodeGenerator) (o : List Line)
    (b : Bool) : (withOutputCrashed g o b).localVariables = g.localVariables := rfl

@[simp] theorem withOutputCrashed_optimizationsEnabled (g : RISCVCodeGenerator)
    (o : List Line) (b : Bool) :
    (withOutputCrashed g o b).optimizationsEnabled = g.optimizationsEnabled := rfl

@[simp] theorem isConstantExpression_withOutput (g : RISCVCodeGenerator) (o : List Line)
    (b : Bool) (e : Expression) :
    isConstantExpression (withOutputCrashed g o b) e = isConstantExpression g e := by
  cases e <;> rfl

@[simp] theorem evaluateConstantExpression_withOutput (g : RISCVCodeGenerator) (o : List Line)
    (b : Bool) (e : Expression) :
    evaluateConstantExpression (withOutputCrashed g o b) e = evaluateConstantExpression g e := by
  cases e <;> rfl

theorem emitUnaryOp_withOutput (g : RISCVCodeGenerator) (o : List Line) (b b0 : Bool)
    (op : UnaryOp) :
    emitUnaryOp (withOutputCrashed g o b) op
      = withOutputCrashed g (o ++ (emitUnaryOp (withOutputCrashed g [] b0) op).output) b := by
  cases op <;> simp [emitUnaryOp]

/-- The lines appended by the operator switch of the unoptimized binary path. -/
theorem emitBinaryOp_withOutput (g : RISCVCodeGenerator) (o : List Line) (b b0 : Bool)
    (op : BinaryOp) :
    emitBinaryOp (withOutputCrashed g o b) op
      = withOutputCrashed g (o ++ (emitBinaryOp (withOutputCrashed g [] b0) op).output) b := by
  cases op <;> simp [emitBinaryOp]

theorem emitUnaryOp_crashed (g : RISCVCodeGenerator) (op : UnaryOp) :
    (emitUnaryOp g op).crashed = g.crashed := by
  cases op <;> rfl

theorem emitBinaryOp_crashed (g : RISCVCodeGenerator) (op : BinaryOp) :
    (emitBinaryOp g op).crashed = g.crashed := by
  cases op <;> rfl

theorem optimizeConstantFolding_withOutput (op : BinaryOp) (left right : Expression)
    (g : RISCVCodeGenerator) (o : List Line) (b b0 : Bool)
    (ih : ∀ (o2 : List Line) (b2 : Bool),
      visitExpression left (withOutputCrashed g o2 b2)
        = withOutputCrashed g (o2 ++ exprCode left g) (b2 || exprFaults left g)) :
    optimizeConstantFolding op left right (visitExpression left) (withOutputCrashed g o b)
      = withOutputCrashed g
          (o ++ (optimizeConstantFolding op left right (visitExpression left)
                  (withOutputCrashed g [] b0)).output)
          (b || (optimizeConstantFolding op left right (visitExpression left)
                  (withOutputCrashed g [] false)).crashed) := by
  unfold optimizeConstantFolding
  simp only [withOutputCrashed_optimizationsEnabled, isConstantExpression_withOutput,
    evaluateConstantExpression_withOutput]
  split
  · simp
  · split
    · split
      · simp
      · simp [withOutputCrashed]
      · simp
    · split
      · split
        · simp [ih]
        · split
          · simp [ih]
          · split <;> simp
      · simp

mutual
theorem visitExpression_withOutput : ∀ (e : Expression) (g : RISCVCodeGenerator)
    (o : List Line) (b : Bool),
    visitExpression e (withOutputCrashed g o b)
      = withOutputCrashed g (o ++ exprCode e g) (b || exprFaults e g)
  | .NumberLiteral v, g, o, b => by
      simp [visitExpression, exprCode, exprFaults, withOutput_eq]
  | .Identifier name, g, o, b => by
      simp only [visitExpression, exprCode, exprFaults, withOutput_eq,
        withOutputCrashed_localVariables]
      cases mapFind g.localVariables name <;> simp
  | .UnaryExpression op operand, g, o, b => by
      have ih := visitExpression_withOutput operand g
      unfold exprCode exprFaults
      simp only [visitExpression, withOutput_eq, ih, emit_withOutputCrashed]
      rw [emitUnaryOp_withOutput g _ _ false op,
        emitUnaryOp_withOutput g ([] ++ _ ++ _) (g.crashed || _) false op,
        emitUnaryOp_withOutput g ([] ++ _ ++ _) (false || _) false op]
      simp
  | .BinaryExpression op left right, g, o, b => by
      have ihl := visitExpression_withOutput left g
      have ihr := visitExpression_withOutput right g
      by_cases hopt : g.optimizationsEnabled = true
      · have h1 := optimizeConstantFolding_withOutput op left right g o b g.crashed ihl
        unfold exprCode exprFaults
        simp only [visitExpression, withOutput_eq, withOutputCrashed_optimizationsEnabled,
          hopt, if_true]
        exact h1
      · unfold exprCode exprFaults
        simp only [visitExpression, withOutput_eq, withOutputCrashed_optimizationsEnabled,
          hopt, ihl, ihr, emit_withOutputCrashed]
        rw [emitBinaryOp_withOutput g _ _ false op,
          emitBinaryOp_withOutput g ([] ++ _ ++ _ ++ _ ++ _ ++ _) (g.crashed || _ || _)
            false op,
          emitBinaryOp_withOutput g ([] ++ _ ++ _ ++ _ ++ _ ++ _) (false || _ || _)
            false op]
        simp [Bool.or_assoc]
  | .FunctionCall f args, g, o, b => by
      have ih := visitArguments_withOutput args 0 0 g
      unfold exprCode exprFaults
      simp only [visitExpression, withOutput_eq]
      rw [ih o b, ih [] g.crashed, ih [] false]
      simp only [emit_withOutputCrashed]
      split <;> simp
theorem visitArguments_withOutput : ∀ (args : List Expression) (i : Nat) (n : Int)
    (g : RISCVCodeGenerator) (o : List Line) (b : Bool),
    visitArguments args i n (withOutputCrashed g o b)
      = (withOutputCrashed g (o ++ argsCode args i g) (b || argsFault args i g),
          n + argsStack args i g)
  | [], i, n, g, o, b => by
      simp [visitArguments, argsCode, argsStack, argsFault, withOutput_eq]
  | arg :: rest, i, n, g, o, b => by
      have ih := visitExpression_withOutput arg g
      have ih1 := visitArguments_withOutput rest (i + 1)
      unfold argsCode argsStack argsFault
      simp only [visitArguments, withOutput_eq, ih, emit_withOutputCrashed]
      by_cases hi : i < 8
      · simp only [hi, if_true, emit_withOutputCrashed]
        rw [ih1 n g, ih1 0 g, ih1 0 g]
        simp [Bool.or_assoc]
      · simp only [hi, if_false, emit_withOutputCrashed]
        rw [ih1 (n + 1) g, ih1 (0 + 1) g, ih1 (0 + 1) g]
        simp [Bool.or_assoc]
        omega
end

/-- Lowering an expression changes nothing but the output buffer, to which it appends
`exprCode e g`, and the `crashed` mark, which it sets when `exprFaults e g`. -/
theorem visitExpression_eq (e : Expression) (g : RISCVCodeGenerator) :
    visitExpression e g
      = withOutputCrashed g (g.output ++ exprCode e g) (g.crashed || exprFaults e g) := by
  have h := visitExpression_withOutput e g g.output g.crashed
  simpa using h

theorem exprCode_withOutput (e : Expression) (g : RISCVCodeGenerator) (o : List Line) :
    exprCode e (withOutput g o) = exprCode e g := rfl

theorem visitExpression_output (e : Expression) (g : RISCVCodeGenerator) :
    (visitExpression e g).output = g.output ++ exprCode e g := by
  rw [visitExpression_eq]; rfl

@[simp] theorem visitExpression_scopeStack (e : Expression) (g : RISCVCodeGenerator) :
    (visitExpression e g).scopeStack = g.scopeStack := by
  rw [visitExpression_eq]; rfl

@[simp] theorem visitExpression_localVariables (e : Expression) (g : RISCVCodeGenerator) :
    (visitExpression e g).localVariables = g.localVariables := by
  rw [visitExpression_eq]; rfl

@[simp] theorem visitExpression_labelCounter (e : Expression) (g : RISCVCodeGenerator) :
    (visitExpression e g).labelCounter = g.labelCounter := by
  rw [visitExpression_eq]; rfl

@[simp] theorem visitExpression_stackOffset (e : Expression) (g : RISCVCodeGenerator) :
    (visitExpression e g).stackOffset = g.stackOffset := by
  rw [visitExpression_eq]; rfl

@[simp] theorem visitExpression_breakLabels (e : Expression) (g : RISCVCodeGenerator) :
    (visitExpression e g).breakLabels = g.breakLabels := by
  rw [visitExpression_eq]; rfl

@[simp] theorem visitExpression_continueLabels (e : Expression) (g : RISCVCodeGenerator) :
    (visitExpression e g).continueLabels = g.continueLabels := by
  rw [visitExpression_eq]; rfl

@[simp] theorem visitExpression_optimizationsEnabled (e : Expression)
    (g : RISCVCodeGenerator) :
    (visitExpression e g).optimizationsEnabled = g.optimizationsEnabled := by
  rw [visitExpression_eq]; rfl

/-! ## Scopes -/

@[simp] theorem emit_scopeStack (g : RISCVCodeGenerator) (l : Line) :
    (emit g l).scopeStack = g.scopeStack := rfl

@[simp] theorem emitLabel_scopeStack (g : RISCVCodeGenerator) (l : String) :
    (emitLabel g l).scopeStack = g.scopeStack := rfl

@[simp] theorem generateEpilogue_scopeStack (g : RISCVCodeGenerator) :
    (generateEpilogue g).scopeStack = g.scopeStack := rfl

mutual
/-- No statement changes the scope stack: every block pops what it pushed. -/
theorem visitStatement_scopeStack : ∀ (s : Statement) (g : RISCVCodeGenerator),
    (visitStatement s g).scopeStack = g.scopeStack
  | .AssignmentStatement v e, g => by
      simp only [visitStatement]
      split <;> simp
  | .VariableDeclaration name (some e), g => by
      simp [visitStatement]
  | .VariableDeclaration name none, g => by
      simp [visitStatement]
  | .Block ss, g => by
      have ih := visitStatements_scopeStack ss
        { g with scopeStack := g.localVariables :: g.scopeStack }
      simp only [visitStatement]
      split
      · rename_i top rest heq
        rw [ih] at heq
        simp only [List.cons.injEq] at heq
        exact heq.2.symm
      · rename_i heq
        rw [ih] at heq
        exact absurd heq (by simp)
  | .IfStatement c t none, g => by
      simp [visitStatement, newLabel, visitStatement_scopeStack t]
  | .IfStatement c t (some e), g => by
      simp [visitStatement, newLabel, visitStatement_scopeStack t, visitStatement_scopeStack e]
  | .WhileStatement c b, g => by
      simp [visitStatement, newLabel, visitStatement_scopeStack b]
  | .BreakStatement, g => by
      simp only [visitStatement]
      split <;> simp
  | .ContinueStatement, g => by
      simp only [visitStatement]
      split <;> simp
  | .ReturnStatement (some e), g => by
      simp [visitStatement]
  | .ReturnStatement none, g => by
      simp [visitStatement]
  | .ExpressionStatement e, g => by
      simp [visitStatement]
theorem visitStatements_scopeStack : ∀ (ss : List Statement) (g : RISCVCodeGenerator),
    (visitStatements ss g).scopeStack = g.scopeStack
  | [], g => by simp [visitStatements]
  | s :: rest, g => by
      simp only [visitStatements]
      rw [visitStatements_scopeStack rest, visitStatement_scopeStack s]
end

/-- C5 (scope restoration): for every block and every generator state, after lowering the
block the name-to-offset map is exactly the map from before the block, and the scope stack
has exactly its former contents. -/
theorem scope_restoration (statements : List Statement) (g : RISCVCodeGenerator) :
    (visitStatement (.Block statements) g).localVariables = g.localVariables
    ∧ (visitStatement (.Block statements) g).scopeStack = g.scopeStack := by
  refine ⟨?_, visitStatement_scopeStack _ g⟩
  have ih := visitStatements_scopeStack statements
    { g with scopeStack := g.localVariables :: g.scopeStack }
  simp only [visitStatement]
  split
  · rename_i top rest heq
    rw [ih] at heq
    simp only [List.cons.injEq] at heq
    exact heq.1.symm
  · rename_i heq
    rw [ih] at heq
    exact absurd heq (by simp)

/-- A block that declares `y` inside: the declaration is visible inside the block (the store
goes to a new slot) and the map is the empty map again afterwards. -/
theorem scope_restoration_example :
    (visitStatement (.Block [.VariableDeclaration "y" (some (.NumberLiteral 1))])
        RISCVCodeGenerator.new).localVariables = []
    ∧ (visitStatements [.VariableDeclaration "y" (some (.NumberLiteral 1))]
        RISCVCodeGenerator.new).localVariables = [("y", -4)] := by
  constructor <;> decide

/-! ## Function calls -/

theorem argsCode_nil (i : Nat) (g : RISCVCodeGenerator) : argsCode [] i g = [] := rfl

theorem argsStack_nil (i : Nat) (g : RISCVCodeGenerator) : argsStack [] i g = 0 := rfl

theorem argsCode_cons (arg : Expression) (rest : List Expression) (i : Nat)
    (g : RISCVCodeGenerator) :
    argsCode (arg :: rest) i g = exprCode arg g ++ passArgument i ++ argsCode rest (i + 1) g := by
  unfold argsCode passArgument
  simp only [visitArguments, withOutput_eq, visitExpression_withOutput, emit_withOutputCrashed]
  by_cases hi : i < 8
  · simp only [hi, if_true, emit_withOutputCrashed]
    rw [visitArguments_withOutput, visitArguments_withOutput]
    simp
  · simp only [hi, if_false, emit_withOutputCrashed]
    rw [visitArguments_withOutput, visitArguments_withOutput]
    simp

theorem argsStack_cons (arg : Expression) (rest : List Expression) (i : Nat)
    (g : RISCVCodeGenerator) :
    argsStack (arg :: rest) i g = (if i < 8 then 0 else 1) + argsStack rest (i + 1) g := by
  unfold argsStack
  simp only [visitArguments, withOutput_eq, visitExpression_withOutput, emit_withOutputCrashed]
  by_cases hi : i < 8
  · simp only [hi, if_true, emit_withOutputCrashed]
    rw [visitArguments_withOutput, visitArguments_withOutput]
    simp
  · simp only [hi, if_false, emit_withOutputCrashed]
    rw [visitArguments_withOutput, visitArguments_withOutput]
    simp

theorem argsCode_eq_flatMap (args : List Expression) (g : RISCVCodeGenerator) :
    ∀ i : Nat, argsCode args i g
      = (List.enumFrom i args).flatMap (fun p => exprCode p.2 g ++ passArgument p.1) := by
  induction args with
  | nil => intro i; rfl
  | cons arg rest ih =>
      intro i
      rw [argsCode_cons, ih (i + 1), List.enumFrom_cons, List.flatMap_cons]

/-- The loop counts the arguments whose index is 8 or more. -/
theorem argsStack_eq (args : List Expression) (g : RISCVCodeGenerator) :
    ∀ i : Nat, argsStack args i g = (((i + args.length - 8) - (i - 8) : Nat) : Int) := by
  induction args with
  | nil => intro i; simp [argsStack_nil]
  | cons arg rest ih =>
      intro i
      rw [argsStack_cons, ih (i + 1)]
      simp only [List.length_cons]
      split <;> omega

theorem exprCode_call (f : String) (args : List Expression) (g : RISCVCodeGenerator) :
    exprCode (.FunctionCall f args) g
      = argsCode args 0 g ++ [.call f]
          ++ (if argsStack args 0 g > 0 then [.addi .sp .sp (argsStack args 0 g * 4)] else [])
          ++ [.addi .sp .sp (-4), .sw (.a 0) 0 .sp] := by
  unfold exprCode
  simp only [visitExpression, withOutput_eq]
  rw [visitArguments_withOutput]
  simp only [zero_add, emit_withOutputCrashed, List.nil_append]
  split <;> simp

/-- C7 (calling convention): lowering a call of `f` with arguments `args` appends exactly
the call sequence: for argument `i`, in argument order, its code, the pop into `t0` and then
`mv a<i>, t0` when `i < 8` or the re-push when `i ≥ 8`; then `call f`; then
`addi sp, sp, 4 * (n - 8)` when `n > 8` and no deflation line otherwise; then the push of
`a0`. -/
theorem calling_convention (f : String) (args : List Expression) (g : RISCVCodeGenerator) :
    (visitExpression (.FunctionCall f args) g).output = g.output ++ callSequence f args g := by
  rw [visitExpression_output, exprCode_call, argsCode_eq_flatMap, argsStack_eq]
  unfold callSequence
  congr 1
  congr 1
  congr 1
  by_cases h : args.length > 8
  · have h1 : ((((0 + args.length - 8) - (0 - 8) : Nat) : Int)) = (args.length : Int) - 8 := by
      omega
    rw [h1, if_pos h, if_pos (by omega)]
    congr 2
    ring
  · have h1 : ((((0 + args.length - 8) - (0 - 8) : Nat) : Int)) = 0 := by
      omega
    rw [h1, if_neg h, if_neg (by omega)]

/-- The scenario of the specification, a call with ten arguments: eight moves into
`a0` to `a7`, two re-pushes, the call, and a deflation by two words. -/
theorem ten_argument_call :
    callSequence "f" tenArguments RISCVCodeGenerator.new
      = literalArgument 0 ++ [.mv (.a 0) .t0] ++ literalArgument 1 ++ [.mv (.a 1) .t0]
        ++ literalArgument 2 ++ [.mv (.a 2) .t0] ++ literalArgument 3 ++ [.mv (.a 3) .t0]
        ++ literalArgument 4 ++ [.mv (.a 4) .t0] ++ literalArgument 5 ++ [.mv (.a 5) .t0]
        ++ literalArgument 6 ++ [.mv (.a 6) .t0] ++ literalArgument 7 ++ [.mv (.a 7) .t0]
        ++ literalArgument 8 ++ [.addi .sp .sp (-4), .sw .t0 0 .sp]
        ++ literalArgument 9 ++ [.addi .sp .sp (-4), .sw .t0 0 .sp]
        ++ [.call "f", .addi .sp .sp 8, .addi .sp .sp (-4), .sw (.a 0) 0 .sp] := by
  decide!

/-- C8 (argument registers at the call): in the code for `f(1, g(2))` the line
`mv a0, t0` of argument 0 of `f` is line 5 and `call f` is line 18; between them, line 11 is
the `mv a0, t0` of the inner call, which writes `a0` again (and `call g` follows it), so `a0`
does not hold the first argument of `f` at `call f`. -/
theorem nested_call_overwrites_argument_register :
    (visitExpression nestedCall RISCVCodeGenerator.new).output
      = [.li .t0 1, .addi .sp .sp (-4), .sw .t0 0 .sp, .lw .t0 0 .sp, .addi .sp .sp 4,
         .mv (.a 0) .t0,
         .li .t0 2, .addi .sp .sp (-4), .sw .t0 0 .sp, .lw .t0 0 .sp, .addi .sp .sp 4,
         .mv (.a 0) .t0,
         .call "g", .addi .sp .sp (-4), .sw (.a 0) 0 .sp,
         .lw .t0 0 .sp, .addi .sp .sp 4,
         .mv (.a 1) .t0,
         .call "f", .addi .sp .sp (-4), .sw (.a 0) 0 .sp]
    ∧ (visitExpression nestedCall RISCVCodeGenerator.new).output.get? 5
        = some (.mv (.a 0) .t0)
    ∧ (visitExpression nestedCall RISCVCodeGenerator.new).output.get? 18 = some (.call "f")
    ∧ ∃ k : Nat, 5 < k ∧ k < 18
        ∧ ((visitExpression nestedCall RISCVCodeGenerator.new).output.get? k).bind destReg
            = some (.a 0) := by
  refine ⟨by decide!, by decide!, by decide!, 11, by decide, by decide, by decide!⟩

/-- C10 (stack-passed parameters): for the nine-parameter function `h` the parameter loop
binds `p0` to `p7` only; `p8` is not in the frame map when the body is lowered, so the
identifier `p8` in `return p8;` is lowered to the global-symbol sequence
`lui t0, %hi(p8)`, `addi t0, t0, %lo(p8)`, `lw t0, 0(t0)`. -/
theorem ninth_parameter_is_not_bound :
    mapFind (enterFunction nineParameters RISCVCodeGenerator.new).localVariables "p8" = none
    ∧ mapFind (enterFunction nineParameters RISCVCodeGenerator.new).localVariables "p7"
        = some (-52)
    ∧ exprCode (.Identifier "p8") (enterFunction nineParameters RISCVCodeGenerator.new)
        = [.luiHi .t0 "p8", .addiLo .t0 .t0 "p8", .lw .t0 0 .t0, .addi .sp .sp (-4),
           .sw .t0 0 .sp]
    ∧ (visitFunctionDefinition nineParameters RISCVCodeGenerator.new).output
        = [.label "h", .addi .sp .sp (-16), .sw .ra 12 .sp, .sw .fp 8 .sp, .addi .fp .sp 16,
           .addi .sp .sp (-48),
           .sw (.a 0) (-24) .fp, .sw (.a 1) (-28) .fp, .sw (.a 2) (-32) .fp,
           .sw (.a 3) (-36) .fp, .sw (.a 4) (-40) .fp, .sw (.a 5) (-44) .fp,
           .sw (.a 6) (-48) .fp, .sw (.a 7) (-52) .fp,
           .luiHi .t0 "p8", .addiLo .t0 .t0 "p8", .lw .t0 0 .t0, .addi .sp .sp (-4),
           .sw .t0 0 .sp,
           .lw (.a 0) 0 .sp, .addi .sp .sp 4,
           .lw .ra (-4) .fp, .lw .fp (-8) .fp, .addi .sp .sp 16, .ret] := by
  refine ⟨by decide!, by decide!, by decide!, by decide!⟩

/-! ## Parameters -/

theorem mapFind_mapAssign_self (m : NameMap) (k : String) (v : Int) :
    mapFind (mapAssign m k v) k = some v := by
  induction m with
  | nil => simp [mapAssign, mapFind]
  | cons p rest ih =>
      obtain ⟨k2, w⟩ := p
      by_cases h : k2 = k
      · simp [mapAssign, mapFind, h]
      · simp [mapAssign, mapFind, h, ih]

theorem mapFind_mapAssign_ne (m : NameMap) (k k2 : String) (v : Int) (h : k ≠ k2) :
    mapFind (mapAssign m k v) k2 = mapFind m k2 := by
  induction m with
  | nil => simp [mapAssign, mapFind, h]
  | cons p rest ih =>
      obtain ⟨k3, w⟩ := p
      by_cases h3 : k3 = k
      · subst h3
        simp [mapAssign, mapFind, h]
      · simp only [mapAssign, if_neg h3, mapFind, ih]

/-- The parameter loop leaves names it does not bind as they were. -/
theorem bindParameters_find_other (name : String) :
    ∀ (ps : List Parameter) (i : Nat) (g : RISCVCodeGenerator),
      name ∉ ps.map (fun p => p.name) →
      mapFind (bindParameters ps i g).localVariables name = mapFind g.localVariables name := by
  intro ps
  induction ps with
  | nil => intro i g _; rfl
  | cons p rest ih =>
      intro i g hn
      simp only [List.map_cons, List.mem_cons, not_or] at hn
      simp only [bindParameters]
      split
      · rw [ih _ _ hn.2]
        exact mapFind_mapAssign_ne _ _ _ _ (fun h => hn.1 h.symm)
      · exact ih _ _ hn.2

/-- The parameter loop binds the parameter at position `j` of the remaining list, when its
index `i + j` is below 8, to the offset `stackOffset - 4 * (j + 1)`. -/
theorem bindParameters_find :
    ∀ (ps : List Parameter) (i : Nat) (g : RISCVCodeGenerator) (j : Nat) (hj : j < ps.length),
      (ps.map (fun p => p.name)).Nodup → i + j < 8 →
      mapFind (bindParameters ps i g).localVariables (ps.get ⟨j, hj⟩).name
        = some (g.stackOffset - 4 * ((j : Int) + 1)) := by
  intro ps
  induction ps with
  | nil => intro i g j hj; exact absurd hj (by simp)
  | cons p rest ih =>
      intro i g j hj hnd hlt
      simp only [List.map_cons, List.nodup_cons] at hnd
      have hi : i < 8 := by omega
      simp only [bindParameters, if_pos hi]
      cases j with
      | zero =>
          simp only [List.get_eq_getElem, List.getElem_cons_zero]
          rw [bindParameters_find_other _ _ _ _ hnd.1]
          simp [emit, mapFind_mapAssign_self]
      | succ j2 =>
          have hj2 : j2 < rest.length := by simpa using hj
          have h := ih (i + 1)
            (emit { g with stackOffset := g.stackOffset - 4,
                           localVariables := mapAssign g.localVariables p.name (g.stackOffset - 4) }
              (.sw (.a i) (g.stackOffset - 4) .fp)) j2 hj2 hnd.2 (by omega)
          simp only [List.get_eq_getElem, List.getElem_cons_succ]
          simp only [List.get_eq_getElem] at h
          rw [h]
          simp only [emit]
          congr 1
          push_cast
          ring

/-- The parameter loop appends one store `sw a<k>, off(fp)` per parameter with index below
8, at consecutive offsets. -/
theorem bindParameters_output :
    ∀ (ps : List Parameter) (i : Nat) (g : RISCVCodeGenerator),
      (bindParameters ps i g).output
        = g.output ++ (List.range (min ps.length (8 - i))).map
            (fun j => Line.sw (.a (i + j)) (g.stackOffset - 4 * ((j : Int) + 1)) .fp) := by
  intro ps
  induction ps with
  | nil => intro i g; simp [bindParameters]
  | cons p rest ih =>
      intro i g
      simp only [bindParameters]
      split
      · rename_i hi
        rw [ih]
        have hmin : min (rest.length + 1) (8 - i) = min rest.length (8 - (i + 1)) + 1 := by
          omega
        simp only [List.length_cons, hmin, List.range_succ_eq_map, List.map_cons, List.map_map,
          emit, List.append_assoc, List.singleton_append]
        congr 2
        · simp
          intro j _ _
          constructor
          · omega
          · ring
      · rename_i hi
        rw [ih]
        have h0 : min (rest.length + 1) (8 - i) = 0 := by omega
        have h1 : min rest.length (8 - (i + 1)) = 0 := by omega
        rw [List.length_cons, h0, h1]
        rfl

theorem generatePrologue_stackOffset (g : RISCVCodeGenerator) (name : String) (size : Int) :
    (generatePrologue g name size).stackOffset = g.stackOffset := by
  unfold generatePrologue
  simp only [emit, emitLabel]
  split <;> rfl

/-- C9 (register-passed parameters): for a function whose parameter names are pairwise
distinct, at the point where the body is lowered every parameter `i < min(n, 8)` is bound in
the frame map to the offset `-24 - 4*i`; the lines after the prologue are exactly the stores
`sw a<i>, (-24 - 4*i)(fp)` for `i = 0, ..., min(n, 8) - 1`; and two different parameters
among the first eight have different slots. -/
theorem register_parameters (node : FunctionDefinition) (g : RISCVCodeGenerator)
    (hd : (node.parameters.map (fun p => p.name)).Nodup) :
    (∀ (i : Nat) (hi : i < node.parameters.length), i < 8 →
        mapFind (enterFunction node g).localVariables (node.parameters.get ⟨i, hi⟩).name
          = some (-24 - 4 * (i : Int)))
    ∧ (enterFunction node g).output
        = (generatePrologue
            { g with currentFunction := node.name, localVariables := [], stackOffset := -20 }
            node.name (frameSize node)).output
          ++ (List.range (min node.parameters.length 8)).map
              (fun i => Line.sw (.a i) (-24 - 4 * (i : Int)) .fp)
    ∧ (∀ (i j : Nat) (hi : i < node.parameters.length) (hj : j < node.parameters.length),
        i < 8 → j < 8 → i ≠ j →
        mapFind (enterFunction node g).localVariables (node.parameters.get ⟨i, hi⟩).name
          ≠ mapFind (enterFunction node g).localVariables (node.parameters.get ⟨j, hj⟩).name)
    := by
  have hfind : ∀ (i : Nat) (hi : i < node.parameters.length), i < 8 →
      mapFind (enterFunction node g).localVariables (node.parameters.get ⟨i, hi⟩).name
        = some (-24 - 4 * (i : Int)) := by
    intro i hi h8
    unfold enterFunction
    simp only []
    rw [bindParameters_find _ _ _ i hi hd (by omega), generatePrologue_stackOffset]
    congr 1
    ring
  refine ⟨hfind, ?_, ?_⟩
  · unfold enterFunction
    simp only []
    rw [bindParameters_output, generatePrologue_stackOffset]
    congr 1
    apply List.map_congr_left
    intro j _
    congr 1
    · congr 1; omega
    · ring
  · intro i j hi hj hi8 hj8 hne
    rw [hfind i hi hi8, hfind j hj hj8]
    intro h
    simp only [Option.some.injEq] at h
    omega

/-- Witness for C9: the nine-parameter function `h` on a fresh generator. -/
theorem register_parameters_witness :
    (nineParameters.parameters.map (fun p => p.name)).Nodup
    ∧ (∀ (i : Nat) (hi : i < nineParameters.parameters.length), i < 8 →
        mapFind (enterFunction nineParameters RISCVCodeGenerator.new).localVariables
            (nineParameters.parameters.get ⟨i, hi⟩).name
          = some (-24 - 4 * (i : Int)))
    ∧ (enterFunction nineParameters RISCVCodeGenerator.new).output
        = (generatePrologue
            { RISCVCodeGenerator.new with
                currentFunction := nineParameters.name, localVariables := [],
                stackOffset := -20 }
            nineParameters.name (frameSize nineParameters)).output
          ++ (List.range (min nineParameters.parameters.length 8)).map
              (fun i => Line.sw (.a i) (-24 - 4 * (i : Int)) .fp)
    ∧ (∀ (i j : Nat) (hi : i < nineParameters.parameters.length)
        (hj : j < nineParameters.parameters.length),
        i < 8 → j < 8 → i ≠ j →
        mapFind (enterFunction nineParameters RISCVCodeGenerator.new).localVariables
            (nineParameters.parameters.get ⟨i, hi⟩).name
          ≠ mapFind (enterFunction nineParameters RISCVCodeGenerator.new).localVariables
            (nineParameters.parameters.get ⟨j, hj⟩).name) :=
  ⟨by decide, register_parameters nineParameters RISCVCodeGenerator.new (by decide)⟩

/-! ## Decimal counters and generated labels -/

theorem digitChar_value (k : Nat) (hk : k < 10) : (Nat.digitChar k).toNat - 48 = k := by
  interval_cases k <;> decide

theorem decimalValue_toDigitsCore : ∀ (fuel n : Nat) (ds : List Char), n < fuel →
    decimalValue (Nat.toDigitsCore 10 fuel n ds) 0 = decimalValue ds n := by
  intro fuel
  induction fuel with
  | zero => intro n ds h; omega
  | succ fuel ih =>
      intro n ds h
      simp only [Nat.toDigitsCore]
      have hd := digitChar_value (n % 10) (Nat.mod_lt _ (by norm_num))
      split
      · rename_i h0
        simp only [decimalValue, List.foldl_cons, hd]
        congr 1
        omega
      · rename_i h0
        rw [ih (n / 10) _ (by omega)]
        simp only [decimalValue, List.foldl_cons, hd]
        congr 1
        omega

/-- The text `std::to_string` gives for a counter determines the counter. -/
theorem toString_nat_injective {n m : Nat} (h : toString n = toString m) : n = m := by
  have h1 : Nat.toDigits 10 n = Nat.toDigits 10 m := congrArg String.data h
  have hn := decimalValue_toDigitsCore (n + 1) n [] (by omega)
  have hm := decimalValue_toDigitsCore (m + 1) m [] (by omega)
  unfold Nat.toDigits at h1
  rw [h1, hm] at hn
  simpa [decimalValue] using hn.symm

/-- Two generated labels with the same text have the same counter. -/
theorem generated_label_injective {p q : String} {n m : Nat}
    (hp : p ∈ labelPrefixes) (hq : q ∈ labelPrefixes)
    (h : p ++ toString n = q ++ toString m) : n = m := by
  have hd := congrArg String.data h
  simp only [String.data_append] at hd
  simp only [labelPrefixes, List.mem_cons, List.mem_singleton, List.not_mem_nil,
    or_false] at hp hq
  have e1 : "else".data = ['e', 'l', 's', 'e'] := rfl
  have e2 : "endif".data = ['e', 'n', 'd', 'i', 'f'] := rfl
  have e3 : "loop".data = ['l', 'o', 'o', 'p'] := rfl
  have e4 : "endloop".data = ['e', 'n', 'd', 'l', 'o', 'o', 'p'] := rfl
  have key : (toString n).data = (toString m).data := by
    rcases hp with rfl | rfl | rfl | rfl <;> rcases hq with rfl | rfl | rfl | rfl <;>
      simp only [e1, e2, e3, e4, List.cons_append, List.nil_append, List.cons.injEq] at hd <;>
      first
        | exact hd
        | (simp at hd; done)
        | (exact absurd hd.1 (by decide))
        | (exact absurd hd.2.1 (by decide))
        | (exact absurd hd.2.2.2.1 (by decide))
        | (simp at hd; exact hd)
  exact toString_nat_injective (String.ext key)

theorem genLabels_nil (a b : Nat) : GenLabels a b [] :=
  ⟨List.nodup_nil, fun _ h => absurd h (List.not_mem_nil _)⟩

theorem genLabels_mono {a b a2 b2 : Nat} {L : List String} (h : GenLabels a b L)
    (ha : a2 ≤ a) (hb : b ≤ b2) : GenLabels a2 b2 L := by
  refine ⟨h.1, fun l hl => ?_⟩
  obtain ⟨pre, hpre, n, h1, h2, h3⟩ := h.2 l hl
  exact ⟨pre, hpre, n, by omega, by omega, h3⟩

theorem genLabels_single {pre : String} (hpre : pre ∈ labelPrefixes) (n : Nat) :
    GenLabels n (n + 1) [pre ++ toString n] := by
  refine ⟨List.nodup_singleton _, fun l hl => ?_⟩
  rw [List.mem_singleton] at hl
  exact ⟨pre, hpre, n, le_refl _, by omega, hl⟩

/-- Generated labels from disjoint counter ranges can be put together. -/
theorem genLabels_append {a b c d : Nat} {L1 L2 : List String} (h1 : GenLabels a b L1)
    (h2 : GenLabels c d L2) (hbc : b ≤ c ∨ d ≤ a) :
    GenLabels (min a c) (max b d) (L1 ++ L2) := by
  refine ⟨?_, fun l hl => ?_⟩
  · rw [List.nodup_append]
    refine ⟨h1.1, h2.1, fun l hl1 hl2 => ?_⟩
    obtain ⟨p, hp, n, hn1, hn2, hn3⟩ := h1.2 l hl1
    obtain ⟨q, hq, m, hm1, hm2, hm3⟩ := h2.2 l hl2
    have := generated_label_injective hp hq (hn3.symm.trans hm3)
    omega
  · rw [List.mem_append] at hl
    rcases hl with hl | hl
    · obtain ⟨p, hp, n, hn1, hn2, hn3⟩ := h1.2 l hl
      exact ⟨p, hp, n, by omega, by omega, hn3⟩
    · obtain ⟨q, hq, m, hm1, hm2, hm3⟩ := h2.2 l hl
      exact ⟨q, hq, m, by omega, by omega, hm3⟩

theorem genLabels_perm {a b : Nat} {L L2 : List String} (h : GenLabels a b L)
    (hp : L.Perm L2) : GenLabels a b L2 :=
  ⟨hp.nodup_iff.1 h.1, fun l hl => h.2 l (hp.mem_iff.2 hl)⟩

theorem genLabels_nodup {a b : Nat} {L : List String} (h : GenLabels a b L) : L.Nodup := h.1

/-! ## Labels in the output -/

@[simp] theorem labelDefs_append (o o2 : List Line) :
    labelDefs (o ++ o2) = labelDefs o ++ labelDefs o2 := by
  simp [labelDefs]

@[simp] theorem labelDefs_nil : labelDefs [] = [] := rfl

@[simp] theorem labelDefs_emit (g : RISCVCodeGenerator) (l : Line) :
    labelDefs (emit g l).output = labelDefs g.output ++ (labelName l).toList := by
  simp only [emit, labelDefs_append]
  cases h : labelName l <;> simp [labelDefs, h]

@[simp] theorem labelDefs_emitLabel (g : RISCVCodeGenerator) (name : String) :
    labelDefs (emitLabel g name).output = labelDefs g.output ++ [name] := by
  simp [emitLabel, labelDefs, labelName]

@[simp] theorem emit_labelCounter (g : RISCVCodeGenerator) (l : Line) :
    (emit g l).labelCounter = g.labelCounter := rfl

@[simp] theorem emitLabel_labelCounter (g : RISCVCodeGenerator) (name : String) :
    (emitLabel g name).labelCounter = g.labelCounter := rfl

@[simp] theorem generateEpilogue_labelCounter (g : RISCVCodeGenerator) :
    (generateEpilogue g).labelCounter = g.labelCounter := rfl

@[simp] theorem labelDefs_generateEpilogue (g : RISCVCodeGenerator) :
    labelDefs (generateEpilogue g).output = labelDefs g.output := by
  simp [generateEpilogue, labelName]

theorem labelDefs_emitUnaryOp (g : RISCVCodeGenerator) (op : UnaryOp) :
    labelDefs (emitUnaryOp g op).output = labelDefs g.output := by
  cases op <;> simp [emitUnaryOp, labelName]

theorem labelDefs_emitBinaryOp (g : RISCVCodeGenerator) (op : BinaryOp) :
    labelDefs (emitBinaryOp g op).output = labelDefs g.output := by
  cases op <;> simp [emitBinaryOp, labelName]

theorem labelDefs_optimizeConstantFolding (op : BinaryOp) (left right : Expression)
    (g : RISCVCodeGenerator)
    (ih : labelDefs (visitExpression left g).output = labelDefs g.output) :
    labelDefs (optimizeConstantFolding op left right (visitExpression left) g).output
      = labelDefs g.output := by
  unfold optimizeConstantFolding
  dsimp only
  split
  · rfl
  · split
    · split <;> simp [labelName]
    · split
      · split
        · exact ih
        · split
          · exact ih
          · split <;> simp [labelName]
      · rfl

mutual
/-- Expression code defines no label. -/
theorem labelDefs_visitExpression : ∀ (e : Expression) (g : RISCVCodeGenerator),
    labelDefs (visitExpression e g).output = labelDefs g.output
  | .NumberLiteral v, g => by simp [visitExpression, labelName]
  | .Identifier name, g => by
      simp only [visitExpression]
      split <;> simp [labelName]
  | .UnaryExpression op operand, g => by
      simp [visitExpression, labelName, labelDefs_emitUnaryOp,
        labelDefs_visitExpression operand g]
  | .BinaryExpression op left right, g => by
      simp only [visitExpression]
      split
      · exact labelDefs_optimizeConstantFolding op left right g
          (labelDefs_visitExpression left g)
      · simp [labelName, labelDefs_emitBinaryOp, labelDefs_visitExpression right,
          labelDefs_visitExpression left g]
  | .FunctionCall f args, g => by
      have ih := labelDefs_visitArguments args 0 0 g
      simp only [visitExpression]
      split <;> simp [labelName, ih]
theorem labelDefs_visitArguments : ∀ (args : List Expression) (i : Nat) (n : Int)
    (g : RISCVCodeGenerator),
    labelDefs (visitArguments args i n g).1.output = labelDefs g.output
  | [], i, n, g => by simp [visitArguments]
  | arg :: rest, i, n, g => by
      simp only [visitArguments]
      split
      · rw [labelDefs_visitArguments rest]
        simp [labelName, labelDefs_visitExpression arg g]
      · rw [labelDefs_visitArguments rest]
        simp [labelName, labelDefs_visitExpression arg g]
end

/-! ## Statements seen through their sub-statements -/

theorem visitStatement_if_none (c : Expression) (t : Statement) (g : RISCVCodeGenerator) :
    visitStatement (.IfStatement c t none) g
      = emitLabel
          (emitLabel
            (emit (visitStatement t (ifCondState c g))
              (.j ("endif" ++ toString (g.labelCounter + 1))))
            ("else" ++ toString g.labelCounter))
          ("endif" ++ toString (g.labelCounter + 1)) := by
  simp [visitStatement, ifCondState, newLabel]

theorem visitStatement_if_some (c : Expression) (t e : Statement) (g : RISCVCodeGenerator) :
    visitStatement (.IfStatement c t (some e)) g
      = emitLabel
          (visitStatement e
            (emitLabel
              (emit (visitStatement t (ifCondState c g))
                (.j ("endif" ++ toString (g.labelCounter + 1))))
              ("else" ++ toString g.labelCounter)))
          ("endif" ++ toString (g.labelCounter + 1)) := by
  simp [visitStatement, ifCondState, newLabel]

theorem visitStatement_while_output (c : Expression) (b : Statement)
    (g : RISCVCodeGenerator) :
    (visitStatement (.WhileStatement c b) g).output
      = (emitLabel
          (emit (visitStatement b (whileCondState c g)) (.j ("loop" ++ toString g.labelCounter)))
          ("endloop" ++ toString (g.labelCounter + 1))).output := by
  simp [visitStatement, whileCondState, newLabel]

theorem visitStatement_while_labelCounter (c : Expression) (b : Statement)
    (g : RISCVCodeGenerator) :
    (visitStatement (.WhileStatement c b) g).labelCounter
      = (visitStatement b (whileCondState c g)).labelCounter := by
  simp [visitStatement, whileCondState, newLabel]

theorem visitStatement_block_output (ss : List Statement) (g : RISCVCodeGenerator) :
    (visitStatement (.Block ss) g).output
      = (visitStatements ss { g with scopeStack := g.localVariables :: g.scopeStack }).output := by
  simp only [visitStatement]
  split <;> rfl

theorem visitStatement_block_labelCounter (ss : List Statement) (g : RISCVCodeGenerator) :
    (visitStatement (.Block ss) g).labelCounter
      = (visitStatements ss
          { g with scopeStack := g.localVariables :: g.scopeStack }).labelCounter := by
  simp only [visitStatement]
  split <;> rfl

theorem ifCondState_labels (c : Expression) (g : RISCVCodeGenerator) :
    labelDefs (ifCondState c g).output = labelDefs g.output
    ∧ (ifCondState c g).labelCounter = g.labelCounter + 2 := by
  simp [ifCondState, newLabel, labelName, labelDefs_visitExpression]

theorem whileCondState_labels (c : Expression) (g : RISCVCodeGenerator) :
    labelDefs (whileCondState c g).output
        = labelDefs g.output ++ ["loop" ++ toString g.labelCounter]
    ∧ (whileCondState c g).labelCounter = g.labelCounter + 2 := by
  simp [whileCondState, newLabel, labelName, labelDefs_visitExpression]

/-! ## Fresh labels per statement -/

theorem labelStep_same {o o2 : List Line} {c c2 : Nat} (h1 : labelDefs o2 = labelDefs o)
    (h2 : c2 = c) : LabelStep o c o2 c2 :=
  ⟨[], by simp [h1], by omega, genLabels_nil _ _⟩

theorem labelStep_trans {o o2 o3 : List Line} {c c2 c3 : Nat} (h1 : LabelStep o c o2 c2)
    (h2 : LabelStep o2 c2 o3 c3) : LabelStep o c o3 c3 := by
  obtain ⟨L1, e1, l1, g1⟩ := h1
  obtain ⟨L2, e2, l2, g2⟩ := h2
  refine ⟨L1 ++ L2, by rw [e2, e1, List.append_assoc], by omega, ?_⟩
  exact genLabels_mono (genLabels_append g1 g2 (Or.inl (le_refl _))) (by omega) (by omega)

theorem else_mem_labelPrefixes : "else" ∈ labelPrefixes := by decide

theorem endif_mem_labelPrefixes : "endif" ∈ labelPrefixes := by decide

theorem loop_mem_labelPrefixes : "loop" ∈ labelPrefixes := by decide

theorem endloop_mem_labelPrefixes : "endloop" ∈ labelPrefixes := by decide

/-- The labels of an if statement: those of the two branches and its own two. -/
theorem genLabels_if {c c4 c7 : Nat} {L1 L2 : List String} (h1 : GenLabels (c + 2) c4 L1)
    (h2 : GenLabels c4 c7 L2) (hle : c + 2 ≤ c4) (hle2 : c4 ≤ c7) :
    GenLabels c c7
      (L1 ++ ["else" ++ toString c] ++ L2 ++ ["endif" ++ toString (c + 1)]) := by
  have hA := genLabels_append (genLabels_single else_mem_labelPrefixes c)
    (genLabels_single endif_mem_labelPrefixes (c + 1)) (Or.inl (le_refl _))
  have hB := genLabels_append h1 h2 (Or.inl (le_refl _))
  have hC : GenLabels c c7 _ :=
    genLabels_mono (genLabels_append hA hB (Or.inl (by omega))) (by omega) (by omega)
  refine genLabels_perm hC ?_
  rw [List.perm_iff_count]
  intro x
  simp only [List.count_append, List.count_cons, List.count_nil]
  omega

/-- The labels of a while statement: those of the body and its own two. -/
theorem genLabels_while {c c4 : Nat} {L1 : List String} (h1 : GenLabels (c + 2) c4 L1)
    (hle : c + 2 ≤ c4) :
    GenLabels c c4 (["loop" ++ toString c] ++ L1 ++ ["endloop" ++ toString (c + 1)]) := by
  have hA := genLabels_append (genLabels_single loop_mem_labelPrefixes c)
    (genLabels_single endloop_mem_labelPrefixes (c + 1)) (Or.inl (le_refl _))
  have hC : GenLabels c c4 _ :=
    genLabels_mono (genLabels_append hA h1 (Or.inl (by omega))) (by omega) (by omega)
  refine genLabels_perm hC ?_
  rw [List.perm_iff_count]
  intro x
  simp only [List.count_append, List.count_cons, List.count_nil]
  omega

mutual
/-- Lowering a statement adds only fresh generated labels, with counters from the label
counter before the statement up to the label counter after it. -/
theorem visitStatement_labels : ∀ (s : Statement) (g : RISCVCodeGenerator),
    LabelStep g.output g.labelCounter (visitStatement s g).output
      (visitStatement s g).labelCounter
  | .AssignmentStatement v e, g => by
      apply labelStep_same
      · simp only [visitStatement]
        split <;> simp [labelName, labelDefs_visitExpression]
      · simp only [visitStatement]
        split <;> simp
  | .VariableDeclaration name (some e), g => by
      apply labelStep_same <;> simp [visitStatement, labelName, labelDefs_visitExpression]
  | .VariableDeclaration name none, g => by
      apply labelStep_same <;> simp [visitStatement, labelName]
  | .Block ss, g => by
      rw [visitStatement_block_output, visitStatement_block_labelCounter]
      exact visitStatements_labels ss { g with scopeStack := g.localVariables :: g.scopeStack }
  | .IfStatement c t none, g => by
      obtain ⟨hco, hcc⟩ := ifCondState_labels c g
      obtain ⟨L1, e1, l1, g1⟩ := visitStatement_labels t (ifCondState c g)
      rw [hcc] at l1 g1
      rw [visitStatement_if_none]
      refine ⟨L1 ++ ["else" ++ toString g.labelCounter] ++ []
          ++ ["endif" ++ toString (g.labelCounter + 1)], ?_, ?_, ?_⟩
      · simp [labelName, e1, hco]
      · simp only [emitLabel_labelCounter, emit_labelCounter]
        omega
      · simp only [emitLabel_labelCounter, emit_labelCounter]
        exact genLabels_if g1 (genLabels_nil _ _) l1 (le_refl _)
  | .IfStatement c t (some e), g => by
      obtain ⟨hco, hcc⟩ := ifCondState_labels c g
      obtain ⟨L1, e1, l1, g1⟩ := visitStatement_labels t (ifCondState c g)
      obtain ⟨L2, e2, l2, g2⟩ := visitStatement_labels e
        (emitLabel
          (emit (visitStatement t (ifCondState c g))
            (.j ("endif" ++ toString (g.labelCounter + 1))))
          ("else" ++ toString g.labelCounter))
      rw [hcc] at l1 g1
      simp only [emitLabel_labelCounter, emit_labelCounter] at l2 g2
      rw [visitStatement_if_some]
      refine ⟨L1 ++ ["else" ++ toString g.labelCounter] ++ L2
          ++ ["endif" ++ toString (g.labelCounter + 1)], ?_, ?_, ?_⟩
      · simp [labelName, e2, e1, hco]
      · simp only [emitLabel_labelCounter]
        omega
      · simp only [emitLabel_labelCounter]
        exact genLabels_if g1 g2 l1 l2
  | .WhileStatement c b, g => by
      obtain ⟨hco, hcc⟩ := whileCondState_labels c g
      obtain ⟨L1, e1, l1, g1⟩ := visitStatement_labels b (whileCondState c g)
      rw [hcc] at l1 g1
      rw [visitStatement_while_output, visitStatement_while_labelCounter]
      refine ⟨["loop" ++ toString g.labelCounter] ++ L1
          ++ ["endloop" ++ toString (g.labelCounter + 1)], ?_, by omega, ?_⟩
      · simp [labelName, e1, hco]
      · exact genLabels_while g1 l1
  | .BreakStatement, g => by
      apply labelStep_same
      · simp only [visitStatement]
        split <;> simp [labelName]
      · simp only [visitStatement]
        split <;> simp
  | .ContinueStatement, g => by
      apply labelStep_same
      · simp only [visitStatement]
        split <;> simp [labelName]
      · simp only [visitStatement]
        split <;> simp
  | .ReturnStatement (some e), g => by
      apply labelStep_same <;> simp [visitStatement, labelName, labelDefs_visitExpression]
  | .ReturnStatement none, g => by
      apply labelStep_same <;> simp [visitStatement]
  | .ExpressionStatement e, g => by
      apply labelStep_same <;> simp [visitStatement, labelName, labelDefs_visitExpression]
theorem visitStatements_labels : ∀ (ss : List Statement) (g : RISCVCodeGenerator),
    LabelStep g.output g.labelCounter (visitStatements ss g).output
      (visitStatements ss g).labelCounter
  | [], g => by
      simp only [visitStatements]
      exact labelStep_same rfl rfl
  | s :: rest, g => by
      simp only [visitStatements]
      exact labelStep_trans (visitStatement_labels s g)
        (visitStatements_labels rest (visitStatement s g))
end

/-! ## Labels of functions and units -/

theorem bindParameters_labels :
    ∀ (ps : List Parameter) (i : Nat) (g : RISCVCodeGenerator),
      labelDefs (bindParameters ps i g).output = labelDefs g.output
      ∧ (bindParameters ps i g).labelCounter = g.labelCounter := by
  intro ps
  induction ps with
  | nil => intro i g; exact ⟨rfl, rfl⟩
  | cons p rest ih =>
      intro i g
      simp only [bindParameters]
      split
      · obtain ⟨h1, h2⟩ := ih (i + 1)
          (emit { g with stackOffset := g.stackOffset - 4,
                         localVariables := mapAssign g.localVariables p.name (g.stackOffset - 4) }
            (.sw (.a i) (g.stackOffset - 4) .fp))
        refine ⟨?_, ?_⟩
        · rw [h1]; simp [labelName]
        · rw [h2]; rfl
      · exact ih (i + 1) g

theorem generatePrologue_labels (g : RISCVCodeGenerator) (name : String) (size : Int) :
    labelDefs (generatePrologue g name size).output = labelDefs g.output ++ [name]
    ∧ (generatePrologue g name size).labelCounter = g.labelCounter := by
  unfold generatePrologue
  dsimp only
  split <;> simp [labelName]

theorem enterFunction_labels (node : FunctionDefinition) (g : RISCVCodeGenerator) :
    labelDefs (enterFunction node g).output = labelDefs g.output ++ [node.name]
    ∧ (enterFunction node g).labelCounter = g.labelCounter := by
  unfold enterFunction
  dsimp only
  obtain ⟨h1, h2⟩ := bindParameters_labels node.parameters 0
    (generatePrologue
      { g with currentFunction := node.name, localVariables := [], stackOffset := -20 }
      node.name (frameSize node))
  obtain ⟨h3, h4⟩ := generatePrologue_labels
    { g with currentFunction := node.name, localVariables := [], stackOffset := -20 }
    node.name (frameSize node)
  exact ⟨by rw [h1, h3], by rw [h2, h4]⟩

/-- A function contributes its name and fresh generated labels. -/
theorem visitFunctionDefinition_labels (node : FunctionDefinition) (g : RISCVCodeGenerator) :
    ∃ L, labelDefs (visitFunctionDefinition node g).output
          = labelDefs g.output ++ node.name :: L
      ∧ g.labelCounter ≤ (visitFunctionDefinition node g).labelCounter
      ∧ GenLabels g.labelCounter (visitFunctionDefinition node g).labelCounter L := by
  obtain ⟨h1, h2⟩ := enterFunction_labels node g
  obtain ⟨L, e1, l1, g1⟩ := visitStatement_labels (.Block node.body) (enterFunction node g)
  rw [h2] at l1 g1
  refine ⟨L, ?_, ?_, ?_⟩
  · unfold visitFunctionDefinition
    dsimp only
    split
    · rw [labelDefs_generateEpilogue, e1, h1]
      simp
    · rw [e1, h1]
      simp
  · unfold visitFunctionDefinition
    dsimp only
    split
    · simpa using l1
    · exact l1
  · unfold visitFunctionDefinition
    dsimp only
    split
    · simpa using g1
    · exact g1

/-- The labels a sequence of functions contributes: pairwise different, each a function
name or a generated label with a counter not below the starting label counter. -/
theorem visitFunctions_labels :
    ∀ (fs : List FunctionDefinition) (g : RISCVCodeGenerator),
      (fs.map (fun f => f.name)).Nodup →
      (∀ f ∈ fs, ¬ isGeneratedLabel f.name) →
      ∃ L, labelDefs (fs.foldl (fun g func => visitFunctionDefinition func g) g).output
            = labelDefs g.output ++ L
        ∧ L.Nodup
        ∧ ∀ l ∈ L, l ∈ fs.map (fun f => f.name)
            ∨ ∃ pre ∈ labelPrefixes, ∃ n : Nat, g.labelCounter ≤ n ∧ l = pre ++ toString n := by
  intro fs
  induction fs with
  | nil =>
      intro g _ _
      exact ⟨[], by simp, List.nodup_nil, fun _ h => absurd h (List.not_mem_nil _)⟩
  | cons f rest ih =>
      intro g hnd hng
      simp only [List.map_cons, List.nodup_cons] at hnd
      obtain ⟨Lf, ef, lf, gf⟩ := visitFunctionDefinition_labels f g
      obtain ⟨Lr, er, ndr, mr⟩ := ih (visitFunctionDefinition f g) hnd.2
        (fun f2 h2 => hng f2 (List.mem_cons_of_mem _ h2))
      have hf : ¬ isGeneratedLabel f.name := hng f (List.mem_cons_self _ _)
      have hrest : ∀ l ∈ List.map (fun f => f.name) rest, ¬ isGeneratedLabel l := by
        intro l hl
        obtain ⟨f2, hf2, rfl⟩ := List.mem_map.1 hl
        exact hng f2 (List.mem_cons_of_mem _ hf2)
      refine ⟨f.name :: (Lf ++ Lr), ?_, ?_, ?_⟩
      · simp only [List.foldl_cons]
        rw [er, ef]
        simp
      · rw [List.nodup_cons, List.nodup_append]
        refine ⟨?_, gf.1, ndr, ?_⟩
        · rw [List.mem_append]
          rintro (h | h)
          · obtain ⟨pre, hpre, n, _, _, hn⟩ := gf.2 _ h
            exact hf ⟨pre, hpre, n, hn⟩
          · rcases mr _ h with h2 | ⟨pre, hpre, n, _, hn⟩
            · exact hnd.1 h2
            · exact hf ⟨pre, hpre, n, hn⟩
        · intro l hl1 hl2
          obtain ⟨pre, hpre, n, _, hn2, hn⟩ := gf.2 _ hl1
          rcases mr _ hl2 with h2 | ⟨pre2, hpre2, m, hm1, hm⟩
          · exact hrest l h2 ⟨pre, hpre, n, hn⟩
          · have := generated_label_injective hpre hpre2 (hn.symm.trans hm)
            omega
      · intro l hl
        rw [List.mem_cons, List.mem_append] at hl
        rcases hl with h | h | h
        · exact Or.inl (by simp [h])
        · obtain ⟨pre, hpre, n, hn1, _, hn⟩ := gf.2 _ h
          exact Or.inr ⟨pre, hpre, n, hn1, hn⟩
        · rcases mr _ h with h2 | ⟨pre, hpre, n, hn1, hn⟩
          · exact Or.inl (List.mem_cons_of_mem _ h2)
          · exact Or.inr ⟨pre, hpre, n, by omega, hn⟩

/-- A name whose first character is neither `e` nor `l` is not of the form of a generated
label. -/
theorem not_isGeneratedLabel_of_head {s : String} (ch : Char) (tl : List Char)
    (hs : s.data = ch :: tl) (he : ch ≠ 'e') (hl : ch ≠ 'l') : ¬ isGeneratedLabel s := by
  rintro ⟨pre, hpre, n, h⟩
  have hd := congrArg String.data h
  rw [hs, String.data_append] at hd
  simp only [labelPrefixes, List.mem_cons, List.mem_singleton, List.not_mem_nil,
    or_false] at hpre
  have e1 : "else".data = ['e', 'l', 's', 'e'] := rfl
  have e2 : "endif".data = ['e', 'n', 'd', 'i', 'f'] := rfl
  have e3 : "loop".data = ['l', 'o', 'o', 'p'] := rfl
  have e4 : "endloop".data = ['e', 'n', 'd', 'l', 'o', 'o', 'p'] := rfl
  rcases hpre with rfl | rfl | rfl | rfl <;>
    simp only [e1, e2, e3, e4, List.cons_append, List.cons.injEq] at hd
  · exact he hd.1
  · exact he hd.1
  · exact hl hd.1
  · exact he hd.1

/-- C6 (label uniqueness) fails for the unit `void loop0() { while (1) { } }`: the output
defines the labels `loop0`, `loop0`, `endloop1`.  The prologue emits the function name as a
label verbatim and `newLabel("loop")` returns `loop0` for the first loop of the run, so the
function label and the loop-start label are the same text, although `newLabel` numbers the
generated labels to keep them apart. -/
theorem label_uniqueness_fails_for_function_named_loop0 :
    labelDefs (generate RISCVCodeGenerator.new loopNamedUnit []).output
        = ["loop0", "loop0", "endloop1"]
    ∧ ¬ (labelDefs (generate RISCVCodeGenerator.new loopNamedUnit []).output).Nodup := by
  constructor <;> decide!

/-- Where no function name can be taken for a generated label, the labels of a run are
distinct: for every compilation unit whose function names are pairwise distinct and none of
which has the form of a generated label (`else`, `endif`, `loop` or `endloop` followed by a
decimal counter), for every generator state and function table, no two label-definition
lines of the output of `generate` are identical. -/
theorem label_uniqueness (g : RISCVCodeGenerator) (unit : CompilationUnit)
    (funcTable : List (String × FunctionInfo))
    (hnames : (unit.functions.map (fun f => f.name)).Nodup)
    (hgen : ∀ f ∈ unit.functions, ¬ isGeneratedLabel f.name) :
    (labelDefs (generate g unit funcTable).output).Nodup := by
  obtain ⟨L, e, nd, _⟩ := visitFunctions_labels unit.functions
    (emit (emit (emit
      { g with output := [], functions := funcTable, stackOffset := 0, labelCounter := 0 }
      (.directive ".data")) (.directive ".text")) (.directive ".global main")) hnames hgen
  have h : labelDefs (generate g unit funcTable).output = L := by
    unfold generate visitCompilationUnit
    dsimp only
    rw [e]
    simp [labelName]
  rw [h]
  exact nd

/-- An instance of `label_uniqueness`: the unit with the single function `main`. -/
theorem label_uniqueness_witness :
    (sampleUnit.functions.map (fun f => f.name)).Nodup
    ∧ (∀ f ∈ sampleUnit.functions, ¬ isGeneratedLabel f.name)
    ∧ (labelDefs (generate RISCVCodeGenerator.new sampleUnit []).output).Nodup :=
  have hgen : ∀ f ∈ sampleUnit.functions, ¬ isGeneratedLabel f.name := by
    intro f hf
    have hmain : f.name = "main" := by
      simp only [sampleUnit, List.mem_singleton] at hf
      rw [hf]
    rw [hmain]
    exact not_isGeneratedLabel_of_head 'm' ['a', 'i', 'n'] rfl (by decide) (by decide)
  ⟨by decide, hgen, label_uniqueness RISCVCodeGenerator.new sampleUnit [] (by decide) hgen⟩

/-- The labels of the sample unit: the function label and the four generated ones. -/
theorem sample_unit_labels :
    labelDefs (generate RISCVCodeGenerator.new sampleUnit []).output
      = ["main", "loop0", "else2", "endif3", "endloop1"] := by
  decide!

/-! ## Break and continue -/

/-- C12 (break/continue outside a loop): with an empty break (continue) label stack, lowering
a break (continue) statement changes nothing but the output, to which it appends exactly one
comment line, whose text begins with `#`; with a non-empty stack it appends exactly the jump
`j <top of the stack>`. -/
theorem break_continue_degrade (g : RISCVCodeGenerator) :
    (g.breakLabels = [] →
        visitStatement .BreakStatement g
          = withOutput g (g.output ++ [.comment "ERROR: break statement outside of loop"]))
    ∧ (∀ top rest, g.breakLabels = top :: rest →
        visitStatement .BreakStatement g = withOutput g (g.output ++ [.j top]))
    ∧ (g.continueLabels = [] →
        visitStatement .ContinueStatement g
          = withOutput g (g.output ++ [.comment "ERROR: continue statement outside of loop"]))
    ∧ (∀ top rest, g.continueLabels = top :: rest →
        visitStatement .ContinueStatement g = withOutput g (g.output ++ [.j top]))
    ∧ (Line.comment "ERROR: break statement outside of loop").text
        = "# ERROR: break statement outside of loop"
    ∧ (Line.comment "ERROR: continue statement outside of loop").text
        = "# ERROR: continue statement outside of loop" := by
  refine ⟨?_, ?_, ?_, ?_, by decide, by decide⟩
  · intro h
    simp only [visitStatement, h]
    rfl
  · intro top rest h
    simp only [visitStatement, h]
    rfl
  · intro h
    simp only [visitStatement, h]
    rfl
  · intro top rest h
    simp only [visitStatement, h]
    rfl

/-- A break on a fresh generator: one comment line and no jump. -/
theorem break_outside_loop_example :
    (visitStatement .BreakStatement RISCVCodeGenerator.new).output
      = [.comment "ERROR: break statement outside of loop"] := by
  decide

/-! ## Stack balance without optimization -/

theorem spSum_append (o o2 : List Line) : spSum (o ++ o2) = spSum o + spSum o2 := by
  simp [spSum]

@[simp] theorem spSum_emit (g : RISCVCodeGenerator) (l : Line) :
    spSum (emit g l).output = spSum g.output + spImmediate l := by
  simp [emit, spSum]

@[simp] theorem emit_optimizationsEnabled (g : RISCVCodeGenerator) (l : Line) :
    (emit g l).optimizationsEnabled = g.optimizationsEnabled := rfl

theorem spSum_emitUnaryOp (g : RISCVCodeGenerator) (op : UnaryOp) :
    spSum (emitUnaryOp g op).output = spSum g.output := by
  cases op <;> simp [emitUnaryOp, spImmediate]

theorem spSum_emitBinaryOp (g : RISCVCodeGenerator) (op : BinaryOp) :
    spSum (emitBinaryOp g op).output = spSum g.output := by
  cases op <;> simp [emitBinaryOp, spImmediate]

mutual
/-- Without optimization every expression is one net push. -/
theorem spSum_visitExpression : ∀ (e : Expression) (g : RISCVCodeGenerator),
    g.optimizationsEnabled = false →
    spSum (visitExpression e g).output = spSum g.output - 4
  | .NumberLiteral v, g, _ => by
      simp [visitExpression, spImmediate]
      ring
  | .Identifier name, g, _ => by
      simp only [visitExpression]
      split <;> simp [spImmediate] <;> ring
  | .UnaryExpression op operand, g, h => by
      have ih := spSum_visitExpression operand g h
      simp [visitExpression, spImmediate, spSum_emitUnaryOp, ih]
  | .BinaryExpression op left right, g, h => by
      have ihl := spSum_visitExpression left g h
      have ihr := spSum_visitExpression right (visitExpression left g) (by simpa using h)
      simp [visitExpression, h, spImmediate, spSum_emitBinaryOp, ihl, ihr]
  | .FunctionCall f args, g, h => by
      obtain ⟨h1, h2⟩ := spSum_visitArguments args 0 0 g h
      simp only [visitExpression]
      split
      · simp [spImmediate]
        omega
      · simp [spImmediate]
        omega
theorem spSum_visitArguments : ∀ (args : List Expression) (i : Nat) (n : Int)
    (g : RISCVCodeGenerator), g.optimizationsEnabled = false →
    spSum (visitArguments args i n g).1.output + 4 * (visitArguments args i n g).2
        = spSum g.output + 4 * n
      ∧ n ≤ (visitArguments args i n g).2
  | [], i, n, g, _ => by simp [visitArguments]
  | arg :: rest, i, n, g, h => by
      have ih := spSum_visitExpression arg g h
      simp only [visitArguments]
      split
      · obtain ⟨h1, h2⟩ := spSum_visitArguments rest (i + 1) n
          (emit (emit (emit (visitExpression arg g) (.lw .t0 0 .sp)) (.addi .sp .sp 4))
            (.mv (.a i) .t0)) (by simpa using h)
        refine ⟨?_, h2⟩
        rw [h1]
        simp [spImmediate, ih]
      · obtain ⟨h1, h2⟩ := spSum_visitArguments rest (i + 1) (n + 1)
          (emit (emit (emit (emit (visitExpression arg g) (.lw .t0 0 .sp)) (.addi .sp .sp 4))
            (.addi .sp .sp (-4))) (.sw .t0 0 .sp)) (by simpa using h)
        refine ⟨?_, by omega⟩
        rw [h1]
        simp [spImmediate, ih]
        ring
end

theorem emitted_visitExpression (e : Expression) (g : RISCVCodeGenerator) :
    emitted g (visitExpression e g) = exprCode e g := by
  simp [emitted, visitExpression_output]

/-- C14 (stack balance of the unoptimized path): with optimizations disabled, for every
expression and every generator state, the immediates of the `addi sp, sp, k` lines appended
by lowering the expression sum to -4. -/
theorem unoptimized_stack_balance (e : Expression) (g : RISCVCodeGenerator)
    (hopt : g.optimizationsEnabled = false) :
    spSum (emitted g (visitExpression e g)) = -4 := by
  have h := spSum_visitExpression e g hopt
  rw [visitExpression_output, spSum_append] at h
  rw [emitted_visitExpression]
  omega

/-- Witness for C14: the call `f(1, g(2))` on a fresh generator. -/
theorem unoptimized_stack_balance_witness :
    RISCVCodeGenerator.new.optimizationsEnabled = false
    ∧ spSum (emitted RISCVCodeGenerator.new (visitExpression nestedCall RISCVCodeGenerator.new))
        = -4 :=
  ⟨rfl, unoptimized_stack_balance nestedCall RISCVCodeGenerator.new rfl⟩

/-- A call with ten arguments is balanced as well: two re-pushes and a deflation by 8. -/
theorem ten_argument_call_balance :
    spSum (emitted RISCVCodeGenerator.new
      (visitExpression (.FunctionCall "f" tenArguments) RISCVCodeGenerator.new)) = -4 := by
  decide!

/-! ## Frame size, frame containment, prologue and epilogue -/

theorem countLocalVars_eq (body : List Statement) :
    countLocalVars body = (topLevelDeclarations body : Int) := by
  induction body with
  | nil => rfl
  | cons s rest ih =>
      cases s <;> simp [countLocalVars, topLevelDeclarations, isVariableDeclaration] at ih ⊢ <;>
        omega

/-- C16 (frame size formula), as stated: for the nine-parameter function `h` the frame size
handed to the prologue is 64, while the smallest multiple of 16 that is at least
`16 + 4 * min(9, 8) + 4 * 0` is 48. -/
theorem frame_size_counts_all_parameters :
    frameSize nineParameters = 64
    ∧ specFrameSize nineParameters.parameters.length (topLevelDeclarations nineParameters.body)
        = 48
    ∧ frameSize nineParameters
        ≠ specFrameSize nineParameters.parameters.length
            (topLevelDeclarations nineParameters.body) := by
  refine ⟨by decide, by decide, by decide⟩

/-- C16 (frame size formula), amended: for every function definition with `n` parameters
and `m` variable declarations directly at the top level of its body, the frame size handed
to the prologue is the smallest multiple of 16 that is at least `16 + 4 * n + 4 * m`: all
`n` parameters are counted, not only the register-passed ones. -/
theorem frame_size_formula (node : FunctionDefinition) (g : RISCVCodeGenerator) :
    enterFunction node g
        = bindParameters node.parameters 0
            (generatePrologue
              { g with currentFunction := node.name, localVariables := [], stackOffset := -20 }
              node.name (frameSize node))
    ∧ (16 : Int) ∣ frameSize node
    ∧ 16 + 4 * (node.parameters.length : Int) + 4 * (topLevelDeclarations node.body : Int)
        ≤ frameSize node
    ∧ ∀ k : Int, (16 : Int) ∣ k →
        16 + 4 * (node.parameters.length : Int) + 4 * (topLevelDeclarations node.body : Int) ≤ k →
        frameSize node ≤ k := by
  refine ⟨rfl, ?_, ?_, ?_⟩
  · unfold frameSize clearLowBits
    dsimp only
    omega
  · unfold frameSize clearLowBits
    dsimp only
    rw [countLocalVars_eq]
    omega
  · intro k hk hle
    unfold frameSize clearLowBits
    dsimp only
    rw [countLocalVars_eq]
    omega

/-- The amended formula agrees with the stated one for at most eight parameters. -/
theorem frame_size_formula_up_to_eight (node : FunctionDefinition)
    (h : node.parameters.length ≤ 8) :
    frameSize node = specFrameSize node.parameters.length (topLevelDeclarations node.body) := by
  unfold frameSize clearLowBits specFrameSize
  dsimp only
  rw [countLocalVars_eq]
  have hm : min node.parameters.length 8 = node.parameters.length := by omega
  rw [hm]
  push_cast
  omega

/-- C18 (frame containment): for `void f() { int a; int b; int c; int d; }`, whose four
declarations are all at the top level, the prologue reserves a frame of 32 bytes, and `d` is
assigned the offset -36 (stored by `sw t0, -36(fp)`), which is below `-frameSize`; likewise
for eight parameters the frame is 48 bytes and `p7` is assigned -52. -/
theorem slot_below_reserved_frame :
    frameSize fourLocals = 32
    ∧ mapFind (visitStatements fourLocals.body
          (enterFunction fourLocals RISCVCodeGenerator.new)).localVariables "d" = some (-36)
    ∧ Line.sw .t0 (-36) .fp ∈ (visitFunctionDefinition fourLocals RISCVCodeGenerator.new).output
    ∧ (-36 : Int) < -(frameSize fourLocals)
    ∧ frameSize eightParameters = 48
    ∧ mapFind (enterFunction eightParameters RISCVCodeGenerator.new).localVariables "p7"
        = some (-52)
    ∧ (-52 : Int) < -(frameSize eightParameters) := by
  refine ⟨by decide, by decide!, by decide!, by decide, by decide, by decide!, by decide⟩

/-- C19 (prologue/epilogue balance): for `int id(int a) { return a; }` the frame size is 32;
the prologue emits `addi sp, sp, -16` and `addi sp, sp, -16`, the epilogue only
`addi sp, sp, 16`, so the immediates sum to -16 instead of 0. -/
theorem epilogue_releases_only_sixteen :
    frameSize identityFunction = 32
    ∧ emitted RISCVCodeGenerator.new
        (generatePrologue RISCVCodeGenerator.new identityFunction.name
          (frameSize identityFunction))
        = [.label "id", .addi .sp .sp (-16), .sw .ra 12 .sp, .sw .fp 8 .sp, .addi .fp .sp 16,
           .addi .sp .sp (-16)]
    ∧ emitted RISCVCodeGenerator.new (generateEpilogue RISCVCodeGenerator.new)
        = [.lw .ra (-4) .fp, .lw .fp (-8) .fp, .addi .sp .sp 16, .ret]
    ∧ spSum (emitted RISCVCodeGenerator.new
          (generatePrologue RISCVCodeGenerator.new identityFunction.name
            (frameSize identityFunction)))
        + spSum (emitted RISCVCodeGenerator.new (generateEpilogue RISCVCodeGenerator.new))
        = -16
    ∧ spSum (visitFunctionDefinition identityFunction RISCVCodeGenerator.new).output = -16 := by
  refine ⟨by decide, by decide!, by decide!, by decide!, by decide!⟩

/-- The prologue and one epilogue together move `sp` by `16 - localSize` whenever the frame
is larger than 16 bytes; they are balanced only for a frame of exactly 16 bytes. -/
theorem prologue_epilogue_sum (g : RISCVCodeGenerator) (name : String) (localSize : Int) :
    spSum (emitted g (generatePrologue g name localSize))
        + spSum (emitted g (generateEpilogue g))
      = if localSize > 16 then 16 - localSize else 0 := by
  unfold generatePrologue generateEpilogue emitted
  dsimp only
  split <;> simp [emit, emitLabel, spSum, spImmediate]

/-! ## Frame slots are never reused -/

theorem mapFind_mem {m : NameMap} {name : String} {o : Int} (h : mapFind m name = some o) :
    (name, o) ∈ m := by
  induction m with
  | nil => simp [mapFind] at h
  | cons p rest ih =>
      obtain ⟨k, v⟩ := p
      by_cases hk : k = name
      · simp only [mapFind, if_pos hk, Option.some.injEq] at h
        subst hk
        subst h
        exact List.mem_cons_self _ _
      · simp only [mapFind, if_neg hk] at h
        exact List.mem_cons_of_mem _ (ih h)

theorem mapAssign_mem {m : NameMap} {k : String} {v : Int} {p : String × Int}
    (h : p ∈ mapAssign m k v) : p.2 = v ∨ p ∈ m := by
  induction m with
  | nil =>
      simp only [mapAssign, List.mem_singleton] at h
      exact Or.inl (by rw [h])
  | cons q rest ih =>
      obtain ⟨k2, w⟩ := q
      by_cases hk : k2 = k
      · simp only [mapAssign, if_pos hk, List.mem_cons] at h
        rcases h with h | h
        · exact Or.inl (by rw [h])
        · exact Or.inr (List.mem_cons_of_mem _ h)
      · simp only [mapAssign, if_neg hk, List.mem_cons] at h
        rcases h with h | h
        · exact Or.inr (by rw [h]; exact List.mem_cons_self _ _)
        · rcases ih h with h2 | h2
          · exact Or.inl h2
          · exact Or.inr (List.mem_cons_of_mem _ h2)

theorem mapAssign_nodup {m : NameMap} (k : String) {v : Int}
    (hnd : (m.map Prod.snd).Nodup) (hlt : ∀ p ∈ m, v < p.2) :
    ((mapAssign m k v).map Prod.snd).Nodup := by
  induction m with
  | nil => simp [mapAssign]
  | cons q rest ih =>
      obtain ⟨k2, w⟩ := q
      simp only [List.map_cons, List.nodup_cons] at hnd
      have hrest : ∀ p ∈ rest, v < p.2 := fun p hp => hlt p (List.mem_cons_of_mem _ hp)
      by_cases hk : k2 = k
      · simp only [mapAssign, if_pos hk, List.map_cons, List.nodup_cons]
        refine ⟨?_, hnd.2⟩
        intro hmem
        obtain ⟨p, hp, hpv⟩ := List.mem_map.1 hmem
        have := hrest p hp
        omega
      · simp only [mapAssign, if_neg hk, List.map_cons, List.nodup_cons]
        refine ⟨?_, ih hnd.2 hrest⟩
        intro hmem
        obtain ⟨p, hp, hpv⟩ := List.mem_map.1 hmem
        rcases mapAssign_mem hp with h2 | h2
        · have := hlt (k2, w) (List.mem_cons_self _ _)
          simp only at this hpv
          omega
        · exact hnd.1 (List.mem_map.2 ⟨p, h2, hpv⟩)

/-- Allocating the next slot keeps the slot invariant. -/
theorem slotInv_allocate {lv : NameMap} {so : Int} (name : String)
    (hnd : (lv.map Prod.snd).Nodup) (hge : ∀ p ∈ lv, so ≤ p.2) :
    ((mapAssign lv name (so - 4)).map Prod.snd).Nodup
      ∧ ∀ p ∈ mapAssign lv name (so - 4), so - 4 ≤ p.2 := by
  refine ⟨mapAssign_nodup name hnd (fun p hp => by have := hge p hp; omega), ?_⟩
  intro p hp
  rcases mapAssign_mem hp with h | h
  · omega
  · have := hge p h
    omega

/-- Under the slot invariant two names bound to the same offset are the same name. -/
theorem slotInv_distinct {g : RISCVCodeGenerator} (h : SlotInv g) (n1 n2 : String) (o : Int)
    (h1 : mapFind g.localVariables n1 = some o) (h2 : mapFind g.localVariables n2 = some o) :
    n1 = n2 := by
  have e := List.inj_on_of_nodup_map h.1 (mapFind_mem h1) (mapFind_mem h2) rfl
  exact (Prod.mk.injEq _ _ _ _ ▸ e).1

theorem visitStatement_block_localVariables (ss : List Statement) (g : RISCVCodeGenerator) :
    (visitStatement (.Block ss) g).localVariables = g.localVariables := by
  have ih := visitStatements_scopeStack ss
    { g with scopeStack := g.localVariables :: g.scopeStack }
  simp only [visitStatement]
  split
  · rename_i top rest heq
    rw [ih] at heq
    simp only [List.cons.injEq] at heq
    exact heq.1.symm
  · rename_i heq
    rw [ih] at heq
    exact absurd heq (by simp)

theorem visitStatement_block_stackOffset (ss : List Statement) (g : RISCVCodeGenerator) :
    (visitStatement (.Block ss) g).stackOffset
      = (visitStatements ss { g with scopeStack := g.localVariables :: g.scopeStack }).stackOffset
    := by
  simp only [visitStatement]
  split <;> rfl

@[simp] theorem emit_stackOffset (g : RISCVCodeGenerator) (l : Line) :
    (emit g l).stackOffset = g.stackOffset := rfl

@[simp] theorem emit_localVariables (g : RISCVCodeGenerator) (l : Line) :
    (emit g l).localVariables = g.localVariables := rfl

@[simp] theorem emitLabel_stackOffset (g : RISCVCodeGenerator) (l : String) :
    (emitLabel g l).stackOffset = g.stackOffset := rfl

@[simp] theorem emitLabel_localVariables (g : RISCVCodeGenerator) (l : String) :
    (emitLabel g l).localVariables = g.localVariables := rfl

@[simp] theorem generateEpilogue_stackOffset (g : RISCVCodeGenerator) :
    (generateEpilogue g).stackOffset = g.stackOffset := rfl

@[simp] theorem generateEpilogue_localVariables (g : RISCVCodeGenerator) :
    (generateEpilogue g).localVariables = g.localVariables := rfl

theorem ifCondState_slots (c : Expression) (g : RISCVCodeGenerator) :
    (ifCondState c g).localVariables = g.localVariables
    ∧ (ifCondState c g).stackOffset = g.stackOffset := by
  simp [ifCondState, newLabel]

theorem whileCondState_slots (c : Expression) (g : RISCVCodeGenerator) :
    (whileCondState c g).localVariables = g.localVariables
    ∧ (whileCondState c g).stackOffset = g.stackOffset := by
  simp [whileCondState, newLabel]

theorem visitStatement_while_slots (c : Expression) (b : Statement) (g : RISCVCodeGenerator) :
    (visitStatement (.WhileStatement c b) g).localVariables
        = (visitStatement b (whileCondState c g)).localVariables
    ∧ (visitStatement (.WhileStatement c b) g).stackOffset
        = (visitStatement b (whileCondState c g)).stackOffset := by
  simp [visitStatement, whileCondState, newLabel]

theorem slotInv_of_eq {g g2 : RISCVCodeGenerator} (h : SlotInv g)
    (h1 : g2.localVariables = g.localVariables) (h2 : g2.stackOffset ≤ g.stackOffset) :
    SlotInv g2 := by
  unfold SlotInv at h ⊢
  rw [h1]
  exact ⟨h.1, fun p hp => le_trans h2 (h.2 p hp)⟩

theorem slotInv_congr {g g2 : RISCVCodeGenerator} (h : SlotInv g)
    (h1 : g2.localVariables = g.localVariables) (h2 : g2.stackOffset = g.stackOffset) :
    SlotInv g2 :=
  slotInv_of_eq h h1 (le_of_eq h2)

theorem visitStatement_declaration_slots (name : String) (init : Option Expression)
    (g : RISCVCodeGenerator) :
    (visitStatement (.VariableDeclaration name init) g).localVariables
        = mapAssign g.localVariables name (g.stackOffset - 4)
    ∧ (visitStatement (.VariableDeclaration name init) g).stackOffset = g.stackOffset - 4 := by
  cases init <;> simp [visitStatement]

mutual
/-- Every statement keeps the slot invariant and lowers the offset counter by exactly four
bytes per declaration it contains, at any depth. -/
theorem visitStatement_slots : ∀ (s : Statement) (g : RISCVCodeGenerator), SlotInv g →
    SlotInv (visitStatement s g)
      ∧ (visitStatement s g).stackOffset = g.stackOffset - 4 * (declCount s : Int)
  | .AssignmentStatement v e, g, h => by
      have h1 : (visitStatement (.AssignmentStatement v e) g).localVariables
          = g.localVariables := by
        simp only [visitStatement]
        split <;> simp
      have h2 : (visitStatement (.AssignmentStatement v e) g).stackOffset = g.stackOffset := by
        simp only [visitStatement]
        split <;> simp
      exact ⟨slotInv_congr h h1 h2, by simp [declCount, h2]⟩
  | .VariableDeclaration name init, g, h => by
      obtain ⟨h1, h2⟩ := visitStatement_declaration_slots name init g
      refine ⟨?_, by simp [declCount, h2]⟩
      unfold SlotInv
      rw [h1, h2]
      exact slotInv_allocate name h.1 h.2
  | .Block ss, g, h => by
      obtain ⟨i1, i2⟩ := visitStatements_slots ss
        { g with scopeStack := g.localVariables :: g.scopeStack } (slotInv_congr h rfl rfl)
      have h1 := visitStatement_block_localVariables ss g
      have h2 := visitStatement_block_stackOffset ss g
      rw [i2] at h2
      simp only at h2
      refine ⟨slotInv_of_eq h h1 (by rw [h2]; omega), ?_⟩
      simp [declCount, h2]
  | .IfStatement c t none, g, h => by
      obtain ⟨c1, c2⟩ := ifCondState_slots c g
      obtain ⟨i1, i2⟩ := visitStatement_slots t (ifCondState c g) (slotInv_congr h c1 c2)
      rw [visitStatement_if_none]
      refine ⟨slotInv_congr i1 rfl rfl, ?_⟩
      simp only [emitLabel_stackOffset, emit_stackOffset, i2, c2, declCount]
  | .IfStatement c t (some e), g, h => by
      obtain ⟨c1, c2⟩ := ifCondState_slots c g
      obtain ⟨i1, i2⟩ := visitStatement_slots t (ifCondState c g) (slotInv_congr h c1 c2)
      obtain ⟨j1, j2⟩ := visitStatement_slots e
        (emitLabel
          (emit (visitStatement t (ifCondState c g))
            (.j ("endif" ++ toString (g.labelCounter + 1))))
          ("else" ++ toString g.labelCounter)) (slotInv_congr i1 rfl rfl)
      rw [visitStatement_if_some]
      refine ⟨slotInv_congr j1 rfl rfl, ?_⟩
      simp only [emitLabel_stackOffset, emit_stackOffset, j2, i2, c2, declCount]
      push_cast
      ring
  | .WhileStatement c b, g, h => by
      obtain ⟨c1, c2⟩ := whileCondState_slots c g
      obtain ⟨i1, i2⟩ := visitStatement_slots b (whileCondState c g) (slotInv_congr h c1 c2)
      obtain ⟨w1, w2⟩ := visitStatement_while_slots c b g
      refine ⟨slotInv_congr i1 w1 w2, ?_⟩
      rw [w2, i2, c2]
      simp [declCount]
  | .BreakStatement, g, h => by
      have h1 : (visitStatement .BreakStatement g).localVariables = g.localVariables := by
        simp only [visitStatement]
        split <;> simp
      have h2 : (visitStatement .BreakStatement g).stackOffset = g.stackOffset := by
        simp only [visitStatement]
        split <;> simp
      exact ⟨slotInv_congr h h1 h2, by simp [declCount, h2]⟩
  | .ContinueStatement, g, h => by
      have h1 : (visitStatement .ContinueStatement g).localVariables = g.localVariables := by
        simp only [visitStatement]
        split <;> simp
      have h2 : (visitStatement .ContinueStatement g).stackOffset = g.stackOffset := by
        simp only [visitStatement]
        split <;> simp
      exact ⟨slotInv_congr h h1 h2, by simp [declCount, h2]⟩
  | .ReturnStatement (some e), g, h => by
      have h1 : (visitStatement (.ReturnStatement (some e)) g).localVariables
          = g.localVariables := by simp [visitStatement]
      have h2 : (visitStatement (.ReturnStatement (some e)) g).stackOffset
          = g.stackOffset := by simp [visitStatement]
      exact ⟨slotInv_congr h h1 h2, by simp [declCount, h2]⟩
  | .ReturnStatement none, g, h => by
      have h1 : (visitStatement (.ReturnStatement none) g).localVariables
          = g.localVariables := by simp [visitStatement]
      have h2 : (visitStatement (.ReturnStatement none) g).stackOffset
          = g.stackOffset := by simp [visitStatement]
      exact ⟨slotInv_congr h h1 h2, by simp [declCount, h2]⟩
  | .ExpressionStatement e, g, h => by
      have h1 : (visitStatement (.ExpressionStatement e) g).localVariables
          = g.localVariables := by simp [visitStatement]
      have h2 : (visitStatement (.ExpressionStatement e) g).stackOffset
          = g.stackOffset := by simp [visitStatement]
      exact ⟨slotInv_congr h h1 h2, by simp [declCount, h2]⟩
theorem visitStatements_slots : ∀ (ss : List Statement) (g : RISCVCodeGenerator), SlotInv g →
    SlotInv (visitStatements ss g)
      ∧ (visitStatements ss g).stackOffset = g.stackOffset - 4 * (declCountList ss : Int)
  | [], g, h => by
      simp only [visitStatements]
      exact ⟨h, by simp [declCountList]⟩
  | s :: rest, g, h => by
      obtain ⟨i1, i2⟩ := visitStatement_slots s g h
      obtain ⟨j1, j2⟩ := visitStatements_slots rest (visitStatement s g) i1
      simp only [visitStatements]
      refine ⟨j1, ?_⟩
      rw [j2, i2]
      simp only [declCountList]
      push_cast
      ring
end

/-- The parameter loop keeps the slot invariant and lowers the offset counter by four bytes
per register-passed parameter. -/
theorem bindParameters_slots :
    ∀ (ps : List Parameter) (i : Nat) (g : RISCVCodeGenerator), SlotInv g →
      SlotInv (bindParameters ps i g)
        ∧ (bindParameters ps i g).stackOffset
            = g.stackOffset - 4 * ((min ps.length (8 - i) : Nat) : Int) := by
  intro ps
  induction ps with
  | nil => intro i g h; exact ⟨h, by simp [bindParameters]⟩
  | cons p rest ih =>
      intro i g h
      simp only [bindParameters]
      split
      · rename_i hi
        have hinv : SlotInv
            (emit { g with stackOffset := g.stackOffset - 4,
                           localVariables := mapAssign g.localVariables p.name (g.stackOffset - 4) }
              (.sw (.a i) (g.stackOffset - 4) .fp)) := by
          unfold SlotInv
          exact slotInv_allocate p.name h.1 h.2
        obtain ⟨i1, i2⟩ := ih (i + 1) _ hinv
        refine ⟨i1, ?_⟩
        rw [i2]
        simp only [emit_stackOffset, List.length_cons]
        have hmin : min (rest.length + 1) (8 - i) = min rest.length (8 - (i + 1)) + 1 := by
          omega
        rw [hmin]
        push_cast
        ring
      · rename_i hi
        obtain ⟨i1, i2⟩ := ih (i + 1) g h
        refine ⟨i1, ?_⟩
        rw [i2]
        have h0 : min (rest.length + 1) (8 - i) = 0 := by omega
        have h1 : min rest.length (8 - (i + 1)) = 0 := by omega
        rw [List.length_cons, h0, h1]

theorem generatePrologue_localVariables (g : RISCVCodeGenerator) (name : String)
    (size : Int) : (generatePrologue g name size).localVariables = g.localVariables := by
  unfold generatePrologue
  dsimp only
  split <;> rfl

theorem enterFunction_slots (node : FunctionDefinition) (g : RISCVCodeGenerator) :
    SlotInv (enterFunction node g)
      ∧ (enterFunction node g).stackOffset
          = -20 - 4 * ((min node.parameters.length 8 : Nat) : Int) := by
  have h0 : SlotInv (generatePrologue
      { g with currentFunction := node.name, localVariables := [], stackOffset := -20 }
      node.name (frameSize node)) := by
    unfold SlotInv
    rw [generatePrologue_localVariables]
    exact ⟨List.nodup_nil, fun p hp => absurd hp (List.not_mem_nil _)⟩
  obtain ⟨h1, h2⟩ := bindParameters_slots node.parameters 0 _ h0
  refine ⟨h1, ?_⟩
  unfold enterFunction
  dsimp only
  rw [h2, generatePrologue_stackOffset]

/-- C11 (frame slots are never reused): within the lowering of one function, the parameter
loop and every variable declaration take the slot exactly 4 below the offset counter and
move the counter there; every statement lowers the counter by exactly 4 per declaration it
contains, at any depth, so the end of a block does not rewind it; and from the start of the
body on, before and after every statement, no two names of the name-to-offset map share an
offset.  In `if (1) { int y = 1; } int y = 2; return y;` the two declarations store to -24
and -28 and the return loads from -28. -/
theorem frame_slots_never_reused (node : FunctionDefinition) (g : RISCVCodeGenerator) :
    (SlotInv (enterFunction node g)
      ∧ (enterFunction node g).stackOffset
          = -20 - 4 * ((min node.parameters.length 8 : Nat) : Int))
    ∧ (∀ (s : Statement) (g1 : RISCVCodeGenerator), SlotInv g1 →
        SlotInv (visitStatement s g1)
          ∧ (visitStatement s g1).stackOffset = g1.stackOffset - 4 * (declCount s : Int))
    ∧ (∀ (name : String) (init : Option Expression) (g1 : RISCVCodeGenerator),
        (visitStatement (.VariableDeclaration name init) g1).stackOffset = g1.stackOffset - 4
        ∧ mapFind (visitStatement (.VariableDeclaration name init) g1).localVariables name
            = some (g1.stackOffset - 4))
    ∧ (∀ g1 : RISCVCodeGenerator, SlotInv g1 →
        ∀ (n1 n2 : String) (o : Int), mapFind g1.localVariables n1 = some o →
          mapFind g1.localVariables n2 = some o → n1 = n2)
    ∧ SlotInv (visitFunctionDefinition node g)
    ∧ (visitFunctionDefinition shadowFunction RISCVCodeGenerator.new).output
        = [.label "main", .addi .sp .sp (-16), .sw .ra 12 .sp, .sw .fp 8 .sp,
           .addi .fp .sp 16, .addi .sp .sp (-16),
           .li .t0 1, .addi .sp .sp (-4), .sw .t0 0 .sp, .lw .t0 0 .sp, .addi .sp .sp 4,
           .beqz .t0 "else0",
           .li .t0 1, .addi .sp .sp (-4), .sw .t0 0 .sp, .lw .t0 0 .sp, .addi .sp .sp 4,
           .sw .t0 (-24) .fp,
           .j "endif1", .label "else0", .label "endif1",
           .li .t0 2, .addi .sp .sp (-4), .sw .t0 0 .sp, .lw .t0 0 .sp, .addi .sp .sp 4,
           .sw .t0 (-28) .fp,
           .lw .t0 (-28) .fp, .addi .sp .sp (-4), .sw .t0 0 .sp, .lw (.a 0) 0 .sp,
           .addi .sp .sp 4,
           .lw .ra (-4) .fp, .lw .fp (-8) .fp, .addi .sp .sp 16, .ret] := by
  refine ⟨enterFunction_slots node g, visitStatement_slots, ?_, ?_, ?_, by decide!⟩
  · intro name init g1
    obtain ⟨h1, h2⟩ := visitStatement_declaration_slots name init g1
    exact ⟨h2, by rw [h1]; exact mapFind_mapAssign_self _ _ _⟩
  · intro g1 h n1 n2 o h1 h2
    exact slotInv_distinct h n1 n2 o h1 h2
  · obtain ⟨h1, _⟩ := visitStatement_slots (.Block node.body) (enterFunction node g)
      (enterFunction_slots node g).1
    unfold visitFunctionDefinition
    dsimp only
    split
    · exact slotInv_congr h1 rfl rfl
    · exact h1

/-! ## Break and continue label stacks -/

@[simp] theorem emit_breakLabels (g : RISCVCodeGenerator) (l : Line) :
    (emit g l).breakLabels = g.breakLabels := rfl

@[simp] theorem emit_continueLabels (g : RISCVCodeGenerator) (l : Line) :
    (emit g l).continueLabels = g.continueLabels := rfl

@[simp] theorem emitLabel_breakLabels (g : RISCVCodeGenerator) (l : String) :
    (emitLabel g l).breakLabels = g.breakLabels := rfl

@[simp] theorem emitLabel_continueLabels (g : RISCVCodeGenerator) (l : String) :
    (emitLabel g l).continueLabels = g.continueLabels := rfl

@[simp] theorem generateEpilogue_breakLabels (g : RISCVCodeGenerator) :
    (generateEpilogue g).breakLabels = g.breakLabels := rfl

@[simp] theorem generateEpilogue_continueLabels (g : RISCVCodeGenerator) :
    (generateEpilogue g).continueLabels = g.continueLabels := rfl

theorem ifCondState_stacks (c : Expression) (g : RISCVCodeGenerator) :
    (ifCondState c g).breakLabels = g.breakLabels
    ∧ (ifCondState c g).continueLabels = g.continueLabels := by
  simp [ifCondState, newLabel]

theorem whileCondState_stacks (c : Expression) (g : RISCVCodeGenerator) :
    (whileCondState c g).breakLabels
        = ("endloop" ++ toString (g.labelCounter + 1)) :: g.breakLabels
    ∧ (whileCondState c g).continueLabels
        = ("loop" ++ toString g.labelCounter) :: g.continueLabels := by
  simp [whileCondState, newLabel]

theorem visitStatement_while_stacks (c : Expression) (b : Statement)
    (g : RISCVCodeGenerator) :
    (visitStatement (.WhileStatement c b) g).breakLabels
        = (visitStatement b (whileCondState c g)).breakLabels.tail
    ∧ (visitStatement (.WhileStatement c b) g).continueLabels
        = (visitStatement b (whileCondState c g)).continueLabels.tail := by
  simp [visitStatement, whileCondState, newLabel]

theorem visitStatement_block_stacks (ss : List Statement) (g : RISCVCodeGenerator) :
    (visitStatement (.Block ss) g).breakLabels
        = (visitStatements ss
            { g with scopeStack := g.localVariables :: g.scopeStack }).breakLabels
    ∧ (visitStatement (.Block ss) g).continueLabels
        = (visitStatements ss
            { g with scopeStack := g.localVariables :: g.scopeStack }).continueLabels := by
  simp only [visitStatement]
  split <;> exact ⟨rfl, rfl⟩

mutual
/-- No statement changes the break and continue label stacks: a loop pops what it pushed. -/
theorem visitStatement_stacks : ∀ (s : Statement) (g : RISCVCodeGenerator),
    (visitStatement s g).breakLabels = g.breakLabels
      ∧ (visitStatement s g).continueLabels = g.continueLabels
  | .AssignmentStatement v e, g => by
      simp only [visitStatement]
      split <;> simp
  | .VariableDeclaration name (some e), g => by simp [visitStatement]
  | .VariableDeclaration name none, g => by simp [visitStatement]
  | .Block ss, g => by
      obtain ⟨h1, h2⟩ := visitStatement_block_stacks ss g
      obtain ⟨i1, i2⟩ := visitStatements_stacks ss
        { g with scopeStack := g.localVariables :: g.scopeStack }
      exact ⟨h1.trans i1, h2.trans i2⟩
  | .IfStatement c t none, g => by
      obtain ⟨c1, c2⟩ := ifCondState_stacks c g
      obtain ⟨i1, i2⟩ := visitStatement_stacks t (ifCondState c g)
      rw [visitStatement_if_none]
      exact ⟨i1.trans c1, i2.trans c2⟩
  | .IfStatement c t (some e), g => by
      obtain ⟨c1, c2⟩ := ifCondState_stacks c g
      obtain ⟨i1, i2⟩ := visitStatement_stacks t (ifCondState c g)
      obtain ⟨j1, j2⟩ := visitStatement_stacks e
        (emitLabel
          (emit (visitStatement t (ifCondState c g))
            (.j ("endif" ++ toString (g.labelCounter + 1))))
          ("else" ++ toString g.labelCounter))
      rw [visitStatement_if_some]
      exact ⟨j1.trans (i1.trans c1), j2.trans (i2.trans c2)⟩
  | .WhileStatement c b, g => by
      obtain ⟨c1, c2⟩ := whileCondState_stacks c g
      obtain ⟨i1, i2⟩ := visitStatement_stacks b (whileCondState c g)
      obtain ⟨w1, w2⟩ := visitStatement_while_stacks c b g
      rw [w1, w2, i1, i2, c1, c2]
      exact ⟨rfl, rfl⟩
  | .BreakStatement, g => by
      simp only [visitStatement]
      split <;> simp
  | .ContinueStatement, g => by
      simp only [visitStatement]
      split <;> simp
  | .ReturnStatement (some e), g => by simp [visitStatement]
  | .ReturnStatement none, g => by simp [visitStatement]
  | .ExpressionStatement e, g => by simp [visitStatement]
theorem visitStatements_stacks : ∀ (ss : List Statement) (g : RISCVCodeGenerator),
    (visitStatements ss g).breakLabels = g.breakLabels
      ∧ (visitStatements ss g).continueLabels = g.continueLabels
  | [], g => by simp [visitStatements]
  | s :: rest, g => by
      obtain ⟨i1, i2⟩ := visitStatement_stacks s g
      obtain ⟨j1, j2⟩ := visitStatements_stacks rest (visitStatement s g)
      simp only [visitStatements]
      exact ⟨j1.trans i1, j2.trans i2⟩
end

mutual
/-- Every statement listed by `directLowerings` starts from a state with the label stacks
of the enclosing state. -/
theorem directLowerings_stacks : ∀ (s : Statement) (g : RISCVCodeGenerator),
    ∀ p ∈ directLowerings s g,
      p.2.breakLabels = g.breakLabels ∧ p.2.continueLabels = g.continueLabels
  | .AssignmentStatement v e, g => by simp [directLowerings]
  | .VariableDeclaration n i, g => by simp [directLowerings]
  | .Block ss, g => by
      intro p hp
      simp only [directLowerings, List.mem_cons] at hp
      rcases hp with rfl | hp
      · exact ⟨rfl, rfl⟩
      · exact directLoweringsList_stacks ss
          { g with scopeStack := g.localVariables :: g.scopeStack } p hp
  | .IfStatement c t none, g => by
      intro p hp
      obtain ⟨c1, c2⟩ := ifCondState_stacks c g
      simp only [directLowerings, List.mem_cons] at hp
      rcases hp with rfl | hp
      · exact ⟨rfl, rfl⟩
      · obtain ⟨i1, i2⟩ := directLowerings_stacks t (ifCondState c g) p hp
        exact ⟨i1.trans c1, i2.trans c2⟩
  | .IfStatement c t (some e), g => by
      intro p hp
      obtain ⟨c1, c2⟩ := ifCondState_stacks c g
      obtain ⟨t1, t2⟩ := visitStatement_stacks t (ifCondState c g)
      simp only [directLowerings, List.mem_cons, List.mem_append] at hp
      rcases hp with rfl | hp | hp
      · exact ⟨rfl, rfl⟩
      · obtain ⟨i1, i2⟩ := directLowerings_stacks t (ifCondState c g) p hp
        exact ⟨i1.trans c1, i2.trans c2⟩
      · obtain ⟨i1, i2⟩ := directLowerings_stacks e _ p hp
        simp only [emitLabel_breakLabels, emit_breakLabels, emitLabel_continueLabels,
          emit_continueLabels] at i1 i2
        exact ⟨i1.trans (t1.trans c1), i2.trans (t2.trans c2)⟩
  | .WhileStatement c b, g => by simp [directLowerings]
  | .BreakStatement, g => by simp [directLowerings]
  | .ContinueStatement, g => by simp [directLowerings]
  | .ReturnStatement v, g => by simp [directLowerings]
  | .ExpressionStatement e, g => by simp [directLowerings]
theorem directLoweringsList_stacks : ∀ (ss : List Statement) (g : RISCVCodeGenerator),
    ∀ p ∈ directLoweringsList ss g,
      p.2.breakLabels = g.breakLabels ∧ p.2.continueLabels = g.continueLabels
  | [], g => by simp [directLoweringsList]
  | s :: rest, g => by
      intro p hp
      obtain ⟨s1, s2⟩ := visitStatement_stacks s g
      simp only [directLoweringsList, List.mem_append] at hp
      rcases hp with hp | hp
      · exact directLowerings_stacks s g p hp
      · obtain ⟨i1, i2⟩ := directLoweringsList_stacks rest (visitStatement s g) p hp
        exact ⟨i1.trans s1, i2.trans s2⟩
end

/-! ## Statements only append to the output -/

theorem extends_refl (o : List Line) : Extends o o := ⟨[], by simp⟩

theorem extends_trans {o o2 o3 : List Line} (h1 : Extends o o2) (h2 : Extends o2 o3) :
    Extends o o3 := by
  obtain ⟨c1, e1⟩ := h1
  obtain ⟨c2, e2⟩ := h2
  exact ⟨c1 ++ c2, by rw [e2, e1, List.append_assoc]⟩

theorem extends_emit {o : List Line} {g : RISCVCodeGenerator} (l : Line)
    (h : Extends o g.output) : Extends o (emit g l).output :=
  extends_trans h ⟨[l], rfl⟩

theorem extends_emitLabel {o : List Line} {g : RISCVCodeGenerator} (l : String)
    (h : Extends o g.output) : Extends o (emitLabel g l).output :=
  extends_trans h ⟨[.label l], rfl⟩

theorem extends_visitExpression {o : List Line} {g : RISCVCodeGenerator} (e : Expression)
    (h : Extends o g.output) : Extends o (visitExpression e g).output :=
  extends_trans h ⟨exprCode e g, visitExpression_output e g⟩

theorem extends_generateEpilogue {o : List Line} {g : RISCVCodeGenerator}
    (h : Extends o g.output) : Extends o (generateEpilogue g).output := by
  unfold generateEpilogue
  exact extends_emit _ (extends_emit _ (extends_emit _ (extends_emit _ h)))

theorem ifCondState_extends (c : Expression) (g : RISCVCodeGenerator) :
    Extends g.output (ifCondState c g).output := by
  unfold ifCondState newLabel
  dsimp only
  exact extends_emit _ (extends_emit _ (extends_emit _
    (extends_visitExpression c (extends_refl _))))

theorem whileCondState_extends (c : Expression) (g : RISCVCodeGenerator) :
    Extends g.output (whileCondState c g).output := by
  unfold whileCondState newLabel
  dsimp only
  exact extends_emit _ (extends_emit _ (extends_emit _
    (extends_visitExpression c (extends_emitLabel _ (extends_refl _)))))

mutual
/-- Lowering a statement keeps the lines already in the buffer and appends to them. -/
theorem visitStatement_extends : ∀ (s : Statement) (g : RISCVCodeGenerator),
    Extends g.output (visitStatement s g).output
  | .AssignmentStatement v e, g => by
      simp only [visitStatement]
      split
      · exact extends_emit _ (extends_emit _ (extends_emit _
          (extends_visitExpression e (extends_refl _))))
      · exact extends_emit _ (extends_emit _ (extends_emit _ (extends_emit _ (extends_emit _
          (extends_visitExpression e (extends_refl _))))))
  | .VariableDeclaration name (some e), g => by
      simp only [visitStatement]
      have h : Extends g.output
          (emit (emit (visitExpression e g) (.lw .t0 0 .sp)) (.addi .sp .sp 4)).output :=
        extends_emit _ (extends_emit _ (extends_visitExpression e (extends_refl _)))
      exact extends_emit _ h
  | .VariableDeclaration name none, g => by
      simp only [visitStatement]
      have h : Extends g.output (emit g (.li .t0 0)).output :=
        extends_emit _ (extends_refl _)
      exact extends_emit _ h
  | .Block ss, g => by
      rw [visitStatement_block_output]
      exact visitStatements_extends ss { g with scopeStack := g.localVariables :: g.scopeStack }
  | .IfStatement c t none, g => by
      rw [visitStatement_if_none]
      exact extends_emitLabel _ (extends_emitLabel _ (extends_emit _
        (extends_trans (ifCondState_extends c g) (visitStatement_extends t (ifCondState c g)))))
  | .IfStatement c t (some e), g => by
      rw [visitStatement_if_some]
      exact extends_emitLabel _
        (extends_trans
          (extends_emitLabel _ (extends_emit _
            (extends_trans (ifCondState_extends c g)
              (visitStatement_extends t (ifCondState c g)))))
          (visitStatement_extends e _))
  | .WhileStatement c b, g => by
      rw [visitStatement_while_output]
      exact extends_emitLabel _ (extends_emit _
        (extends_trans (whileCondState_extends c g)
          (visitStatement_extends b (whileCondState c g))))
  | .BreakStatement, g => by
      simp only [visitStatement]
      split <;> exact extends_emit _ (extends_refl _)
  | .ContinueStatement, g => by
      simp only [visitStatement]
      split <;> exact extends_emit _ (extends_refl _)
  | .ReturnStatement (some e), g => by
      simp only [visitStatement]
      exact extends_generateEpilogue (extends_emit _ (extends_emit _
        (extends_visitExpression e (extends_refl _))))
  | .ReturnStatement none, g => by
      simp only [visitStatement]
      exact extends_generateEpilogue (extends_refl _)
  | .ExpressionStatement e, g => by
      simp only [visitStatement]
      exact extends_emit _ (extends_visitExpression e (extends_refl _))
theorem visitStatements_extends : ∀ (ss : List Statement) (g : RISCVCodeGenerator),
    Extends g.output (visitStatements ss g).output
  | [], g => by
      simp only [visitStatements]
      exact extends_refl _
  | s :: rest, g => by
      simp only [visitStatements]
      exact extends_trans (visitStatement_extends s g)
        (visitStatements_extends rest (visitStatement s g))
end

theorem emitted_of_extends {g g2 : RISCVCodeGenerator} {code : List Line}
    (h : g2.output = g.output ++ code) : emitted g g2 = code := by
  simp [emitted, h]

/-! ## Loop targets -/

theorem labelDefs_whileStatement (c : Expression) (body : Statement)
    (g : RISCVCodeGenerator) :
    ∃ L1, labelDefs (emitted g (visitStatement (.WhileStatement c body) g))
        = ["loop" ++ toString g.labelCounter] ++ L1
            ++ ["endloop" ++ toString (g.labelCounter + 1)]
      ∧ (["loop" ++ toString g.labelCounter] ++ L1
            ++ ["endloop" ++ toString (g.labelCounter + 1)]).Nodup := by
  obtain ⟨hco, hcc⟩ := whileCondState_labels c g
  obtain ⟨L1, e1, l1, g1⟩ := visitStatement_labels body (whileCondState c g)
  rw [hcc] at l1 g1
  obtain ⟨code, hcode⟩ := visitStatement_extends (.WhileStatement c body) g
  have hall : labelDefs (visitStatement (.WhileStatement c body) g).output
      = labelDefs g.output ++ (["loop" ++ toString g.labelCounter] ++ L1
          ++ ["endloop" ++ toString (g.labelCounter + 1)]) := by
    rw [visitStatement_while_output]
    simp [labelName, e1, hco]
  rw [hcode, labelDefs_append] at hall
  refine ⟨L1, ?_, (genLabels_while g1 l1).1⟩
  rw [emitted_of_extends hcode]
  exact List.append_cancel_left hall

mutual
/-- The statements `directLowerings` lists are the statements of `s` outside nested while
statements, each once and in source order. -/
theorem directLowerings_statements : ∀ (s : Statement) (g : RISCVCodeGenerator),
    (directLowerings s g).map Prod.fst = directStatements s
  | .AssignmentStatement v e, g => rfl
  | .VariableDeclaration n i, g => rfl
  | .Block ss, g => by
      simp only [directLowerings, directStatements, List.map_cons]
      rw [directLoweringsList_statements ss]
  | .IfStatement c t none, g => by
      simp only [directLowerings, directStatements, List.map_cons]
      rw [directLowerings_statements t]
  | .IfStatement c t (some e), g => by
      simp only [directLowerings, directStatements, List.map_cons, List.map_append]
      rw [directLowerings_statements t, directLowerings_statements e]
  | .WhileStatement c b, g => rfl
  | .BreakStatement, g => rfl
  | .ContinueStatement, g => rfl
  | .ReturnStatement v, g => rfl
  | .ExpressionStatement e, g => rfl
theorem directLoweringsList_statements : ∀ (ss : List Statement) (g : RISCVCodeGenerator),
    (directLoweringsList ss g).map Prod.fst = directStatementsList ss
  | [], g => rfl
  | s :: rest, g => by
      simp only [directLoweringsList, directStatementsList, List.map_append]
      rw [directLowerings_statements s, directLoweringsList_statements rest]
end

mutual
/-- Each entry of `directLowerings s g` is a lowering that takes place inside the lowering of
`s`: the state it starts from has the buffer of `g` with lines appended, and what the
statement leaves in the buffer is the beginning of what `s` leaves in it. -/
theorem directLowerings_output : ∀ (s : Statement) (g : RISCVCodeGenerator),
    ∀ p ∈ directLowerings s g,
      Extends g.output p.2.output
      ∧ Extends (visitStatement p.1 p.2).output (visitStatement s g).output
  | .AssignmentStatement v e, g => by
      intro p hp
      simp only [directLowerings, List.mem_singleton] at hp
      subst hp
      exact ⟨extends_refl _, extends_refl _⟩
  | .VariableDeclaration n i, g => by
      intro p hp
      simp only [directLowerings, List.mem_singleton] at hp
      subst hp
      exact ⟨extends_refl _, extends_refl _⟩
  | .Block ss, g => by
      intro p hp
      simp only [directLowerings, List.mem_cons] at hp
      rcases hp with rfl | hp
      · exact ⟨extends_refl _, extends_refl _⟩
      · obtain ⟨h1, h2⟩ := directLoweringsList_output ss
          { g with scopeStack := g.localVariables :: g.scopeStack } p hp
        refine ⟨h1, ?_⟩
        rw [visitStatement_block_output]
        exact h2
  | .IfStatement c t none, g => by
      intro p hp
      simp only [directLowerings, List.mem_cons] at hp
      rcases hp with rfl | hp
      · exact ⟨extends_refl _, extends_refl _⟩
      · obtain ⟨h1, h2⟩ := directLowerings_output t (ifCondState c g) p hp
        refine ⟨extends_trans (ifCondState_extends c g) h1, ?_⟩
        rw [visitStatement_if_none]
        exact extends_emitLabel _ (extends_emitLabel _ (extends_emit _ h2))
  | .IfStatement c t (some e), g => by
      intro p hp
      simp only [directLowerings, List.mem_cons, List.mem_append] at hp
      rcases hp with rfl | hp | hp
      · exact ⟨extends_refl _, extends_refl _⟩
      · obtain ⟨h1, h2⟩ := directLowerings_output t (ifCondState c g) p hp
        refine ⟨extends_trans (ifCondState_extends c g) h1, ?_⟩
        rw [visitStatement_if_some]
        exact extends_emitLabel _
          (extends_trans (extends_emitLabel _ (extends_emit _ h2)) (visitStatement_extends e _))
      · obtain ⟨h1, h2⟩ := directLowerings_output e _ p hp
        refine ⟨?_, ?_⟩
        · exact extends_trans
            (extends_emitLabel _ (extends_emit _
              (extends_trans (ifCondState_extends c g)
                (visitStatement_extends t (ifCondState c g))))) h1
        · rw [visitStatement_if_some]
          exact extends_emitLabel _ h2
  | .WhileStatement c b, g => by
      intro p hp
      simp only [directLowerings, List.mem_singleton] at hp
      subst hp
      exact ⟨extends_refl _, extends_refl _⟩
  | .BreakStatement, g => by
      intro p hp
      simp only [directLowerings, List.mem_singleton] at hp
      subst hp
      exact ⟨extends_refl _, extends_refl _⟩
  | .ContinueStatement, g => by
      intro p hp
      simp only [directLowerings, List.mem_singleton] at hp
      subst hp
      exact ⟨extends_refl _, extends_refl _⟩
  | .ReturnStatement v, g => by
      intro p hp
      simp only [directLowerings, List.mem_singleton] at hp
      subst hp
      exact ⟨extends_refl _, extends_refl _⟩
  | .ExpressionStatement e, g => by
      intro p hp
      simp only [directLowerings, List.mem_singleton] at hp
      subst hp
      exact ⟨extends_refl _, extends_refl _⟩
theorem directLoweringsList_output : ∀ (ss : List Statement) (g : RISCVCodeGenerator),
    ∀ p ∈ directLoweringsList ss g,
      Extends g.output p.2.output
      ∧ Extends (visitStatement p.1 p.2).output (visitStatements ss g).output
  | [], g => by simp [directLoweringsList]
  | s :: rest, g => by
      intro p hp
      simp only [directLoweringsList, List.mem_append] at hp
      rcases hp with hp | hp
      · obtain ⟨h1, h2⟩ := directLowerings_output s g p hp
        refine ⟨h1, ?_⟩
        simp only [visitStatements]
        exact extends_trans h2 (visitStatements_extends rest (visitStatement s g))
      · obtain ⟨h1, h2⟩ := directLoweringsList_output rest (visitStatement s g) p hp
        refine ⟨extends_trans (visitStatement_extends s g) h1, ?_⟩
        simp only [visitStatements]
        exact h2
end

/-- C15 (loop targets are correctly scoped): lowering a while statement leaves the break and
continue label stacks as they were; its loop-start label `loop<c>` and its end label
`endloop<c+1>` (`c` the label counter before the statement) are each defined exactly once in
the lines it appends; its output is the output of the body followed by `j loop<c>` and the
end label.  The statements of the body outside nested while statements
(`directStatements body`) are each lowered once, in order, inside the lowering of the while:
every such lowering starts from a buffer that extends the one before the while, with
`endloop<c+1>` on top of the break stack and `loop<c>` on top of the continue stack, and
what it leaves in the buffer is the beginning of the output of the while.  So for every
break among them the output of the while is the buffer at the break, then `j endloop<c+1>`,
then the lines that follow, and for every continue the same with `j loop<c>`, also after a
nested loop has ended. -/
theorem loop_targets_scoped (c : Expression) (body : Statement) (g : RISCVCodeGenerator) :
    (visitStatement (.WhileStatement c body) g).breakLabels = g.breakLabels
    ∧ (visitStatement (.WhileStatement c body) g).continueLabels = g.continueLabels
    ∧ (labelDefs (emitted g (visitStatement (.WhileStatement c body) g))).count
        ("loop" ++ toString g.labelCounter) = 1
    ∧ (labelDefs (emitted g (visitStatement (.WhileStatement c body) g))).count
        ("endloop" ++ toString (g.labelCounter + 1)) = 1
    ∧ (visitStatement (.WhileStatement c body) g).output
        = (visitStatement body (whileCondState c g)).output
            ++ [.j ("loop" ++ toString g.labelCounter),
                .label ("endloop" ++ toString (g.labelCounter + 1))]
    ∧ (directLowerings body (whileCondState c g)).map Prod.fst = directStatements body
    ∧ ∀ p ∈ directLowerings body (whileCondState c g),
        p.2.breakLabels = ("endloop" ++ toString (g.labelCounter + 1)) :: g.breakLabels
        ∧ p.2.continueLabels = ("loop" ++ toString g.labelCounter) :: g.continueLabels
        ∧ (p.1 = .BreakStatement →
            visitStatement p.1 p.2
              = emit p.2 (.j ("endloop" ++ toString (g.labelCounter + 1))))
        ∧ (p.1 = .ContinueStatement →
            visitStatement p.1 p.2 = emit p.2 (.j ("loop" ++ toString g.labelCounter)))
        ∧ (∃ before, p.2.output = g.output ++ before)
        ∧ (∃ after, (visitStatement (.WhileStatement c body) g).output
            = (visitStatement p.1 p.2).output ++ after)
        ∧ (p.1 = .BreakStatement →
            ∃ after, (visitStatement (.WhileStatement c body) g).output
              = p.2.output ++ [.j ("endloop" ++ toString (g.labelCounter + 1))] ++ after)
        ∧ (p.1 = .ContinueStatement →
            ∃ after, (visitStatement (.WhileStatement c body) g).output
              = p.2.output ++ [.j ("loop" ++ toString g.labelCounter)] ++ after) := by
  obtain ⟨s1, s2⟩ := visitStatement_stacks (.WhileStatement c body) g
  obtain ⟨L1, hL, hnd⟩ := labelDefs_whileStatement c body g
  obtain ⟨w1, w2⟩ := whileCondState_stacks c g
  refine ⟨s1, s2, ?_, ?_, ?_, directLowerings_statements body _, ?_⟩
  · rw [hL]
    exact List.count_eq_one_of_mem hnd (by simp)
  · rw [hL]
    exact List.count_eq_one_of_mem hnd (by simp)
  · rw [visitStatement_while_output]
    simp [emit, emitLabel]
  · intro p hp
    obtain ⟨d1, d2⟩ := directLowerings_stacks body (whileCondState c g) p hp
    obtain ⟨o1, o2⟩ := directLowerings_output body (whileCondState c g) p hp
    rw [w1] at d1
    rw [w2] at d2
    have hstart : Extends g.output p.2.output :=
      extends_trans (whileCondState_extends c g) o1
    have hend : Extends (visitStatement p.1 p.2).output
        (visitStatement (.WhileStatement c body) g).output := by
      rw [visitStatement_while_output]
      exact extends_emitLabel _ (extends_emit _ o2)
    have hb : p.1 = .BreakStatement →
        visitStatement p.1 p.2
          = emit p.2 (.j ("endloop" ++ toString (g.labelCounter + 1))) := by
      intro h
      rw [h]
      simp only [visitStatement, d1]
    have hc : p.1 = .ContinueStatement →
        visitStatement p.1 p.2 = emit p.2 (.j ("loop" ++ toString g.labelCounter)) := by
      intro h
      rw [h]
      simp only [visitStatement, d2]
    refine ⟨d1, d2, hb, hc, hstart, hend, ?_, ?_⟩
    · intro h
      obtain ⟨after, e⟩ := hend
      rw [hb h] at e
      exact ⟨after, e⟩
    · intro h
      obtain ⟨after, e⟩ := hend
      rw [hc h] at e
      exact ⟨after, e⟩

/-- The loop `while (1) { while (0) { break; } if (1) { continue; } break; }` on a fresh
generator: the inner break jumps to `endloop3`, and after the inner loop the continue jumps
to `loop0` and the break to `endloop1`. -/
theorem nested_loop_example :
    jumpTargets (visitStatement (.WhileStatement (.NumberLiteral 1) nestedLoopBody)
        RISCVCodeGenerator.new).output
      = ["endloop3", "loop2", "loop0", "endif5", "endloop1", "loop0"]
    ∧ labelDefs (visitStatement (.WhileStatement (.NumberLiteral 1) nestedLoopBody)
        RISCVCodeGenerator.new).output
      = ["loop0", "loop2", "endloop3", "else4", "endif5", "endloop1"]
    ∧ (directLowerings nestedLoopBody
          (whileCondState (.NumberLiteral 1) RISCVCodeGenerator.new)).map
        (fun p => p.2.breakLabels)
      = [["endloop1"], ["endloop1"], ["endloop1"], ["endloop1"], ["endloop1"],
         ["endloop1"]] := by
  refine ⟨by decide!, by decide!, by decide!⟩

/-! ## Lowering does not read the scope stack, the function name or the function table -/

@[simp] theorem emit_setAux (g : RISCVCodeGenerator) (ss : List NameMap) (cf : String)
    (fs : List (String × FunctionInfo)) (dc : List String) (cr : Bool) (l : Line) :
    emit (setAux g ss cf fs dc cr) l = setAux (emit g l) ss cf fs dc cr := rfl

@[simp] theorem emitLabel_setAux (g : RISCVCodeGenerator) (ss : List NameMap) (cf : String)
    (fs : List (String × FunctionInfo)) (dc : List String) (cr : Bool) (l : String) :
    emitLabel (setAux g ss cf fs dc cr) l = setAux (emitLabel g l) ss cf fs dc cr := rfl

@[simp] theorem generateEpilogue_setAux (g : RISCVCodeGenerator) (ss : List NameMap)
    (cf : String) (fs : List (String × FunctionInfo)) (dc : List String) (cr : Bool) :
    generateEpilogue (setAux g ss cf fs dc cr) = setAux (generateEpilogue g) ss cf fs dc cr := rfl

theorem emitUnaryOp_setAux (g : RISCVCodeGenerator) (ss : List NameMap) (cf : String)
    (fs : List (String × FunctionInfo)) (dc : List String) (cr : Bool) (op : UnaryOp) :
    emitUnaryOp (setAux g ss cf fs dc cr) op = setAux (emitUnaryOp g op) ss cf fs dc cr := by
  cases op <;> rfl

theorem emitBinaryOp_setAux (g : RISCVCodeGenerator) (ss : List NameMap) (cf : String)
    (fs : List (String × FunctionInfo)) (dc : List String) (cr : Bool) (op : BinaryOp) :
    emitBinaryOp (setAux g ss cf fs dc cr) op = setAux (emitBinaryOp g op) ss cf fs dc cr := by
  cases op <;> rfl

theorem isConstantExpression_setAux (g : RISCVCodeGenerator) (ss : List NameMap)
    (cf : String) (fs : List (String × FunctionInfo)) (dc : List String) (cr : Bool) (e : Expression) :
    isConstantExpression (setAux g ss cf fs dc cr) e = isConstantExpression g e := by
  cases e <;> rfl

theorem evaluateConstantExpression_setAux (g : RISCVCodeGenerator) (ss : List NameMap)
    (cf : String) (fs : List (String × FunctionInfo)) (dc : List String) (cr : Bool) (e : Expression) :
    evaluateConstantExpression (setAux g ss cf fs dc cr) e = evaluateConstantExpression g e := by
  cases e <;> rfl

theorem optimizeConstantFolding_setAux (op : BinaryOp) (left right : Expression)
    (g : RISCVCodeGenerator) (ss : List NameMap) (cf : String)
    (fs : List (String × FunctionInfo)) (dc : List String) (cr : Bool)
    (ih : visitExpression left (setAux g ss cf fs dc cr)
      = setAux (visitExpression left g) ss cf fs dc cr) :
    optimizeConstantFolding op left right (visitExpression left) (setAux g ss cf fs dc cr)
      = setAux (optimizeConstantFolding op left right (visitExpression left) g) ss cf fs dc cr
    := by
  unfold optimizeConstantFolding
  simp only [isConstantExpression_setAux, evaluateConstantExpression_setAux]
  have hopt : (setAux g ss cf fs dc cr).optimizationsEnabled = g.optimizationsEnabled := rfl
  rw [hopt]
  split
  · rfl
  · split
    · split <;> rfl
    · split
      · split
        · exact ih
        · split
          · exact ih
          · split <;> rfl
      · rfl

mutual
theorem visitExpression_setAux : ∀ (e : Expression) (g : RISCVCodeGenerator)
    (ss : List NameMap) (cf : String) (fs : List (String × FunctionInfo)) (dc : List String) (cr : Bool),
    visitExpression e (setAux g ss cf fs dc cr) = setAux (visitExpression e g) ss cf fs dc cr
  | .NumberLiteral v, g, ss, cf, fs, dc, cr => rfl
  | .Identifier name, g, ss, cf, fs, dc, cr => by
      have hlv : (setAux g ss cf fs dc cr).localVariables = g.localVariables := rfl
      simp only [visitExpression, hlv]
      cases mapFind g.localVariables name <;> rfl
  | .UnaryExpression op operand, g, ss, cf, fs, dc, cr => by
      simp only [visitExpression, visitExpression_setAux operand g ss cf fs dc cr, emit_setAux,
        emitUnaryOp_setAux]
  | .BinaryExpression op left right, g, ss, cf, fs, dc, cr => by
      have hopt : (setAux g ss cf fs dc cr).optimizationsEnabled = g.optimizationsEnabled := rfl
      simp only [visitExpression, hopt]
      split
      · exact optimizeConstantFolding_setAux op left right g ss cf fs dc cr
          (visitExpression_setAux left g ss cf fs dc cr)
      · simp only [visitExpression_setAux left g ss cf fs dc cr,
          visitExpression_setAux right (visitExpression left g) ss cf fs dc cr, emit_setAux,
          emitBinaryOp_setAux]
  | .FunctionCall f args, g, ss, cf, fs, dc, cr => by
      simp only [visitExpression, visitArguments_setAux args 0 0 g ss cf fs dc cr, emit_setAux]
      split <;> rfl
theorem visitArguments_setAux : ∀ (args : List Expression) (i : Nat) (n : Int)
    (g : RISCVCodeGenerator) (ss : List NameMap) (cf : String)
    (fs : List (String × FunctionInfo)) (dc : List String) (cr : Bool),
    visitArguments args i n (setAux g ss cf fs dc cr)
      = (setAux (visitArguments args i n g).1 ss cf fs dc cr, (visitArguments args i n g).2)
  | [], i, n, g, ss, cf, fs, dc, cr => rfl
  | arg :: rest, i, n, g, ss, cf, fs, dc, cr => by
      simp only [visitArguments, visitExpression_setAux arg g ss cf fs dc cr, emit_setAux]
      split
      · exact visitArguments_setAux rest (i + 1) n _ ss cf fs dc cr
      · exact visitArguments_setAux rest (i + 1) (n + 1) _ ss cf fs dc cr
end

theorem visitStatement_block_eq (ss0 : List Statement) (g : RISCVCodeGenerator) :
    visitStatement (.Block ss0) g
      = { visitStatements ss0 { g with scopeStack := g.localVariables :: g.scopeStack } with
          localVariables := g.localVariables, scopeStack := g.scopeStack } := by
  have ih := visitStatements_scopeStack ss0
    { g with scopeStack := g.localVariables :: g.scopeStack }
  simp only [visitStatement]
  split
  · rename_i top rest heq
    rw [ih] at heq
    simp only [List.cons.injEq] at heq
    rw [← heq.1, ← heq.2]
  · rename_i heq
    rw [ih] at heq
    exact absurd heq (by simp)

theorem visitStatement_while_eq (c : Expression) (b : Statement) (g : RISCVCodeGenerator) :
    visitStatement (.WhileStatement c b) g
      = { emitLabel
            (emit (visitStatement b (whileCondState c g))
              (.j ("loop" ++ toString g.labelCounter)))
            ("endloop" ++ toString (g.labelCounter + 1)) with
          breakLabels := (visitStatement b (whileCondState c g)).breakLabels.tail,
          continueLabels := (visitStatement b (whileCondState c g)).continueLabels.tail } := by
  simp [visitStatement, whileCondState, newLabel, emit, emitLabel]

theorem ifCondState_setAux (c : Expression) (g : RISCVCodeGenerator) (ss : List NameMap)
    (cf : String) (fs : List (String × FunctionInfo)) (dc : List String) (cr : Bool) :
    ifCondState c (setAux g ss cf fs dc cr) = setAux (ifCondState c g) ss cf fs dc cr := by
  unfold ifCondState newLabel
  dsimp only
  have h := visitExpression_setAux c
    { g with labelCounter := g.labelCounter + 1 + 1 } ss cf fs dc cr
  simp only [setAux] at h ⊢
  rw [h]
  rfl

theorem whileCondState_setAux (c : Expression) (g : RISCVCodeGenerator) (ss : List NameMap)
    (cf : String) (fs : List (String × FunctionInfo)) (dc : List String) (cr : Bool) :
    whileCondState c (setAux g ss cf fs dc cr) = setAux (whileCondState c g) ss cf fs dc cr := by
  unfold whileCondState newLabel
  dsimp only
  have h := visitExpression_setAux c
    (emitLabel
      { g with labelCounter := g.labelCounter + 1 + 1,
               breakLabels := ("endloop" ++ toString (g.labelCounter + 1)) :: g.breakLabels,
               continueLabels := ("loop" ++ toString g.labelCounter) :: g.continueLabels }
      ("loop" ++ toString g.labelCounter)) ss cf fs dc cr
  simp only [setAux, emitLabel] at h ⊢
  rw [h]
  rfl

mutual
/-- Lowering a statement from a state with other values in the unread members gives the same
state, with those other values. -/
theorem visitStatement_setAux : ∀ (s : Statement) (g : RISCVCodeGenerator)
    (ss : List NameMap) (cf : String) (fs : List (String × FunctionInfo)) (dc : List String) (cr : Bool),
    visitStatement s (setAux g ss cf fs dc cr) = setAux (visitStatement s g) ss cf fs dc cr
  | .AssignmentStatement v e, g, ss, cf, fs, dc, cr => by
      simp only [visitStatement, visitExpression_setAux e g ss cf fs dc cr, emit_setAux]
      have hlv : ∀ x : RISCVCodeGenerator,
          (setAux x ss cf fs dc cr).localVariables = x.localVariables := fun _ => rfl
      rw [hlv]
      split <;> rfl
  | .VariableDeclaration name (some e), g, ss, cf, fs, dc, cr => by
      simp only [visitStatement, visitExpression_setAux e g ss cf fs dc cr, emit_setAux]
      rfl
  | .VariableDeclaration name none, g, ss, cf, fs, dc, cr => rfl
  | .Block ss0, g, ss, cf, fs, dc, cr => by
      rw [visitStatement_block_eq, visitStatement_block_eq]
      have ih := visitStatements_setAux ss0
        { g with scopeStack := g.localVariables :: g.scopeStack }
        (g.localVariables :: ss) cf fs dc cr
      have e1 : ({ setAux g ss cf fs dc cr with
            scopeStack := (setAux g ss cf fs dc cr).localVariables
              :: (setAux g ss cf fs dc cr).scopeStack } : RISCVCodeGenerator)
          = setAux { g with scopeStack := g.localVariables :: g.scopeStack }
              (g.localVariables :: ss) cf fs dc cr := rfl
      rw [e1, ih]
      rfl
  | .IfStatement c t none, g, ss, cf, fs, dc, cr => by
      rw [visitStatement_if_none, visitStatement_if_none, ifCondState_setAux,
        visitStatement_setAux t (ifCondState c g) ss cf fs dc cr]
      rfl
  | .IfStatement c t (some e), g, ss, cf, fs, dc, cr => by
      rw [visitStatement_if_some, visitStatement_if_some, ifCondState_setAux,
        visitStatement_setAux t (ifCondState c g) ss cf fs dc cr]
      have hlc : (setAux g ss cf fs dc cr).labelCounter = g.labelCounter := rfl
      rw [hlc, emit_setAux, emitLabel_setAux, visitStatement_setAux e _ ss cf fs dc cr]
      rfl
  | .WhileStatement c b, g, ss, cf, fs, dc, cr => by
      rw [visitStatement_while_eq, visitStatement_while_eq, whileCondState_setAux,
        visitStatement_setAux b (whileCondState c g) ss cf fs dc cr]
      rfl
  | .BreakStatement, g, ss, cf, fs, dc, cr => by
      have hb : (setAux g ss cf fs dc cr).breakLabels = g.breakLabels := rfl
      simp only [visitStatement, hb]
      split <;> rfl
  | .ContinueStatement, g, ss, cf, fs, dc, cr => by
      have hb : (setAux g ss cf fs dc cr).continueLabels = g.continueLabels := rfl
      simp only [visitStatement, hb]
      split <;> rfl
  | .ReturnStatement (some e), g, ss, cf, fs, dc, cr => by
      simp only [visitStatement, visitExpression_setAux e g ss cf fs dc cr, emit_setAux,
        generateEpilogue_setAux]
  | .ReturnStatement none, g, ss, cf, fs, dc, cr => rfl
  | .ExpressionStatement e, g, ss, cf, fs, dc, cr => by
      simp only [visitStatement, visitExpression_setAux e g ss cf fs dc cr, emit_setAux]
theorem visitStatements_setAux : ∀ (ss0 : List Statement) (g : RISCVCodeGenerator)
    (ss : List NameMap) (cf : String) (fs : List (String × FunctionInfo)) (dc : List String) (cr : Bool),
    visitStatements ss0 (setAux g ss cf fs dc cr) = setAux (visitStatements ss0 g) ss cf fs dc cr
  | [], g, ss, cf, fs, dc, cr => rfl
  | s :: rest, g, ss, cf, fs, dc, cr => by
      simp only [visitStatements, visitStatement_setAux s g ss cf fs dc cr]
      exact visitStatements_setAux rest (visitStatement s g) ss cf fs dc cr
end

/-! ## A run does not depend on earlier runs -/

theorem generatePrologue_setAux (g : RISCVCodeGenerator) (ss : List NameMap) (cf : String)
    (fs : List (String × FunctionInfo)) (dc : List String) (cr : Bool) (name : String) (size : Int) :
    generatePrologue (setAux g ss cf fs dc cr) name size
      = setAux (generatePrologue g name size) ss cf fs dc cr := by
  unfold generatePrologue
  dsimp only
  split <;> rfl

theorem bindParameters_setAux :
    ∀ (ps : List Parameter) (i : Nat) (g : RISCVCodeGenerator) (ss : List NameMap)
      (cf : String) (fs : List (String × FunctionInfo)) (dc : List String) (cr : Bool),
      bindParameters ps i (setAux g ss cf fs dc cr) = setAux (bindParameters ps i g) ss cf fs dc cr := by
  intro ps
  induction ps with
  | nil => intro i g ss cf fs dc cr; rfl
  | cons p rest ih =>
      intro i g ss cf fs dc cr
      simp only [bindParameters]
      split
      · exact ih (i + 1)
          (emit { g with stackOffset := g.stackOffset - 4,
                         localVariables := mapAssign g.localVariables p.name (g.stackOffset - 4) }
            (.sw (.a i) (g.stackOffset - 4) .fp)) ss cf fs dc cr
      · exact ih (i + 1) g ss cf fs dc cr

theorem sameRun_refl (g : RISCVCodeGenerator) : SameRun g g :=
  ⟨rfl, rfl, rfl, rfl, rfl, rfl⟩

theorem sameRun_setAux (g : RISCVCodeGenerator) (ss : List NameMap) (cf : String)
    (fs : List (String × FunctionInfo)) (dc : List String) (cr : Bool) :
    SameRun g (setAux g ss cf fs dc cr) :=
  ⟨rfl, rfl, rfl, rfl, rfl, rfl⟩

/-- The lowering of a function definition depends on the generator only through the state
`enterFunction` resets it to. -/
theorem visitFunctionDefinition_of_reset (node : FunctionDefinition)
    (g g0 : RISCVCodeGenerator) (ss : List NameMap) (fs : List (String × FunctionInfo))
    (dc : List String) (cr : Bool)
    (h : ({ g with currentFunction := node.name, localVariables := [],
                   stackOffset := -20 } : RISCVCodeGenerator)
      = setAux { g0 with currentFunction := node.name, localVariables := [],
                         stackOffset := -20 } ss node.name fs dc cr) :
    visitFunctionDefinition node g
      = setAux (visitFunctionDefinition node g0) ss node.name fs dc cr := by
  unfold visitFunctionDefinition enterFunction
  dsimp only
  rw [h, generatePrologue_setAux, bindParameters_setAux, visitStatement_setAux]
  split <;> rfl

/-- From two states that agree on what a run carries along, a function definition is
lowered to two states that agree again: the other members are reset or never read. -/
theorem visitFunctionDefinition_sameRun (node : FunctionDefinition)
    {g g2 : RISCVCodeGenerator} (h : SameRun g g2) :
    SameRun (visitFunctionDefinition node g) (visitFunctionDefinition node g2) := by
  have hreset : ({ g2 with currentFunction := node.name, localVariables := [],
                           stackOffset := -20 } : RISCVCodeGenerator)
      = setAux { ({ g with crashed := false } : RISCVCodeGenerator) with
                  currentFunction := node.name, localVariables := [], stackOffset := -20 }
          g2.scopeStack node.name g2.functions g2.deadCode g2.crashed := by
    obtain ⟨h1, h2, h3, h4, h5, h6⟩ := h
    cases g
    cases g2
    simp only at h1 h2 h3 h4 h5 h6
    subst h1 h2 h3 h4 h5 h6
    rfl
  have hreset1 : ({ g with currentFunction := node.name, localVariables := [],
                           stackOffset := -20 } : RISCVCodeGenerator)
      = setAux { ({ g with crashed := false } : RISCVCodeGenerator) with
                  currentFunction := node.name, localVariables := [], stackOffset := -20 }
          g.scopeStack node.name g.functions g.deadCode g.crashed := by
    cases g
    rfl
  rw [visitFunctionDefinition_of_reset node g2 _ _ _ _ _ hreset,
    visitFunctionDefinition_of_reset node g _ _ _ _ _ hreset1]
  exact ⟨rfl, rfl, rfl, rfl, rfl, rfl⟩

theorem visitFunctions_sameRun (fns : List FunctionDefinition) :
    ∀ {g g2 : RISCVCodeGenerator}, SameRun g g2 →
      SameRun (fns.foldl (fun g func => visitFunctionDefinition func g) g)
        (fns.foldl (fun g func => visitFunctionDefinition func g) g2) := by
  induction fns with
  | nil => intro g g2 h; exact h
  | cons f rest ih =>
      intro g g2 h
      simp only [List.foldl_cons]
      exact ih (visitFunctionDefinition_sameRun f h)

/-- The output of `generate` depends on the generator it is called on only through the
optimization flag, the constant table and the two label stacks. -/
theorem generate_output_congr (g g2 : RISCVCodeGenerator) (unit : CompilationUnit)
    (funcTable : List (String × FunctionInfo))
    (h1 : g.optimizationsEnabled = g2.optimizationsEnabled)
    (h2 : g.constantValues = g2.constantValues)
    (h3 : g.breakLabels = g2.breakLabels) (h4 : g.continueLabels = g2.continueLabels) :
    (generate g unit funcTable).output = (generate g2 unit funcTable).output := by
  have h : SameRun
      (emit (emit (emit
        { g with output := [], functions := funcTable, stackOffset := 0, labelCounter := 0 }
        (.directive ".data")) (.directive ".text")) (.directive ".global main"))
      (emit (emit (emit
        { g2 with output := [], functions := funcTable, stackOffset := 0, labelCounter := 0 }
        (.directive ".data")) (.directive ".text")) (.directive ".global main")) :=
    ⟨rfl, rfl, h1, h2, h3, h4⟩
  exact (visitFunctions_sameRun unit.functions h).1

/-! ## What a run leaves behind -/

@[simp] theorem emit_constantValues (g : RISCVCodeGenerator) (l : Line) :
    (emit g l).constantValues = g.constantValues := rfl

@[simp] theorem emitLabel_constantValues (g : RISCVCodeGenerator) (l : String) :
    (emitLabel g l).constantValues = g.constantValues := rfl

@[simp] theorem emitLabel_optimizationsEnabled (g : RISCVCodeGenerator) (l : String) :
    (emitLabel g l).optimizationsEnabled = g.optimizationsEnabled := rfl

@[simp] theorem visitExpression_constantValues (e : Expression) (g : RISCVCodeGenerator) :
    (visitExpression e g).constantValues = g.constantValues := by
  rw [visitExpression_eq]; rfl

@[simp] theorem generateEpilogue_constantValues (g : RISCVCodeGenerator) :
    (generateEpilogue g).constantValues = g.constantValues := rfl

@[simp] theorem generateEpilogue_optimizationsEnabled (g : RISCVCodeGenerator) :
    (generateEpilogue g).optimizationsEnabled = g.optimizationsEnabled := rfl

mutual
/-- No statement changes the optimization flag or the constant table. -/
theorem visitStatement_config : ∀ (s : Statement) (g : RISCVCodeGenerator),
    (visitStatement s g).optimizationsEnabled = g.optimizationsEnabled
      ∧ (visitStatement s g).constantValues = g.constantValues
  | .AssignmentStatement v e, g => by
      simp only [visitStatement]
      split <;> simp
  | .VariableDeclaration name (some e), g => by simp [visitStatement]
  | .VariableDeclaration name none, g => by simp [visitStatement]
  | .Block ss, g => by
      obtain ⟨i1, i2⟩ := visitStatements_config ss
        { g with scopeStack := g.localVariables :: g.scopeStack }
      rw [visitStatement_block_eq]
      exact ⟨i1, i2⟩
  | .IfStatement c t none, g => by
      obtain ⟨i1, i2⟩ := visitStatement_config t (ifCondState c g)
      rw [visitStatement_if_none]
      simp only [emitLabel_optimizationsEnabled, emit_optimizationsEnabled,
        emitLabel_constantValues, emit_constantValues, i1, i2]
      simp [ifCondState, newLabel]
  | .IfStatement c t (some e), g => by
      obtain ⟨i1, i2⟩ := visitStatement_config t (ifCondState c g)
      obtain ⟨j1, j2⟩ := visitStatement_config e
        (emitLabel
          (emit (visitStatement t (ifCondState c g))
            (.j ("endif" ++ toString (g.labelCounter + 1))))
          ("else" ++ toString g.labelCounter))
      rw [visitStatement_if_some]
      simp only [emitLabel_optimizationsEnabled, emit_optimizationsEnabled,
        emitLabel_constantValues, emit_constantValues, i1, i2] at j1 j2 ⊢
      rw [j1, j2]
      simp [ifCondState, newLabel]
  | .WhileStatement c b, g => by
      obtain ⟨i1, i2⟩ := visitStatement_config b (whileCondState c g)
      rw [visitStatement_while_eq]
      simp only [emitLabel_optimizationsEnabled, emit_optimizationsEnabled,
        emitLabel_constantValues, emit_constantValues, i1, i2]
      simp [whileCondState, newLabel]
  | .BreakStatement, g => by
      simp only [visitStatement]
      split <;> simp
  | .ContinueStatement, g => by
      simp only [visitStatement]
      split <;> simp
  | .ReturnStatement (some e), g => by simp [visitStatement]
  | .ReturnStatement none, g => by simp [visitStatement]
  | .ExpressionStatement e, g => by simp [visitStatement]
theorem visitStatements_config : ∀ (ss : List Statement) (g : RISCVCodeGenerator),
    (visitStatements ss g).optimizationsEnabled = g.optimizationsEnabled
      ∧ (visitStatements ss g).constantValues = g.constantValues
  | [], g => by simp [visitStatements]
  | s :: rest, g => by
      obtain ⟨i1, i2⟩ := visitStatement_config s g
      obtain ⟨j1, j2⟩ := visitStatements_config rest (visitStatement s g)
      simp only [visitStatements]
      exact ⟨j1.trans i1, j2.trans i2⟩
end

theorem bindParameters_kept :
    ∀ (ps : List Parameter) (i : Nat) (g : RISCVCodeGenerator),
      (bindParameters ps i g).optimizationsEnabled = g.optimizationsEnabled
      ∧ (bindParameters ps i g).constantValues = g.constantValues
      ∧ (bindParameters ps i g).breakLabels = g.breakLabels
      ∧ (bindParameters ps i g).continueLabels = g.continueLabels := by
  intro ps
  induction ps with
  | nil => intro i g; exact ⟨rfl, rfl, rfl, rfl⟩
  | cons p rest ih =>
      intro i g
      simp only [bindParameters]
      split
      · exact ih (i + 1) _
      · exact ih (i + 1) g

theorem generatePrologue_kept (g : RISCVCodeGenerator) (name : String) (size : Int) :
    (generatePrologue g name size).optimizationsEnabled = g.optimizationsEnabled
    ∧ (generatePrologue g name size).constantValues = g.constantValues
    ∧ (generatePrologue g name size).breakLabels = g.breakLabels
    ∧ (generatePrologue g name size).continueLabels = g.continueLabels := by
  unfold generatePrologue
  dsimp only
  split <;> exact ⟨rfl, rfl, rfl, rfl⟩

/-- Lowering a function leaves the optimization flag, the constant table and the two label
stacks as they were. -/
theorem visitFunctionDefinition_kept (node : FunctionDefinition) (g : RISCVCodeGenerator) :
    (visitFunctionDefinition node g).optimizationsEnabled = g.optimizationsEnabled
    ∧ (visitFunctionDefinition node g).constantValues = g.constantValues
    ∧ (visitFunctionDefinition node g).breakLabels = g.breakLabels
    ∧ (visitFunctionDefinition node g).continueLabels = g.continueLabels := by
  obtain ⟨p1, p2, p3, p4⟩ := generatePrologue_kept
    { g with currentFunction := node.name, localVariables := [], stackOffset := -20 }
    node.name (frameSize node)
  obtain ⟨b1, b2, b3, b4⟩ := bindParameters_kept node.parameters 0
    (generatePrologue
      { g with currentFunction := node.name, localVariables := [], stackOffset := -20 }
      node.name (frameSize node))
  have he : enterFunction node g = bindParameters node.parameters 0
      (generatePrologue
        { g with currentFunction := node.name, localVariables := [], stackOffset := -20 }
        node.name (frameSize node)) := rfl
  obtain ⟨c1, c2⟩ := visitStatement_config (.Block node.body) (enterFunction node g)
  obtain ⟨s1, s2⟩ := visitStatement_stacks (.Block node.body) (enterFunction node g)
  rw [he] at c1 c2 s1 s2
  have k1 := c1.trans (b1.trans p1)
  have k2 := c2.trans (b2.trans p2)
  have k3 := s1.trans (b3.trans p3)
  have k4 := s2.trans (b4.trans p4)
  unfold visitFunctionDefinition
  dsimp only
  rw [he]
  split
  · exact ⟨k1, k2, k3, k4⟩
  · exact ⟨k1, k2, k3, k4⟩

theorem visitFunctions_kept (fns : List FunctionDefinition) :
    ∀ g : RISCVCodeGenerator,
      (fns.foldl (fun g func => visitFunctionDefinition func g) g).optimizationsEnabled
          = g.optimizationsEnabled
      ∧ (fns.foldl (fun g func => visitFunctionDefinition func g) g).constantValues
          = g.constantValues
      ∧ (fns.foldl (fun g func => visitFunctionDefinition func g) g).breakLabels
          = g.breakLabels
      ∧ (fns.foldl (fun g func => visitFunctionDefinition func g) g).continueLabels
          = g.continueLabels := by
  induction fns with
  | nil => intro g; exact ⟨rfl, rfl, rfl, rfl⟩
  | cons f rest ih =>
      intro g
      obtain ⟨a1, a2, a3, a4⟩ := visitFunctionDefinition_kept f g
      obtain ⟨b1, b2, b3, b4⟩ := ih (visitFunctionDefinition f g)
      simp only [List.foldl_cons]
      exact ⟨b1.trans a1, b2.trans a2, b3.trans a3, b4.trans a4⟩

theorem generate_kept (g : RISCVCodeGenerator) (unit : CompilationUnit)
    (funcTable : List (String × FunctionInfo)) :
    (generate g unit funcTable).optimizationsEnabled = g.optimizationsEnabled
    ∧ (generate g unit funcTable).constantValues = g.constantValues
    ∧ (generate g unit funcTable).breakLabels = g.breakLabels
    ∧ (generate g unit funcTable).continueLabels = g.continueLabels :=
  visitFunctions_kept unit.functions _

/-- A generator object that has only been used through its public interface has empty label
stacks and an empty constant table. -/
theorem used_generator_clean (history : List Action) :
    (history.foldl perform RISCVCodeGenerator.new).constantValues = []
    ∧ (history.foldl perform RISCVCodeGenerator.new).breakLabels = []
    ∧ (history.foldl perform RISCVCodeGenerator.new).continueLabels = [] := by
  have key : ∀ (hs : List Action) (g : RISCVCodeGenerator),
      g.constantValues = [] → g.breakLabels = [] → g.continueLabels = [] →
      (hs.foldl perform g).constantValues = []
        ∧ (hs.foldl perform g).breakLabels = []
        ∧ (hs.foldl perform g).continueLabels = [] := by
    intro hs
    induction hs with
    | nil => intro g h1 h2 h3; exact ⟨h1, h2, h3⟩
    | cons a rest ih =>
        intro g h1 h2 h3
        simp only [List.foldl_cons]
        cases a with
        | run unit funcTable =>
            obtain ⟨_, k2, k3, k4⟩ := generate_kept g unit funcTable
            exact ih _ (k2.trans h1) (k3.trans h2) (k4.trans h3)
        | enable => exact ih _ h1 h2 h3
  exact key history _ rfl rfl rfl

/-- C13 (no persistent state across runs): for every compilation unit and function table,
`generate` on a generator object that has been through any sequence of earlier `generate`
calls (and `enableOptimizations()` calls) returns the same lines, hence the same text, as
`generate` on a freshly constructed generator with the same optimization flag. -/
theorem no_persistent_state (history : List Action) (unit : CompilationUnit)
    (funcTable : List (String × FunctionInfo)) :
    (generate (history.foldl perform RISCVCodeGenerator.new) unit funcTable).output
        = (generate (freshLike (history.foldl perform RISCVCodeGenerator.new)) unit
            funcTable).output
    ∧ renderOutput (generate (history.foldl perform RISCVCodeGenerator.new) unit
          funcTable).output
        = renderOutput (generate (freshLike (history.foldl perform RISCVCodeGenerator.new))
            unit funcTable).output := by
  obtain ⟨h1, h2, h3⟩ := used_generator_clean history
  have hfresh : ∀ g : RISCVCodeGenerator,
      (freshLike g).optimizationsEnabled = g.optimizationsEnabled
      ∧ (freshLike g).constantValues = [] ∧ (freshLike g).breakLabels = []
      ∧ (freshLike g).continueLabels = [] := by
    intro g
    unfold freshLike
    cases hg : g.optimizationsEnabled <;> simp [enableOptimizations, RISCVCodeGenerator.new]
  obtain ⟨f1, f2, f3, f4⟩ := hfresh (history.foldl perform RISCVCodeGenerator.new)
  have hout := generate_output_congr (history.foldl perform RISCVCodeGenerator.new)
    (freshLike (history.foldl perform RISCVCodeGenerator.new)) unit funcTable
    f1.symm (h1.trans f2.symm) (h2.trans f3.symm) (h3.trans f4.symm)
  exact ⟨hout, by rw [hout]⟩

/-- Two runs of the same unit on one generator object: the second output repeats the
first, with the labels numbered from 0 again. -/
theorem second_run_example :
    (generate (generate RISCVCodeGenerator.new sampleUnit []) sampleUnit []).output
        = (generate RISCVCodeGenerator.new sampleUnit []).output
    ∧ labelDefs (generate (generate RISCVCodeGenerator.new sampleUnit []) sampleUnit []).output
        = ["main", "loop0", "else2", "endif3", "endloop1"] := by
  refine ⟨by decide!, by decide!⟩

/-! ## Comparisons -/

theorem toWord_lt (v : Int) : toWord v < 4294967296 := by
  have h := toWord_cast v
  omega

theorem address_zero (w : Nat) (h : w < 4294967296) : address w 0 = w := by
  have hc := toWord_cast ((w : Int) + 0)
  unfold address
  omega

theorem toWord_push_pop (s : Nat) (h : s < 4294967296) :
    toWord (((toWord ((s : Int) + -4) : Nat) : Int) + 4) = s := by
  have h1 := toWord_cast ((s : Int) + -4)
  have h2 := toWord_cast (((toWord ((s : Int) + -4) : Nat) : Int) + 4)
  omega

theorem toWord_push_ne (s : Nat) : toWord ((s : Int) + -4) ≠ s := by
  have h1 := toWord_cast ((s : Int) + -4)
  omega

theorem run_append (m : Machine) (l1 l2 : List Line) :
    run m (l1 ++ l2) = (run m l1).bind (fun m1 => run m1 l2) := by
  induction l1 generalizing m with
  | nil => rfl
  | cons l rest ih =>
      simp only [List.cons_append, run]
      cases step m l with
      | none => rfl
      | some m2 => exact ih m2

theorem exprCode_binary_literals (g : RISCVCodeGenerator) (op : BinaryOp) (a b : Int)
    (hopt : g.optimizationsEnabled = false) :
    exprCode (.BinaryExpression op (.NumberLiteral a) (.NumberLiteral b)) g
      = literalOperands a b ++ (emitBinaryOp (withOutput g []) op).output
          ++ [.sw .t0 0 .sp] := by
  unfold exprCode
  simp only [visitExpression, withOutput_eq, withOutputCrashed_optimizationsEnabled, hopt,
    emit_withOutputCrashed]
  rw [emitBinaryOp_withOutput g (_ ++ _) _ g.crashed op]
  simp [literalOperands]

/-- Running the pushes and pops of two literal operands: `t0` holds the left operand, `t1`
the right one, and `sp` is one slot below its starting value. -/
theorem run_literalOperands (m : Machine) (a b : Int) :
    ∃ m1, run m (literalOperands a b) = some m1
      ∧ m1.regs .t0 = toWord a ∧ m1.regs .t1 = toWord b
      ∧ m1.regs .sp = toWord ((m.regs .sp : Int) + -4) := by
  have hlt := toWord_lt ((m.regs .sp : Int) + -4)
  have hlt2 := toWord_lt (((toWord ((m.regs .sp : Int) + -4) : Nat) : Int) + -4)
  have hpp := toWord_push_pop _ hlt
  have hne := toWord_push_ne (toWord ((m.regs .sp : Int) + -4))
  have ha1 := address_zero _ hlt
  have ha2 := address_zero _ hlt2
  refine ⟨_, rfl, ?_, ?_, ?_⟩
  · simp [Machine.setReg, Machine.store, ha1, ha2, hpp, hne.symm]
  · simp [Machine.setReg, Machine.store, ha1, ha2, hpp, hne]
  · simp [Machine.setReg, Machine.store, hpp]

theorem execAlu_sub_eq_zero {a b : Int} (ha : isInt32 a) (hb : isInt32 b) :
    execAlu .sub (toWord a) (toWord b) = 0 ↔ a = b := by
  have h1 := toWord_cast a
  have h2 := toWord_cast b
  unfold isInt32 at ha hb
  show (toWord a + (4294967296 - toWord b % 4294967296)) % 4294967296 = 0 ↔ a = b
  omega

/-- Running the operator's instructions and the final store of a comparison, from a state
with the left operand in `t0` and the right one in `t1`: the slot at `sp` receives 1 if the
comparison holds and 0 otherwise, and `sp` stays. -/
theorem run_comparison (g : RISCVCodeGenerator) (m1 : Machine) (op : BinaryOp) (a b : Int)
    (h0 : m1.regs .t0 = toWord a) (h1 : m1.regs .t1 = toWord b)
    (ha : isInt32 a) (hb : isInt32 b)
    (hop : op = .LT ∨ op = .LE ∨ op = .GT ∨ op = .GE ∨ op = .EQ ∨ op = .NE) :
    ∃ m2, run m1 ((emitBinaryOp (withOutput g []) op).output ++ [.sw .t0 0 .sp]) = some m2
      ∧ m2.regs .sp = m1.regs .sp
      ∧ m2.mem (address (m1.regs .sp) 0) = (if comparisonHolds op a b then 1 else 0) := by
  have sa := toSigned_toWord_of_isInt32 ha
  have sb := toSigned_toWord_of_isInt32 hb
  have hz := execAlu_sub_eq_zero ha hb
  have x0 : Nat.xor 0 (toWord 1) = 1 := by decide
  have x1 : Nat.xor 1 (toWord 1) = 0 := by decide
  rcases hop with h | h | h | h | h | h <;> subst h
  · refine ⟨_, rfl, ?_, ?_⟩
    · simp [Machine.setReg, Machine.store]
    · simp [Machine.setReg, Machine.store, execAlu, h0, h1, sa, sb, comparisonHolds]
  · refine ⟨_, rfl, ?_, ?_⟩
    · simp [Machine.setReg, Machine.store]
    · simp only [Machine.setReg, Machine.store, execAlu, h0, h1, sa, sb, comparisonHolds,
        if_pos, if_true, reduceCtorEq, if_false, decide_eq_true_eq]
      by_cases hab : b < a
      · simp [hab, x1, not_le.2 hab]
      · simp [hab, x0, not_lt.1 hab]
  · refine ⟨_, rfl, ?_, ?_⟩
    · simp [Machine.setReg, Machine.store]
    · simp [Machine.setReg, Machine.store, execAlu, h0, h1, sa, sb, comparisonHolds]
  · refine ⟨_, rfl, ?_, ?_⟩
    · simp [Machine.setReg, Machine.store]
    · simp only [Machine.setReg, Machine.store, execAlu, h0, h1, sa, sb, comparisonHolds,
        if_pos, if_true, reduceCtorEq, if_false, decide_eq_true_eq]
      by_cases hab : a < b
      · simp [hab, x1, not_le.2 hab]
      · simp [hab, x0, not_lt.1 hab]
  · refine ⟨_, rfl, ?_, ?_⟩
    · simp [Machine.setReg, Machine.store]
    · simp only [Machine.setReg, Machine.store, h0, h1, comparisonHolds,
        if_pos, if_true, reduceCtorEq, if_false, decide_eq_true_eq, hz]
  · refine ⟨_, rfl, ?_, ?_⟩
    · simp [Machine.setReg, Machine.store]
    · simp only [Machine.setReg, Machine.store, h0, h1, comparisonHolds,
        if_pos, if_true, reduceCtorEq, if_false, decide_eq_true_eq, hz]
      by_cases hab : a = b <;> simp [hab]

/-- C17 (comparison synthesis): with optimizations disabled, for every comparison operator
and all `int` literals `a` and `b`, the lines emitted for `a op b` are the two pushes and the
pops into `t1` and `t0`, the operator's instructions and the store of `t0`; run from any
machine state, the pushes and pops leave the left operand in `t0` and the right operand in
`t1`, and the whole sequence ends with `sp` one slot (4 bytes) below its starting value and
with 1 in the slot at `0(sp)` if `a op b` holds and 0 otherwise. -/
theorem comparison_synthesis (g : RISCVCodeGenerator) (m : Machine) (op : BinaryOp)
    (a b : Int) (hopt : g.optimizationsEnabled = false)
    (hop : op = .LT ∨ op = .LE ∨ op = .GT ∨ op = .GE ∨ op = .EQ ∨ op = .NE)
    (ha : isInt32 a) (hb : isInt32 b) :
    emitted g (visitExpression (.BinaryExpression op (.NumberLiteral a) (.NumberLiteral b)) g)
        = literalOperands a b ++ (emitBinaryOp (withOutput g []) op).output
            ++ [.sw .t0 0 .sp]
    ∧ (∃ m1, run m (literalOperands a b) = some m1
        ∧ m1.regs .t0 = toWord a ∧ m1.regs .t1 = toWord b)
    ∧ ∃ m2, run m (emitted g
          (visitExpression (.BinaryExpression op (.NumberLiteral a) (.NumberLiteral b)) g))
          = some m2
        ∧ m2.regs .sp = toWord ((m.regs .sp : Int) + -4)
        ∧ m2.mem (address (m2.regs .sp) 0) = (if comparisonHolds op a b then 1 else 0) := by
  obtain ⟨m1, r1, t0, t1, sp1⟩ := run_literalOperands m a b
  obtain ⟨m2, r2, sp2, top⟩ := run_comparison g m1 op a b t0 t1 ha hb hop
  have hcode := exprCode_binary_literals g op a b hopt
  rw [emitted_visitExpression, hcode]
  refine ⟨rfl, ⟨m1, r1, t0, t1⟩, m2, ?_, ?_, ?_⟩
  · rw [List.append_assoc, run_append, r1]
    exact r2
  · rw [sp2, sp1]
  · rw [sp2]
    exact top

/-- Witness for C17: `2 <= 3` on a fresh generator, run from a machine with `sp = 1000`. -/
theorem comparison_synthesis_witness :
    RISCVCodeGenerator.new.optimizationsEnabled = false
    ∧ isInt32 2 ∧ isInt32 3
    ∧ emitted RISCVCodeGenerator.new
        (visitExpression (.BinaryExpression .LE (.NumberLiteral 2) (.NumberLiteral 3))
          RISCVCodeGenerator.new)
        = literalOperands 2 3
            ++ (emitBinaryOp (withOutput RISCVCodeGenerator.new []) .LE).output
            ++ [.sw .t0 0 .sp]
    ∧ (∃ m1, run sampleMachine (literalOperands 2 3) = some m1
        ∧ m1.regs .t0 = toWord 2 ∧ m1.regs .t1 = toWord 3)
    ∧ ∃ m2, run sampleMachine (emitted RISCVCodeGenerator.new
          (visitExpression (.BinaryExpression .LE (.NumberLiteral 2) (.NumberLiteral 3))
            RISCVCodeGenerator.new))
          = some m2
        ∧ m2.regs .sp = toWord ((sampleMachine.regs .sp : Int) + -4)
        ∧ m2.mem (address (m2.regs .sp) 0)
            = (if comparisonHolds .LE 2 3 then 1 else 0) :=
  ⟨rfl, by decide, by decide,
    comparison_synthesis RISCVCodeGenerator.new sampleMachine .LE 2 3 rfl
      (Or.inr (Or.inl rfl)) (by decide) (by decide)⟩

/-- Running the code of `2 <= 3` and of `3 <= 2` from `sp = 1000`: the slot at 996 receives
1 and 0, and `sp` ends at 996. -/
theorem comparison_example :
    (run sampleMachine
        (exprCode (.BinaryExpression .LE (.NumberLiteral 2) (.NumberLiteral 3))
          RISCVCodeGenerator.new)).map (fun m => (m.regs .sp, m.mem 996)) = some (996, 1)
    ∧ (run sampleMachine
        (exprCode (.BinaryExpression .LE (.NumberLiteral 3) (.NumberLiteral 2))
          RISCVCodeGenerator.new)).map (fun m => (m.regs .sp, m.mem 996)) = some (996, 0) := by
  refine ⟨by decide!, by decide!⟩

/-! ## Generated labels are pairwise distinct -/

/-- Two generated labels with the same text have the same prefix. -/
theorem generated_label_prefix_eq {p q : String} {n m : Nat}
    (hp : p ∈ labelPrefixes) (hq : q ∈ labelPrefixes)
    (h : p ++ toString n = q ++ toString m) : p = q := by
  have hd := congrArg String.data h
  simp only [String.data_append] at hd
  simp only [labelPrefixes, List.mem_cons, List.mem_singleton, List.not_mem_nil,
    or_false] at hp hq
  have e1 : "else".data = ['e', 'l', 's', 'e'] := rfl
  have e2 : "endif".data = ['e', 'n', 'd', 'i', 'f'] := rfl
  have e3 : "loop".data = ['l', 'o', 'o', 'p'] := rfl
  have e4 : "endloop".data = ['e', 'n', 'd', 'l', 'o', 'o', 'p'] := rfl
  rcases hp with rfl | rfl | rfl | rfl <;> rcases hq with rfl | rfl | rfl | rfl <;>
    first
      | rfl
      | (exfalso
         simp only [e1, e2, e3, e4, List.cons_append, List.nil_append, List.cons.injEq] at hd
         first
           | exact absurd hd.1 (by decide)
           | exact absurd hd.2.1 (by decide)
           | exact absurd hd.2.2.2.1 (by decide))

theorem labelCount_same {o o2 : List Line} {c c2 : Nat} (h1 : labelDefs o2 = labelDefs o)
    (h2 : c2 = c) : (labelDefs o2).length + c = (labelDefs o).length + c2 := by
  rw [h1, h2]

mutual
/-- Lowering a statement adds exactly as many label-definition lines as it advances the
label counter: every label taken from `newLabel` is defined once. -/
theorem visitStatement_labelCount : ∀ (s : Statement) (g : RISCVCodeGenerator),
    (labelDefs (visitStatement s g).output).length + g.labelCounter
      = (labelDefs g.output).length + (visitStatement s g).labelCounter
  | .AssignmentStatement v e, g => by
      apply labelCount_same
      · simp only [visitStatement]
        split <;> simp [labelName, labelDefs_visitExpression]
      · simp only [visitStatement]
        split <;> simp
  | .VariableDeclaration name (some e), g => by
      apply labelCount_same <;> simp [visitStatement, labelName, labelDefs_visitExpression]
  | .VariableDeclaration name none, g => by
      apply labelCount_same <;> simp [visitStatement, labelName]
  | .Block ss, g => by
      rw [visitStatement_block_output, visitStatement_block_labelCounter]
      exact visitStatements_labelCount ss
        { g with scopeStack := g.localVariables :: g.scopeStack }
  | .IfStatement c t none, g => by
      obtain ⟨hco, hcc⟩ := ifCondState_labels c g
      have ih := visitStatement_labelCount t (ifCondState c g)
      rw [hco, hcc] at ih
      rw [visitStatement_if_none]
      simp only [labelDefs_emitLabel, labelDefs_emit, labelName, Option.toList,
        List.append_nil, List.length_append, List.length_singleton, emitLabel_labelCounter,
        emit_labelCounter]
      omega
  | .IfStatement c t (some e), g => by
      obtain ⟨hco, hcc⟩ := ifCondState_labels c g
      have ih := visitStatement_labelCount t (ifCondState c g)
      have ih2 := visitStatement_labelCount e
        (emitLabel
          (emit (visitStatement t (ifCondState c g))
            (.j ("endif" ++ toString (g.labelCounter + 1))))
          ("else" ++ toString g.labelCounter))
      rw [hco, hcc] at ih
      simp only [labelDefs_emitLabel, labelDefs_emit, labelName, Option.toList,
        List.append_nil, List.length_append, List.length_singleton, emitLabel_labelCounter,
        emit_labelCounter] at ih2
      rw [visitStatement_if_some]
      simp only [labelDefs_emitLabel, List.length_append, List.length_singleton,
        emitLabel_labelCounter]
      omega
  | .WhileStatement c b, g => by
      obtain ⟨hco, hcc⟩ := whileCondState_labels c g
      have ih := visitStatement_labelCount b (whileCondState c g)
      rw [hco, hcc] at ih
      rw [visitStatement_while_output, visitStatement_while_labelCounter]
      simp only [labelDefs_emitLabel, labelDefs_emit, labelName, Option.toList,
        List.append_nil, List.length_append, List.length_singleton] at ih ⊢
      omega
  | .BreakStatement, g => by
      apply labelCount_same
      · simp only [visitStatement]
        split <;> simp [labelName]
      · simp only [visitStatement]
        split <;> simp
  | .ContinueStatement, g => by
      apply labelCount_same
      · simp only [visitStatement]
        split <;> simp [labelName]
      · simp only [visitStatement]
        split <;> simp
  | .ReturnStatement (some e), g => by
      apply labelCount_same <;> simp [visitStatement, labelName, labelDefs_visitExpression]
  | .ReturnStatement none, g => by
      apply labelCount_same <;> simp [visitStatement]
  | .ExpressionStatement e, g => by
      apply labelCount_same <;> simp [visitStatement, labelName, labelDefs_visitExpression]
theorem visitStatements_labelCount : ∀ (ss : List Statement) (g : RISCVCodeGenerator),
    (labelDefs (visitStatements ss g).output).length + g.labelCounter
      = (labelDefs g.output).length + (visitStatements ss g).labelCounter
  | [], g => by simp [visitStatements]
  | s :: rest, g => by
      have h1 := visitStatement_labelCount s g
      have h2 := visitStatements_labelCount rest (visitStatement s g)
      simp only [visitStatements]
      omega
end

/-- The labels of a function: its name, then fresh generated labels, one for every step of
the label counter. -/
theorem visitFunctionDefinition_generated (node : FunctionDefinition)
    (g : RISCVCodeGenerator) :
    ∃ L, labelDefs (visitFunctionDefinition node g).output
          = labelDefs g.output ++ node.name :: L
      ∧ g.labelCounter ≤ (visitFunctionDefinition node g).labelCounter
      ∧ GenLabels g.labelCounter (visitFunctionDefinition node g).labelCounter L
      ∧ L.length + g.labelCounter = (visitFunctionDefinition node g).labelCounter := by
  obtain ⟨L, e, l, gl⟩ := visitFunctionDefinition_labels node g
  refine ⟨L, e, l, gl, ?_⟩
  obtain ⟨h1, h2⟩ := enterFunction_labels node g
  have hc := visitStatement_labelCount (.Block node.body) (enterFunction node g)
  have hout : labelDefs (visitFunctionDefinition node g).output
      = labelDefs (visitStatement (.Block node.body) (enterFunction node g)).output := by
    unfold visitFunctionDefinition
    dsimp only
    split
    · exact labelDefs_generateEpilogue _
    · rfl
  have hcnt : (visitFunctionDefinition node g).labelCounter
      = (visitStatement (.Block node.body) (enterFunction node g)).labelCounter := by
    unfold visitFunctionDefinition
    dsimp only
    split <;> rfl
  have hlen : (labelDefs (visitFunctionDefinition node g).output).length
      = (labelDefs g.output).length + (L.length + 1) := by
    rw [e, List.length_append, List.length_cons]
  have hlen2 : (labelDefs (enterFunction node g).output).length
      = (labelDefs g.output).length + 1 := by
    rw [h1, List.length_append, List.length_singleton]
  rw [← hout, ← hcnt, hlen, hlen2, h2] at hc
  omega

/-- The labels of a sequence of functions, with no assumption on the function names. -/
theorem visitFunctions_generated :
    ∀ (fns : List FunctionDefinition) (g : RISCVCodeGenerator),
      ∃ Ls : List (List String), Ls.length = fns.length
        ∧ labelDefs (fns.foldl (fun g func => visitFunctionDefinition func g) g).output
            = labelDefs g.output ++ unitLabels fns Ls
        ∧ g.labelCounter
            ≤ (fns.foldl (fun g func => visitFunctionDefinition func g) g).labelCounter
        ∧ GenLabels g.labelCounter
            (fns.foldl (fun g func => visitFunctionDefinition func g) g).labelCounter
            Ls.flatten
        ∧ Ls.flatten.length + g.labelCounter
            = (fns.foldl (fun g func => visitFunctionDefinition func g) g).labelCounter := by
  intro fns
  induction fns with
  | nil =>
      intro g
      exact ⟨[], rfl, by simp [unitLabels], le_refl _, genLabels_nil _ _, by simp⟩
  | cons f rest ih =>
      intro g
      obtain ⟨L, e, l, gl, n⟩ := visitFunctionDefinition_generated f g
      obtain ⟨Ls, hlen, e2, l2, gl2, n2⟩ := ih (visitFunctionDefinition f g)
      refine ⟨L :: Ls, by simp [hlen], ?_, ?_, ?_, ?_⟩
      · simp only [List.foldl_cons]
        rw [e2, e]
        simp [unitLabels]
      · simp only [List.foldl_cons]
        omega
      · simp only [List.foldl_cons, List.flatten_cons]
        exact genLabels_mono (genLabels_append gl gl2 (Or.inl (le_refl _))) (by omega)
          (by omega)
      · simp only [List.foldl_cons, List.flatten_cons, List.length_append]
        omega

/-- C20 (generated labels are pairwise distinct): `newLabel` returns the prefix followed by
the decimal label counter and advances the counter by one; prefix plus decimal counter is
injective for the prefixes `else`, `endif`, `loop`, `endloop`; and in one `generate` call,
from any generator state, the label-definition lines are the function names, each followed
by the labels generated in that function, where the generated labels are pairwise
different, each is a prefix followed by a counter value below the final label counter, and
there are as many of them as the final label counter, which started from 0. -/
theorem generated_labels_distinct (g : RISCVCodeGenerator) (unit : CompilationUnit)
    (funcTable : List (String × FunctionInfo)) :
    (∀ (g1 : RISCVCodeGenerator) (pre : String),
        newLabel g1 pre
          = (pre ++ toString g1.labelCounter, { g1 with labelCounter := g1.labelCounter + 1 }))
    ∧ (∀ (p q : String) (n m : Nat), p ∈ labelPrefixes → q ∈ labelPrefixes →
        p ++ toString n = q ++ toString m → p = q ∧ n = m)
    ∧ ∃ Ls : List (List String), Ls.length = unit.functions.length
        ∧ labelDefs (generate g unit funcTable).output = unitLabels unit.functions Ls
        ∧ Ls.flatten.Nodup
        ∧ (∀ l ∈ Ls.flatten, ∃ pre ∈ labelPrefixes, ∃ n : Nat,
            n < (generate g unit funcTable).labelCounter ∧ l = pre ++ toString n)
        ∧ Ls.flatten.length = (generate g unit funcTable).labelCounter := by
  refine ⟨fun _ _ => rfl, ?_, ?_⟩
  · intro p q n m hp hq h
    exact ⟨generated_label_prefix_eq hp hq h, generated_label_injective hp hq h⟩
  · obtain ⟨Ls, hlen, e, _, gl, n⟩ := visitFunctions_generated unit.functions
      (emit (emit (emit
        { g with output := [], functions := funcTable, stackOffset := 0, labelCounter := 0 }
        (.directive ".data")) (.directive ".text")) (.directive ".global main"))
    refine ⟨Ls, hlen, ?_, gl.1, ?_, ?_⟩
    · have h : labelDefs (generate g unit funcTable).output
          = labelDefs (emit (emit (emit
              { g with output := [], functions := funcTable, stackOffset := 0,
                       labelCounter := 0 }
              (.directive ".data")) (.directive ".text")) (.directive ".global main")).output
            ++ unitLabels unit.functions Ls := e
      rw [h]
      simp [labelName]
    · intro l hl
      obtain ⟨pre, hpre, k, _, hk, hl2⟩ := gl.2 l hl
      exact ⟨pre, hpre, k, hk, hl2⟩
    · have h : Ls.flatten.length + 0 = (generate g unit funcTable).labelCounter := n
      omega

/-- The generated labels of the unit with the function named `loop0`: `loop0` and
`endloop1` are different from each other, whatever the function is called. -/
theorem generated_labels_example :
    labelDefs (generate RISCVCodeGenerator.new loopNamedUnit []).output
        = unitLabels loopNamedUnit.functions [["loop0", "endloop1"]]
    ∧ (generate RISCVCodeGenerator.new loopNamedUnit []).labelCounter = 2 := by
  refine ⟨by decide!, by decide!⟩

/-! ## The generator stops only in the folding code -/

@[simp] theorem emit_crashed (g : RISCVCodeGenerator) (l : Line) :
    (emit g l).crashed = g.crashed := rfl

@[simp] theorem emitLabel_crashed (g : RISCVCodeGenerator) (l : String) :
    (emitLabel g l).crashed = g.crashed := rfl

@[simp] theorem generateEpilogue_crashed (g : RISCVCodeGenerator) :
    (generateEpilogue g).crashed = g.crashed := rfl

mutual
/-- With optimizations disabled no expression stops the generator. -/
theorem visitExpression_crashed : ∀ (e : Expression) (g : RISCVCodeGenerator),
    g.optimizationsEnabled = false → (visitExpression e g).crashed = g.crashed
  | .NumberLiteral v, g, _ => by simp [visitExpression]
  | .Identifier name, g, _ => by
      simp only [visitExpression]
      split <;> simp
  | .UnaryExpression op operand, g, h => by
      have ih := visitExpression_crashed operand g h
      simp only [visitExpression, emit_crashed, emitUnaryOp_crashed, ih]
  | .BinaryExpression op left right, g, h => by
      have ihl := visitExpression_crashed left g h
      have ihr := visitExpression_crashed right (visitExpression left g)
        ((visitExpression_optimizationsEnabled left g).trans h)
      simp [visitExpression, h, emitBinaryOp_crashed, ihr, ihl]
  | .FunctionCall f args, g, h => by
      have ih := visitArguments_crashed args 0 0 g h
      simp only [visitExpression]
      split <;> simp [ih]
theorem visitArguments_crashed : ∀ (args : List Expression) (i : Nat) (n : Int)
    (g : RISCVCodeGenerator), g.optimizationsEnabled = false →
    (visitArguments args i n g).1.crashed = g.crashed
  | [], i, n, g, _ => by simp [visitArguments]
  | arg :: rest, i, n, g, h => by
      have ih := visitExpression_crashed arg g h
      have ho := (visitExpression_optimizationsEnabled arg g).trans h
      simp only [visitArguments]
      split
      · rw [visitArguments_crashed rest (i + 1) n _ (by simpa using ho)]
        simp [ih]
      · rw [visitArguments_crashed rest (i + 1) (n + 1) _ (by simpa using ho)]
        simp [ih]
end

mutual
/-- With optimizations disabled no statement stops the generator. -/
theorem visitStatement_crashed : ∀ (s : Statement) (g : RISCVCodeGenerator),
    g.optimizationsEnabled = false → (visitStatement s g).crashed = g.crashed
  | .AssignmentStatement v e, g, h => by
      have ih := visitExpression_crashed e g h
      simp only [visitStatement]
      split <;> simp [ih]
  | .VariableDeclaration name (some e), g, h => by
      have ih := visitExpression_crashed e g h
      simp [visitStatement, ih]
  | .VariableDeclaration name none, g, _ => by simp [visitStatement]
  | .Block ss, g, h => by
      rw [visitStatement_block_eq]
      exact visitStatements_crashed ss
        { g with scopeStack := g.localVariables :: g.scopeStack } h
  | .IfStatement c t none, g, h => by
      have hc : (ifCondState c g).crashed = g.crashed := by
        unfold ifCondState newLabel
        dsimp only
        simp only [emit_crashed]
        exact visitExpression_crashed c _ h
      have ho : (ifCondState c g).optimizationsEnabled = false := by
        simp [ifCondState, newLabel, h]
      rw [visitStatement_if_none]
      simp only [emitLabel_crashed, emit_crashed, visitStatement_crashed t _ ho, hc]
  | .IfStatement c t (some e), g, h => by
      have hc : (ifCondState c g).crashed = g.crashed := by
        unfold ifCondState newLabel
        dsimp only
        simp only [emit_crashed]
        exact visitExpression_crashed c _ h
      have ho : (ifCondState c g).optimizationsEnabled = false := by
        simp [ifCondState, newLabel, h]
      have ht := visitStatement_crashed t _ ho
      have ho2 : (visitStatement t (ifCondState c g)).optimizationsEnabled = false :=
        (visitStatement_config t (ifCondState c g)).1.trans ho
      rw [visitStatement_if_some]
      simp only [emitLabel_crashed]
      rw [visitStatement_crashed e _ (by simpa using ho2)]
      simp only [emitLabel_crashed, emit_crashed, ht, hc]
  | .WhileStatement c b, g, h => by
      have hc : (whileCondState c g).crashed = g.crashed := by
        unfold whileCondState newLabel
        dsimp only
        simp only [emit_crashed]
        exact visitExpression_crashed c _ h
      have ho : (whileCondState c g).optimizationsEnabled = false := by
        simp [whileCondState, newLabel, h]
      rw [visitStatement_while_eq]
      simp [visitStatement_crashed b _ ho, hc]
  | .BreakStatement, g, _ => by
      simp only [visitStatement]
      split <;> simp
  | .ContinueStatement, g, _ => by
      simp only [visitStatement]
      split <;> simp
  | .ReturnStatement (some e), g, h => by
      have ih := visitExpression_crashed e g h
      simp [visitStatement, ih]
  | .ReturnStatement none, g, _ => by simp [visitStatement]
  | .ExpressionStatement e, g, h => by
      have ih := visitExpression_crashed e g h
      simp [visitStatement, ih]
theorem visitStatements_crashed : ∀ (ss : List Statement) (g : RISCVCodeGenerator),
    g.optimizationsEnabled = false → (visitStatements ss g).crashed = g.crashed
  | [], g, _ => by simp [visitStatements]
  | s :: rest, g, h => by
      have i1 := visitStatement_crashed s g h
      have ho : (visitStatement s g).optimizationsEnabled = false :=
        (visitStatement_config s g).1.trans h
      simp only [visitStatements]
      exact (visitStatements_crashed rest (visitStatement s g) ho).trans i1
end

theorem bindParameters_crashed :
    ∀ (ps : List Parameter) (i : Nat) (g : RISCVCodeGenerator),
      (bindParameters ps i g).crashed = g.crashed := by
  intro ps
  induction ps with
  | nil => intro i g; rfl
  | cons p rest ih =>
      intro i g
      simp only [bindParameters]
      split
      · exact ih (i + 1) _
      · exact ih (i + 1) g

theorem generatePrologue_crashed (g : RISCVCodeGenerator) (name : String) (size : Int) :
    (generatePrologue g name size).crashed = g.crashed := by
  unfold generatePrologue
  dsimp only
  split <;> rfl

theorem visitFunctionDefinition_crashed (node : FunctionDefinition) (g : RISCVCodeGenerator)
    (h : g.optimizationsEnabled = false) :
    (visitFunctionDefinition node g).crashed = g.crashed := by
  have he : enterFunction node g = bindParameters node.parameters 0
      (generatePrologue
        { g with currentFunction := node.name, localVariables := [], stackOffset := -20 }
        node.name (frameSize node)) := rfl
  have ho : (enterFunction node g).optimizationsEnabled = false := by
    rw [he, (bindParameters_kept _ _ _).1, (generatePrologue_kept _ _ _).1]
    exact h
  have hc : (enterFunction node g).crashed = g.crashed := by
    rw [he, bindParameters_crashed, generatePrologue_crashed]
  have hb := visitStatement_crashed (.Block node.body) (enterFunction node g) ho
  unfold visitFunctionDefinition
  dsimp only
  split
  · rw [generateEpilogue_crashed, hb, hc]
  · rw [hb, hc]

theorem visitFunctions_crashed (fns : List FunctionDefinition) :
    ∀ g : RISCVCodeGenerator, g.optimizationsEnabled = false →
      (fns.foldl (fun g func => visitFunctionDefinition func g) g).crashed = g.crashed := by
  induction fns with
  | nil => intro g _; rfl
  | cons f rest ih =>
      intro g h
      simp only [List.foldl_cons]
      rw [ih _ ((visitFunctionDefinition_kept f g).1.trans h)]
      exact visitFunctionDefinition_crashed f g h

/-- With optimizations disabled `generate` returns its text for every unit: the generator
evaluates no division of its own. -/
theorem generateText_unoptimized (g : RISCVCodeGenerator) (unit : CompilationUnit)
    (funcTable : List (String × FunctionInfo))
    (hopt : g.optimizationsEnabled = false) (hlive : g.crashed = false) :
    generateText g unit funcTable = some (renderOutput (generate g unit funcTable).output) := by
  have h : (generate g unit funcTable).crashed = false :=
    (visitFunctions_crashed unit.functions
      (emit (emit (emit
        { g with output := [], functions := funcTable, stackOffset := 0, labelCounter := 0 }
        (.directive ".data")) (.directive ".text")) (.directive ".global main")) hopt).trans
      hlive
  unfold generateText
  rw [h]
  rfl

end ToyC
